import Mathlib

/-!
Receipt points service: shallow embedding of `main.go`.

The Go program decodes a receipt, validates it, scores it with `calculatePoints`
and keeps the score in a process-wide map keyed by a generated identifier.

Modelling choices.

* Go strings that come out of `encoding/json` are valid UTF-8, so a Go string is a
  Lean `String`; `len` is the UTF-8 byte count.
* `float64` is modelled exactly: a finite value is `(-1)^neg * mant * 2^exp`, every
  rounding operation rounds the exact result to the nearest binary64 value, ties to
  even, as IEEE-754 and `strconv.ParseFloat` prescribe.
* Go's `int` is the 64-bit two's-complement integer; additions that can leave the
  `int64` range wrap around (`wrap64`).
* The library routines the program calls (`strconv.ParseFloat`, `time.Parse` with the
  two layouts used, `strings.TrimSpace`, `math.Mod`, `math.Ceil`) are modelled after
  the Go standard library.
-/

namespace ReceiptChallenge

/-! ## Data model (`main.go`, lines 18-29) -/

/-- Go `Item` struct. -/
structure Item where
  ShortDescription : String
  Price : String
deriving DecidableEq, Repr

/-- Go `Receipt` struct. -/
structure Receipt where
  Retailer : String
  PurchaseDate : String
  PurchaseTime : String
  Items : List Item
  Total : String
deriving DecidableEq, Repr

/-! ## Bytes and characters -/

/-- ASCII decimal digit test, `'0' <= c && c <= '9'`. -/
def isDigit (c : Char) : Bool := decide (48 ≤ c.toNat ∧ c.toNat ≤ 57)

/-- Numeric value of an ASCII decimal digit, `c - '0'`. -/
def digitVal (c : Char) : Nat := c.toNat - 48

/-- Go `lower(c)` of package strconv: `c | ('x' - 'X')`, restricted to what the callers
compare it with (ASCII letters): upper-case ASCII letters are mapped to lower case,
every other character is left alone. -/
def lower (c : Char) : Char :=
  if 65 ≤ c.toNat ∧ c.toNat ≤ 90 then Char.ofNat (c.toNat + 32) else c

/-- ASCII hexadecimal letter test, `'a' <= lower(c) && lower(c) <= 'f'`. -/
def isHexLetter (c : Char) : Bool :=
  decide (97 ≤ (lower c).toNat ∧ (lower c).toNat ≤ 102)

/-- Numeric value of a hexadecimal letter, `lower(c) - 'a' + 10`. -/
def hexLetterVal (c : Char) : Nat := (lower c).toNat - 97 + 10

/-- The character class `[a-zA-Z0-9]` of `alphanumericRegex`. -/
def isAlphanumeric (c : Char) : Bool :=
  decide ((97 ≤ c.toNat ∧ c.toNat ≤ 122) ∨ (65 ≤ c.toNat ∧ c.toNat ≤ 90) ∨
    (48 ≤ c.toNat ∧ c.toNat ≤ 57))

/-- Value of `len(alphanumericRegex.FindAllString(s, -1))`: the regular expression
matches exactly one character of the class at a time, so the non-overlapping matches
are the characters of the class. -/
def alphanumericCount (s : String) : Nat := (s.toList.filter isAlphanumeric).length

/-- Go `unicode.IsSpace`: the characters with the Unicode White_Space property. -/
def isSpace (c : Char) : Bool :=
  let n := c.toNat
  decide ((9 ≤ n ∧ n ≤ 13) ∨ n = 32 ∨ n = 0x85 ∨ n = 0xA0 ∨ n = 0x1680 ∨
    (0x2000 ≤ n ∧ n ≤ 0x200A) ∨ n = 0x2028 ∨ n = 0x2029 ∨ n = 0x202F ∨ n = 0x205F ∨
    n = 0x3000)

/-- Go `strings.TrimSpace`: the string without its leading and trailing white space. -/
def TrimSpace (s : String) : List Char :=
  ((s.toList.dropWhile isSpace).reverse.dropWhile isSpace).reverse

/-- Go `len` of a string given by its characters: the number of UTF-8 bytes. -/
def byteLen (cs : List Char) : Nat := (cs.map Char.utf8Size).sum

/-! ## `int` arithmetic -/

/-- Two's-complement wrap-around of a mathematical integer into the `int64` range. -/
def wrap64 (x : Int) : Int := (x + 2 ^ 63) % 2 ^ 64 - 2 ^ 63

/-! ## `float64` -/

/-- A `float64` value: not-a-number, an infinity, or the finite value
`(-1)^neg * mant * 2^exp` (zero keeps its sign). -/
inductive F64 where
  | nan : F64
  | inf (neg : Bool) : F64
  | fin (neg : Bool) (mant : Nat) (exp : Int) : F64
deriving DecidableEq, Repr

/-- Number of binary digits of `n` added to `acc`, by halving (`fuel` bounds the number
of steps). -/
def bitLenAux : Nat → Nat → Nat → Nat
  | 0, _, acc => acc
  | fuel + 1, n, acc => if n = 0 then acc else bitLenAux fuel (n / 2) (acc + 1)

/-- Number of binary digits of `n` (`0` for `0`). -/
def bitLen (n : Nat) : Nat := bitLenAux n n 0

/-- Quotient and remainder of `num / den` scaled by `2^(-e)`, with the divisor used:
`num / (den * 2^e) = q + r / d`. -/
def divPow2 (num den : Nat) (e : Int) : Nat × Nat × Nat :=
  if 0 ≤ e then
    let d := den * 2 ^ e.toNat
    (num / d, num % d, d)
  else
    let n := num * 2 ^ (-e).toNat
    (n / den, n % den, den)

/-- Floor of the binary logarithm of the positive rational `num / den`. -/
def ilog2 (num den : Nat) : Int :=
  let l : Int := (bitLen num : Int) - (bitLen den : Int)
  if 1 ≤ (divPow2 num den l).1 then l else l - 1

/-- Nearest binary64 value of the rational `(-1)^neg * num / den` (`den > 0`), ties to
even; a result of magnitude `2^1024` or more is an infinity. -/
def roundRat (neg : Bool) (num den : Nat) : F64 :=
  if num = 0 then F64.fin neg 0 0 else
  let e : Int := max (ilog2 num den - 52) (-1074)
  let qrd := divPow2 num den e
  let q := qrd.1
  let r := qrd.2.1
  let d := qrd.2.2
  let m := if d < 2 * r ∨ (2 * r = d ∧ q % 2 = 1) then q + 1 else q
  if 971 < e ∨ (e = 971 ∧ 2 ^ 53 ≤ m) then F64.inf neg else F64.fin neg m e

/-- Nearest binary64 value of `(-1)^neg * m * 2^e`. -/
def roundDyadic (neg : Bool) (m : Nat) (e : Int) : F64 :=
  if 0 ≤ e then roundRat neg (m * 2 ^ e.toNat) 1 else roundRat neg m (2 ^ (-e).toNat)

namespace F64

/-- The constant `0` test `x == 0`. -/
def isZero : F64 → Bool
  | fin _ m _ => m == 0
  | _ => false

/-- The comparison `x <= 0`. -/
def leZero : F64 → Bool
  | nan => false
  | inf neg => neg
  | fin neg m _ => neg || m == 0

/-- Floating-point product `x * y`. -/
def mul : F64 → F64 → F64
  | nan, _ => nan
  | _, nan => nan
  | inf a, inf b => inf (a != b)
  | inf a, fin b m _ => if m = 0 then nan else inf (a != b)
  | fin a m _, inf b => if m = 0 then nan else inf (a != b)
  | fin a m1 e1, fin b m2 e2 => roundDyadic (a != b) (m1 * m2) (e1 + e2)

/-- Go `math.Mod(x, y)`: the exact remainder of `x / y` with the sign of `x`. -/
def mod : F64 → F64 → F64
  | nan, _ => nan
  | _, nan => nan
  | inf _, _ => nan
  | fin n m e, inf _ => fin n m e
  | fin nx mx ex, fin _ my ey =>
    if my = 0 then nan else
    let e0 := min ex ey
    fin nx ((mx * 2 ^ (ex - e0).toNat) % (my * 2 ^ (ey - e0).toNat)) e0

/-- Go `math.Ceil(x)`. -/
def ceil : F64 → F64
  | fin neg m e =>
    if 0 ≤ e then fin neg m e
    else
      let d := 2 ^ (-e).toNat
      if neg then fin true (m / d) 0 else fin false ((m + d - 1) / d) 0
  | x => x

/-- Go conversion `int(x)`: truncation toward zero. For a value outside the `int64`
range (infinities and not-a-number included) Go leaves the result to the
implementation; the value taken here is the one of amd64, `-2^63`. -/
def toInt : F64 → Int
  | fin neg m e =>
    let t : Int := if 0 ≤ e then (m * 2 ^ e.toNat : Nat) else (m / 2 ^ (-e).toNat : Nat)
    let v : Int := if neg then -t else t
    if -2 ^ 63 ≤ v ∧ v < 2 ^ 63 then v else -2 ^ 63
  | _ => -2 ^ 63

/-- The constant `1`. -/
def one : F64 := fin false 1 0

/-- The constant `0.25`. -/
def quarter : F64 := fin false 1 (-2)

/-- The constant `0.2` as a `float64`: the binary64 value nearest to `1/5`. -/
def fifth : F64 := roundRat false 1 5

end F64

/-! ## `strconv.ParseFloat(s, 64)` -/

/-- The two errors of `strconv.ParseFloat`. -/
inductive NumError where
  | ErrSyntax : NumError
  | ErrRange : NumError
deriving DecidableEq, Repr

/-- Go `commonPrefixLenIgnoreCase(s, prefix)` for a lower-case `prefix`. -/
def commonPrefixLenIgnoreCase : List Char → List Char → Nat
  | c :: s, p :: prefix_ =>
    if lower c = p then commonPrefixLenIgnoreCase s prefix_ + 1 else 0
  | _, _ => 0

/-- Go `special(s)`: recognises a possibly signed "inf"/"infinity" and an unsigned
"nan", in any letter case, at the start of `s`; returns the value and the number of
characters it stands on. -/
def special (s : List Char) : Option (F64 × Nat) :=
  match s with
  | [] => none
  | c :: rest =>
    let infinity := "infinity".toList
    if c = '+' ∨ c = '-' then
      let n := commonPrefixLenIgnoreCase rest infinity
      let n := if 3 < n ∧ n < 8 then 3 else n
      if n = 3 ∨ n = 8 then some (F64.inf (c = '-'), 1 + n) else none
    else if c = 'i' ∨ c = 'I' then
      let n := commonPrefixLenIgnoreCase s infinity
      let n := if 3 < n ∧ n < 8 then 3 else n
      if n = 3 ∨ n = 8 then some (F64.inf false, n) else none
    else if c = 'n' ∨ c = 'N' then
      if commonPrefixLenIgnoreCase s "nan".toList = 3 then some (F64.nan, 3) else none
    else none

/-- State of the mantissa loop of Go `readFloat`. `mant` holds every significant digit
read (Go keeps the first 19 and falls back to its exact decimal conversion when digits
were cut off, so that the result is the correctly rounded value of all of them). -/
structure MantState where
  mant : Nat
  nd : Nat
  dp : Int
  sawdot : Bool
  sawdigits : Bool
  underscores : Bool
deriving DecidableEq, Repr

/-- The mantissa loop of Go `readFloat`, in base 10 or (`hex`) 16; returns the final
state and the text left unread. -/
def readMantissa (hex : Bool) : List Char → MantState → MantState × List Char
  | [], st => (st, [])
  | c :: cs, st =>
    if c = '_' then readMantissa hex cs { st with underscores := true }
    else if c = '.' then
      if st.sawdot then (st, c :: cs)
      else readMantissa hex cs { st with sawdot := true, dp := st.nd }
    else if isDigit c then
      if c = '0' ∧ st.nd = 0 then
        readMantissa hex cs { st with sawdigits := true, dp := st.dp - 1 }
      else
        readMantissa hex cs
          { st with sawdigits := true
                    nd := st.nd + 1
                    mant := st.mant * (if hex then 16 else 10) + digitVal c }
    else if hex ∧ isHexLetter c then
      readMantissa hex cs
        { st with sawdigits := true
                  nd := st.nd + 1
                  mant := st.mant * 16 + hexLetterVal c }
    else (st, c :: cs)

/-- The exponent digit loop of Go `readFloat`: digits and underscores are read, the
value stops growing once it has reached 10000. Returns the value, whether an
underscore was met, and the text left unread. -/
def readExpDigits : List Char → Nat → Bool → Nat × Bool × List Char
  | [], e, u => (e, u, [])
  | c :: cs, e, u =>
    if c = '_' then readExpDigits cs e true
    else if isDigit c then readExpDigits cs (if e < 10000 then e * 10 + digitVal c else e) u
    else (e, u, c :: cs)

/-- The loop of Go `underscoreOK` over the number proper; `saw` is the class of the
last character: `'0'` a digit, `'_'` an underscore, `'!'` anything else. -/
def underscoreLoop (hex : Bool) : List Char → Char → Bool
  | [], saw => saw != '_'
  | c :: cs, saw =>
    if isDigit c ∨ (hex ∧ isHexLetter c) then underscoreLoop hex cs '0'
    else if c = '_' then
      if saw != '0' then false else underscoreLoop hex cs '_'
    else if saw = '_' then false
    else underscoreLoop hex cs '!'

/-- Go `underscoreOK(s)`: underscores stand only between digits, or between a base
prefix and a digit. -/
def underscoreOK (s : List Char) : Bool :=
  let s := match s with
    | c :: rest => if c = '-' ∨ c = '+' then rest else s
    | [] => s
  match s with
  | c0 :: c1 :: rest =>
    if c0 = '0' ∧ (lower c1 = 'b' ∨ lower c1 = 'o' ∨ lower c1 = 'x') then
      underscoreLoop (lower c1 = 'x') rest '0'
    else underscoreLoop false s '^'
  | _ => underscoreLoop false s '^'

/-- What Go `readFloat` extracts from a well-formed number: the sign, the base, all the
significant digits as a number, and the exponent of the base (10, or 2 for a
hexadecimal number) that places them, together with the number of characters read. -/
structure FloatText where
  neg : Bool
  hex : Bool
  mant : Nat
  exp : Int
  read : Nat
deriving DecidableEq, Repr

/-- Go `readFloat(s)`: `none` when `ok` is false. -/
def readFloat (s : List Char) : Option FloatText :=
  match s with
  | [] => none
  | c :: rest =>
    let neg : Bool := c = '-'
    let body := if c = '+' ∨ c = '-' then rest else s
    let hex : Bool := match body with
      | c0 :: c1 :: _ :: _ => c0 = '0' ∧ lower c1 = 'x'
      | _ => false
    let digits := if hex then body.drop 2 else body
    let (st, afterMant) := readMantissa hex digits ⟨0, 0, 0, false, false, false⟩
    if ¬ st.sawdigits then none else
    let dp : Int := if st.sawdot then st.dp else st.nd
    let dp : Int := if hex then dp * 4 else dp
    let ndMant : Int := if hex then (st.nd : Int) * 4 else st.nd
    let expChar := if hex then 'p' else 'e'
    let finish (dp : Int) (underscores : Bool) (unread : List Char) : Option FloatText :=
      let read := s.length - unread.length
      if underscores ∧ ¬ underscoreOK (s.take read) then none
      else some ⟨neg, hex, st.mant, dp - ndMant, read⟩
    match afterMant with
    | c :: afterE =>
      if lower c = expChar then
        match afterE with
        | [] => none
        | sgn :: afterSign =>
          let esign : Int := if sgn = '-' then -1 else 1
          let expText := if sgn = '+' ∨ sgn = '-' then afterSign else afterE
          match expText with
          | [] => none
          | d :: _ =>
            if ¬ isDigit d then none else
            let (e, u, unread) := readExpDigits expText 0 st.underscores
            finish (dp + e * esign) u unread
      else if hex then none
      else finish dp st.underscores afterMant
    | [] => if hex then none else finish dp st.underscores afterMant

/-- The `float64` nearest to the number a `FloatText` denotes. -/
def FloatText.toF64 (t : FloatText) : F64 :=
  if t.hex then roundDyadic t.neg t.mant t.exp
  else if 0 ≤ t.exp then roundRat t.neg (t.mant * 10 ^ t.exp.toNat) 1
  else roundRat t.neg t.mant (10 ^ (-t.exp).toNat)

/-- Go `strconv.ParseFloat(s, 64)`: the text must be, in full, a special value or a
decimal or hexadecimal floating-point number; the result is the nearest `float64`,
and a number that rounds to an infinity is the error `ErrRange`. -/
def ParseFloat (s : String) : Except NumError F64 :=
  let cs := s.toList
  match special cs with
  | some (f, n) => if n ≠ cs.length then .error .ErrSyntax else .ok f
  | none =>
    match readFloat cs with
    | none => .error .ErrSyntax
    | some t =>
      if t.read ≠ cs.length then .error .ErrSyntax
      else match t.toF64 with
        | F64.inf _ => .error .ErrRange
        | f => .ok f

/-! ## `time.Parse` for the layouts "2006-01-02" and "15:04" -/

/-- Go `getnum(s, fixed)` of package time: a one- or two-digit number at the start of
`s` (exactly two digits when `fixed`), and the rest of `s`. -/
def getnum (s : List Char) (fixed : Bool) : Option (Nat × List Char) :=
  match s with
  | [] => none
  | c0 :: rest =>
    if ¬ isDigit c0 then none else
    match rest with
    | c1 :: rest1 =>
      if isDigit c1 then some (digitVal c0 * 10 + digitVal c1, rest1)
      else if fixed then none else some (digitVal c0, rest)
    | [] => if fixed then none else some (digitVal c0, rest)

/-- Go `isLeap(year)`. -/
def isLeap (year : Nat) : Bool := year % 4 = 0 ∧ (year % 100 ≠ 0 ∨ year % 400 = 0)

/-- Go `daysIn(m, year)`. -/
def daysIn (month year : Nat) : Nat :=
  if month = 2 ∧ isLeap year then 29
  else [31, 28, 31, 30, 31, 30, 31, 31, 30, 31, 30, 31].getD (month - 1) 0

/-- Calendar date produced by `time.Parse("2006-01-02", _)`. -/
structure Date where
  Year : Nat
  Month : Nat
  Day : Nat
deriving DecidableEq, Repr

/-- Clock time produced by `time.Parse("15:04", _)`. -/
structure Clock where
  Hour : Nat
  Minute : Nat
deriving DecidableEq, Repr

/-- Go `time.Parse("2006-01-02", value)`, `none` for an error: four digits of year,
"-", two digits of month in 1..12, "-", two digits of day, nothing after them, and a
day that exists in the month. -/
def parseDate (value : String) : Option Date :=
  match value.toList with
  | y0 :: y1 :: y2 :: y3 :: rest =>
    if ¬ (isDigit y0 ∧ isDigit y1 ∧ isDigit y2 ∧ isDigit y3) then none else
    let year := ((digitVal y0 * 10 + digitVal y1) * 10 + digitVal y2) * 10 + digitVal y3
    match rest with
    | '-' :: rest =>
      match getnum rest true with
      | none => none
      | some (month, rest) =>
        if month = 0 ∨ 12 < month then none else
        match rest with
        | '-' :: rest =>
          match getnum rest true with
          | none => none
          | some (day, rest) =>
            if rest ≠ [] then none
            else if day < 1 ∨ daysIn month year < day then none
            else some ⟨year, month, day⟩
        | _ => none
    | _ => none
  | _ => none

/-- Go `time.Parse("15:04", value)`, `none` for an error: one or two digits of hour
below 24, ":", two digits of minute below 60, nothing after them. -/
def parseClock (value : String) : Option Clock :=
  match getnum value.toList false with
  | none => none
  | some (hour, rest) =>
    if 24 ≤ hour then none else
    match rest with
    | ':' :: rest =>
      match getnum rest true with
      | none => none
      | some (min, rest) =>
        if 60 ≤ min then none
        else if rest ≠ [] then none
        else some ⟨hour, min⟩
    | _ => none

/-! ## `calculatePoints` (`main.go`, lines 96-139) -/

/-- Body of the loop over the items (lines 114-126): the value of `points` after the
iteration for `item`. -/
def itemStep (points : Int) (item : Item) : Int :=
  let descriptionLength := byteLen (TrimSpace item.ShortDescription)
  if descriptionLength = 0 then points
  else if descriptionLength % 3 = 0 then
    match ParseFloat item.Price with
    | .error _ => points
    | .ok price =>
      if price.leZero then points
      else wrap64 (points + (F64.ceil (F64.mul price F64.fifth)).toInt)
  else points

/-- Lines 128-131 of `calculatePoints`, the odd-day rule: the value of `points` after
them. -/
def oddDayStep (purchaseDate : String) (points : Int) : Int :=
  match parseDate purchaseDate with
  | some date => if date.Day % 2 ≠ 0 then wrap64 (points + 6) else points
  | none => points

/-- Lines 133-136 of `calculatePoints`, the afternoon rule: the value of `points` after
them. -/
def afternoonStep (purchaseTime : String) (points : Int) : Int :=
  match parseClock purchaseTime with
  | some purchaseTime =>
    if 14 ≤ purchaseTime.Hour ∧ purchaseTime.Hour < 16 then wrap64 (points + 10) else points
  | none => points

/-- Lines 112-138 of `calculatePoints`, run from the value `points` has after the two
rules on the total: the item-pair rule, the item loop, the odd-day rule and the
afternoon rule. From the item loop on the running total can leave the `int64` range,
and wraps. -/
def scoreItemsDateTime (receipt : Receipt) (points : Int) : Int :=
  let points := points + (receipt.Items.length / 2 : Nat) * 5
  let points := receipt.Items.foldl itemStep points
  let points := oddDayStep receipt.PurchaseDate points
  let points := afternoonStep receipt.PurchaseTime points
  points

/-- Go `calculatePoints`. The additions of lines 98-112 are bounded by the lengths of
the retailer name and of the item slice and cannot overflow. -/
def calculatePoints (receipt : Receipt) : Int :=
  let points : Int := 0
  let points := points + alphanumericCount receipt.Retailer
  match ParseFloat receipt.Total with
  | .error _ => points
  | .ok total =>
    if total.leZero then points else
    let points := if (F64.mod total F64.one).isZero then points + 50 else points
    let points := if (F64.mod total F64.quarter).isZero then points + 25 else points
    scoreItemsDateTime receipt points

/-! ## The score store and the two handlers (`main.go`, lines 31-94) -/

/-- The process-wide `sync.Map` named `receipts`: identifier to score. -/
abbrev SyncMap := List (String × Int)

/-- Go `receipts.Load(id)`. -/
def SyncMap.Load (receipts : SyncMap) (id : String) : Option Int :=
  (receipts.find? (fun kv => kv.1 = id)).map (fun kv => kv.2)

/-- Go `receipts.Store(id, points)`: sets the value of the key, replacing a previous
one. -/
def SyncMap.Store (receipts : SyncMap) (id : String) (points : Int) : SyncMap :=
  (id, points) :: receipts.filter (fun kv => kv.1 ≠ id)

/-- What a handler writes to the client. -/
inductive Response where
  | error (status : Nat) (message : String) : Response
  | id (id : String) : Response
  | points (points : Int) : Response
deriving DecidableEq, Repr

/-- Go `processReceiptHandler`. `body` is the result of decoding the request body
(`none` when `Decode` returns an error) and `newId` the string `uuid.New()` yields;
the result is the store after the call and the response. -/
def processReceiptHandler (receipts : SyncMap) (body : Option Receipt)
    (newId : String) : SyncMap × Response :=
  match body with
  | none => (receipts, .error 400 "Invalid receipt format")
  | some receipt =>
    if receipt.Items.length = 0 then
      (receipts, .error 400 "Receipt must contain at least one item")
    else if (parseDate receipt.PurchaseDate).isNone then
      (receipts, .error 400 "Invalid purchase date format")
    else if (parseClock receipt.PurchaseTime).isNone then
      (receipts, .error 400 "Invalid purchase time format")
    else if receipt.Items.any (fun item => TrimSpace item.ShortDescription = []) then
      (receipts, .error 400 "Item description cannot be empty")
    else
      let points := calculatePoints receipt
      (receipts.Store newId points, .id newId)

/-- Go `getPointsHandler` for the path variable `id`. -/
def getPointsHandler (receipts : SyncMap) (id : String) : SyncMap × Response :=
  match receipts.Load id with
  | none => (receipts, .error 404 "Receipt not found")
  | some points => (receipts, .points points)

/-! ## Specification-side notions -/

/-- A receipt passes validation: it has an item, its purchase date and purchase time
parse, and no item has a blank description once trimmed. -/
def passesValidation (r : Receipt) : Prop :=
  r.Items ≠ [] ∧ (parseDate r.PurchaseDate).isSome ∧ (parseClock r.PurchaseTime).isSome ∧
    ∀ item ∈ r.Items, TrimSpace item.ShortDescription ≠ []

instance (r : Receipt) : Decidable (passesValidation r) := by
  unfold passesValidation
  exact inferInstance

/-- The value is finite (neither an infinity nor not-a-number). -/
def F64.isFinite : F64 → Bool
  | F64.fin _ _ _ => true
  | _ => false

/-- The rational number a finite `float64` denotes (`0` for the other values). -/
def F64.toRat : F64 → ℚ
  | F64.fin neg m e => (if neg then -1 else 1) * (m : ℚ) * (2 : ℚ) ^ e
  | _ => 0

/-- The comparison `x > 0`. -/
def F64.gtZero : F64 → Bool
  | F64.nan => false
  | F64.inf neg => !neg
  | F64.fin neg m _ => !neg && m != 0

/-- The value is finite and has zero fractional part. -/
def F64.isInteger : F64 → Bool
  | F64.fin _ m e => if 0 ≤ e then true else m % 2 ^ (-e).toNat == 0
  | _ => false

/-- The value is finite and an integer multiple of `0.25`. -/
def F64.isMultipleOfQuarter : F64 → Bool
  | F64.fin _ m e => if -2 ≤ e then true else m % 2 ^ (-e - 2).toNat == 0
  | _ => false

/-- Points a price earns under the description-length rule when the description
qualifies: `int(math.Ceil(price * 0.2))` for a price that parses and is not `<= 0`,
nothing otherwise. -/
def pricePoints (price : String) : Int :=
  match ParseFloat price with
  | .error _ => 0
  | .ok p => if p.leZero then 0 else (F64.ceil (F64.mul p F64.fifth)).toInt

/-- The price parses and is not `<= 0`, so that it earns points when the description
qualifies. -/
def priceCounts (price : String) : Bool :=
  match ParseFloat price with
  | .error _ => false
  | .ok p => !p.leZero

/-- The description qualifies for the description-length rule: its trimmed length is not
zero and is a multiple of 3. -/
def descriptionQualifies (description : String) : Bool :=
  byteLen (TrimSpace description) ≠ 0 ∧ byteLen (TrimSpace description) % 3 = 0

/-- Joint contribution of the round-dollar rule and the quarter-multiple rule for a
total that passed the gate. -/
def totalRulesPoints (total : F64) : Int :=
  (if (F64.mod total F64.one).isZero then 50 else 0) +
    (if (F64.mod total F64.quarter).isZero then 25 else 0)

/-- The integer a finite value truncates to, without any range limit (`0` for the
values that are not finite). -/
def F64.toIntExact : F64 → Int
  | F64.fin neg m e =>
    let t : Int := if 0 ≤ e then (m * 2 ^ e.toNat : Nat) else (m / 2 ^ (-e).toNat : Nat)
    if neg then -t else t
  | _ => 0

/-- The term of `D` for one item, in the words of the scoring rule: for an item whose
trimmed description length is not zero and a multiple of 3, and whose price parses to
a value `p > 0`, the integer `ceil(p * 0.2)`; `0` for any other item. -/
def itemFormulaPoints (item : Item) : Int :=
  let n := byteLen (TrimSpace item.ShortDescription)
  if n ≠ 0 ∧ n % 3 = 0 then
    match ParseFloat item.Price with
    | .error _ => 0
    | .ok p => if p.gtZero then (F64.ceil (F64.mul p F64.fifth)).toIntExact else 0
  else 0

/-- The scoring formula `A + R + Q + P + D + O + T` for a receipt whose total parsed to
`t`, whose purchase date has day of month `day` and whose purchase time has hour
`hour`, as a mathematical integer. -/
def scoreFormula (r : Receipt) (t : F64) (day hour : Nat) : Int :=
  (r.Retailer.toList.filter Char.isAlphanum).length
    + (if t.isInteger then 50 else 0)
    + (if t.isMultipleOfQuarter then 25 else 0)
    + 5 * (r.Items.length / 2 : Nat)
    + (r.Items.map itemFormulaPoints).sum
    + (if day % 2 = 1 then 6 else 0)
    + (if 14 ≤ hour ∧ hour < 16 then 10 else 0)

/-- Every product `price * 0.2` the item loop converts to `int` is finite: this holds
unless a qualifying item has a price that parses to not-a-number or to an infinity. -/
def productsFinite (items : List Item) : Prop :=
  ∀ item ∈ items, descriptionQualifies item.ShortDescription = true →
    ∀ p, ParseFloat item.Price = Except.ok p → p.leZero = false →
      (F64.mul p F64.fifth).isFinite = true

/-- The exact rational number the text read by `readFloat` denotes. -/
def FloatText.toRat (t : FloatText) : ℚ :=
  (if t.neg then -1 else 1) * (t.mant : ℚ) * (if t.hex then 2 else 10) ^ t.exp

/-- The exact value of a text that `ParseFloat` reads, in full, as a decimal numeral
(`none` for any other text). -/
def decimalValue (s : String) : Option ℚ :=
  match special s.toList with
  | some _ => none
  | none =>
    match readFloat s.toList with
    | none => none
    | some t => if t.read = s.toList.length ∧ t.hex = false then some t.toRat else none

/-- The receipt `r` with the item list `items`. -/
def withItems (r : Receipt) (items : List Item) : Receipt :=
  { r with Items := items }

/-- Rejection message for a receipt without items. -/
def msgNoItems : String := "Receipt must contain at least one item"

/-- Rejection message for an invalid purchase date. -/
def msgInvalidDate : String := "Invalid purchase date format"

/-- Rejection message for an invalid purchase time. -/
def msgInvalidTime : String := "Invalid purchase time format"

/-- Rejection message for a blank item description. -/
def msgEmptyDescription : String := "Item description cannot be empty"

/-- A receipt used in examples: the "Target" receipt with two items. -/
def targetReceipt (items : List Item) : Receipt :=
  { Retailer := "Target", PurchaseDate := "2022-01-01", PurchaseTime := "13:01",
    Items := items, Total := "35.35" }

/-! ## Receipts used as examples -/

/-- A valid receipt of two items, used to instantiate the theorems. -/
def exampleReceipt : Receipt :=
  targetReceipt [⟨"Emils Cheese Pizza", "12.25"⟩, ⟨"Knorr Creamy Chicken", "1.26"⟩]

/-- A receipt on which every other rule would fire, with the unparseable total "abc". -/
def gateReceipt : Receipt :=
  { Retailer := "M&M Corner Market", PurchaseDate := "2022-03-21", PurchaseTime := "14:33",
    Items := [⟨"Gatorade1", "2.25"⟩, ⟨"Gatorade2", "2.25"⟩], Total := "abc" }


/-- A receipt on which only the rules on the total can fire. -/
def totalOnlyReceipt (total : String) : Receipt :=
  { Retailer := "", PurchaseDate := "", PurchaseTime := "", Items := [], Total := total }

/-- A receipt with two items priced "4e19", each of which earns 8000000000000000000
points. -/
def overflowReceipt : Receipt :=
  { Retailer := "T", PurchaseDate := "2022-01-02", PurchaseTime := "13:01",
    Items := [⟨"abc", "4e19"⟩, ⟨"abc", "4e19"⟩], Total := "1" }

/-- A receipt with one qualifying item at the given price. -/
def oneItemReceipt (price : String) : Receipt :=
  { Retailer := "", PurchaseDate := "", PurchaseTime := "",
    Items := [⟨"abcdefghi", price⟩], Total := "1.01" }

/-- A receipt with one qualifying item whose price is the text "Inf". -/
def infinitePriceReceipt : Receipt :=
  { Retailer := "T", PurchaseDate := "2022-01-02", PurchaseTime := "13:01",
    Items := [⟨"abc", "Inf"⟩], Total := "1" }

/-! ## Notions and receipts for the later theorems -/

/-- An integer no score can exceed when nothing overflows: the retailer count, both
rules on the total, the item-pair rule, the points of the items, and both rules on
the date and time. -/
def scoreUpperBound (r : Receipt) : Int :=
  alphanumericCount r.Retailer + 75 + 5 * (r.Items.length / 2 : Nat)
    + (r.Items.map itemFormulaPoints).sum + 16

/-- The receipt `r` with the purchase time `purchaseTime`. -/
def withTime (r : Receipt) (purchaseTime : String) : Receipt :=
  { r with PurchaseTime := purchaseTime }

/-- A valid receipt whose score before the afternoon rule is `2^63 - 8`: the first
item earns `2^63 - 1024` points, the second 1010. -/
def nearMaxReceipt (purchaseTime : String) : Receipt :=
  { Retailer := "T", PurchaseDate := "2022-01-02", PurchaseTime := purchaseTime,
    Items := [⟨"abc", "46116860184273870848"⟩, ⟨"abc", "5050"⟩], Total := "0.01" }

/-! ## Requests, rejections and text predicates -/

/-- A request the service receives: a submission (with the result of decoding its body
and the identifier `uuid.New()` yields for it) or a lookup. -/
inductive Request where
  | process (body : Option Receipt) (newId : String) : Request
  | getPoints (id : String) : Request
deriving Repr

/-- The handler the router runs for a request. -/
def handle (receipts : SyncMap) : Request → SyncMap × Response
  | .process body newId => processReceiptHandler receipts body newId
  | .getPoints id => getPointsHandler receipts id

/-- The store after a sequence of requests. -/
def runRequests (receipts : SyncMap) : List Request → SyncMap
  | [] => receipts
  | request :: rest => runRequests (handle receipts request).1 rest

/-- The identifiers returned by the successful submissions of a sequence of requests
run from the store `receipts`. -/
def issuedIds (receipts : SyncMap) : List Request → List String
  | [] => []
  | request :: rest =>
    (match (handle receipts request).2 with
      | .id id => [id]
      | _ => []) ++ issuedIds (handle receipts request).1 rest

/-- The rejection a response carries: its status and message, `none` for a success. -/
def rejection : Response → Option (Nat × String)
  | .error status message => some (status, message)
  | _ => none

/-- A valid receipt with one item of the given description and price. -/
def describedItemReceipt (description price : String) : Receipt :=
  { Retailer := "", PurchaseDate := "2022-01-02", PurchaseTime := "13:01",
    Items := [⟨description, price⟩], Total := "1.01" }

/-- The "Target" receipt of two items with a total and prices that do not parse. -/
def unparseableMoneyReceipt : Receipt :=
  { Retailer := "Another shop", PurchaseDate := "2022-01-01", PurchaseTime := "13:01",
    Items := [⟨"Emils Cheese Pizza", "x"⟩, ⟨"Knorr Creamy Chicken", "twelve"⟩],
    Total := "abc" }

/-- The text is a clock time as `time.Parse("15:04", _)` accepts it: an hour of one or
two digits below 24, a colon, and a minute of two digits below 60. -/
def isClockText (s : String) : Bool :=
  match s.toList with
  | [h0, c, m0, m1] =>
    isDigit h0 && c == ':' && isDigit m0 && isDigit m1 &&
      decide (digitVal m0 * 10 + digitVal m1 < 60)
  | [h0, h1, c, m0, m1] =>
    isDigit h0 && isDigit h1 && c == ':' && isDigit m0 && isDigit m1 &&
      decide (digitVal h0 * 10 + digitVal h1 < 24) &&
      decide (digitVal m0 * 10 + digitVal m1 < 60)
  | _ => false

/-- The text is exactly five characters `HH:MM` with a two-digit hour 00-23 and a
two-digit minute 00-59. -/
def isStrictClockText (s : String) : Bool :=
  match s.toList with
  | [h0, h1, c, m0, m1] =>
    isDigit h0 && isDigit h1 && c == ':' && isDigit m0 && isDigit m1 &&
      decide (digitVal h0 * 10 + digitVal h1 < 24) &&
      decide (digitVal m0 * 10 + digitVal m1 < 60)
  | _ => false

/-- Leap years of the Gregorian calendar: the years divisible by 4, except those
divisible by 100 and not by 400. -/
def isLeapYear (year : Nat) : Bool :=
  decide ((year % 4 = 0 ∧ year % 100 ≠ 0) ∨ year % 400 = 0)

/-- Number of days of a month (1 to 12) of a year. -/
def daysOfMonth (year month : Nat) : Nat :=
  if month = 2 then (if isLeapYear year then 29 else 28)
  else if month = 4 ∨ month = 6 ∨ month = 9 ∨ month = 11 then 30
  else 31

/-- The text is exactly of the form `YYYY-MM-DD`: a four-digit year, a two-digit month
01-12 and a two-digit day that exists in that month of that year. -/
def isStrictDate (s : String) : Bool :=
  match s.toList with
  | [y0, y1, y2, y3, s1, m0, m1, s2, d0, d1] =>
    isDigit y0 && isDigit y1 && isDigit y2 && isDigit y3 && s1 == '-' &&
      isDigit m0 && isDigit m1 && s2 == '-' && isDigit d0 && isDigit d1 &&
      decide (1 ≤ digitVal m0 * 10 + digitVal m1 ∧ digitVal m0 * 10 + digitVal m1 ≤ 12) &&
      decide (1 ≤ digitVal d0 * 10 + digitVal d1 ∧
        digitVal d0 * 10 + digitVal d1 ≤
          daysOfMonth (((digitVal y0 * 10 + digitVal y1) * 10 + digitVal y2) * 10 + digitVal y3)
            (digitVal m0 * 10 + digitVal m1))
  | _ => false

/-- The receipt with its purchase date replaced. -/
def withDate (r : Receipt) (purchaseDate : String) : Receipt :=
  { r with PurchaseDate := purchaseDate }

/-- The receipt on which every other rule fires, with the total "NaN". -/
def nanTotalReceipt : Receipt :=
  { Retailer := "M&M Corner Market", PurchaseDate := "2022-03-21", PurchaseTime := "14:33",
    Items := [⟨"Gatorade1", "2.25"⟩, ⟨"Gatorade2", "2.25"⟩], Total := "NaN" }

/-! ## Theorems: the handlers -/

theorem any_blank_iff (items : List Item) :
    items.any (fun item => decide (TrimSpace item.ShortDescription = [])) = true ↔
      ∃ item ∈ items, TrimSpace item.ShortDescription = [] := by
  simp [List.any_eq_true]

theorem processReceiptHandler_valid (receipts : SyncMap) (r : Receipt) (newId : String)
    (h : passesValidation r) :
    processReceiptHandler receipts (some r) newId =
      (receipts.Store newId (calculatePoints r), Response.id newId) := by
  obtain ⟨h1, h2, h3, h4⟩ := h
  have hlen : r.Items.length ≠ 0 := by
    intro h0
    exact h1 (List.length_eq_zero.mp h0)
  have hd : (parseDate r.PurchaseDate).isNone = false := by
    cases hp : parseDate r.PurchaseDate <;> simp_all
  have hc : (parseClock r.PurchaseTime).isNone = false := by
    cases hp : parseClock r.PurchaseTime <;> simp_all
  have ha : r.Items.any (fun item => decide (TrimSpace item.ShortDescription = [])) = false := by
    rw [Bool.eq_false_iff]
    intro hany
    obtain ⟨item, hmem, hblank⟩ := (any_blank_iff r.Items).mp hany
    exact h4 item hmem hblank
  simp [processReceiptHandler, hlen, hd, hc, ha]

theorem load_store_same (receipts : SyncMap) (id : String) (points : Int) :
    (receipts.Store id points).Load id = some points := by
  simp [SyncMap.Store, SyncMap.Load, List.find?]

/-- C1. Round trip of Submit and Lookup: for every store state, every receipt that
passes validation and every generated identifier (already in the store or not),
`processReceiptHandler` answers with that identifier and leaves a store in which
`getPointsHandler` of the identifier answers exactly `calculatePoints` of the receipt,
without changing the store. -/
theorem C1_submit_lookup_round_trip (receipts : SyncMap) (r : Receipt) (newId : String)
    (h : passesValidation r) :
    (processReceiptHandler receipts (some r) newId).2 = Response.id newId ∧
    getPointsHandler (processReceiptHandler receipts (some r) newId).1 newId =
      ((processReceiptHandler receipts (some r) newId).1,
        Response.points (calculatePoints r)) := by
  rw [processReceiptHandler_valid receipts r newId h]
  refine ⟨rfl, ?_⟩
  simp [getPointsHandler, load_store_same]

theorem exampleReceipt_valid : passesValidation exampleReceipt := by
  unfold passesValidation
  decide

/-- C1 at the example receipt, the empty store and a concrete identifier. -/
theorem C1_submit_lookup_round_trip_witness :
    passesValidation exampleReceipt ∧
    (processReceiptHandler [] (some exampleReceipt) "7fb1377b").2 = Response.id "7fb1377b" ∧
    getPointsHandler (processReceiptHandler [] (some exampleReceipt) "7fb1377b").1 "7fb1377b" =
      ((processReceiptHandler [] (some exampleReceipt) "7fb1377b").1,
        Response.points (calculatePoints exampleReceipt)) :=
  ⟨exampleReceipt_valid,
    C1_submit_lookup_round_trip [] exampleReceipt "7fb1377b" exampleReceipt_valid⟩

theorem processReceiptHandler_noItems (receipts : SyncMap) (r : Receipt) (newId : String)
    (h : r.Items = []) :
    processReceiptHandler receipts (some r) newId = (receipts, Response.error 400 msgNoItems) := by
  simp [processReceiptHandler, h, msgNoItems]

theorem processReceiptHandler_badDate (receipts : SyncMap) (r : Receipt) (newId : String)
    (h1 : r.Items ≠ []) (h2 : parseDate r.PurchaseDate = none) :
    processReceiptHandler receipts (some r) newId =
      (receipts, Response.error 400 msgInvalidDate) := by
  simp [processReceiptHandler, h1, h2, msgInvalidDate]

theorem processReceiptHandler_badTime (receipts : SyncMap) (r : Receipt) (newId : String)
    (h1 : r.Items ≠ []) (h2 : (parseDate r.PurchaseDate).isSome)
    (h3 : parseClock r.PurchaseTime = none) :
    processReceiptHandler receipts (some r) newId =
      (receipts, Response.error 400 msgInvalidTime) := by
  have hd : (parseDate r.PurchaseDate).isNone = false := by
    cases hp : parseDate r.PurchaseDate <;> simp_all
  simp [processReceiptHandler, h1, hd, h3, msgInvalidTime]

theorem processReceiptHandler_blank (receipts : SyncMap) (r : Receipt) (newId : String)
    (h1 : r.Items ≠ []) (h2 : (parseDate r.PurchaseDate).isSome)
    (h3 : (parseClock r.PurchaseTime).isSome)
    (h4 : ∃ item ∈ r.Items, TrimSpace item.ShortDescription = []) :
    processReceiptHandler receipts (some r) newId =
      (receipts, Response.error 400 msgEmptyDescription) := by
  have hd : (parseDate r.PurchaseDate).isNone = false := by
    cases hp : parseDate r.PurchaseDate <;> simp_all
  have hc : (parseClock r.PurchaseTime).isNone = false := by
    cases hp : parseClock r.PurchaseTime <;> simp_all
  have ha := (any_blank_iff r.Items).mpr h4
  simp [processReceiptHandler, h1, hd, hc, ha, msgEmptyDescription]

/-- Every receipt either passes validation or fails a first check, in the order of the
handler. -/
theorem validation_cases (r : Receipt) :
    r.Items = [] ∨
    (r.Items ≠ [] ∧ parseDate r.PurchaseDate = none) ∨
    (r.Items ≠ [] ∧ (parseDate r.PurchaseDate).isSome ∧ parseClock r.PurchaseTime = none) ∨
    (r.Items ≠ [] ∧ (parseDate r.PurchaseDate).isSome ∧ (parseClock r.PurchaseTime).isSome ∧
      ∃ item ∈ r.Items, TrimSpace item.ShortDescription = []) ∨
    passesValidation r := by
  by_cases h1 : r.Items = []
  · exact Or.inl h1
  · cases hd : parseDate r.PurchaseDate with
    | none => exact Or.inr (Or.inl ⟨h1, rfl⟩)
    | some d =>
      cases hc : parseClock r.PurchaseTime with
      | none => exact Or.inr (Or.inr (Or.inl ⟨h1, rfl, rfl⟩))
      | some c =>
        by_cases h4 : ∃ item ∈ r.Items, TrimSpace item.ShortDescription = []
        · exact Or.inr (Or.inr (Or.inr (Or.inl ⟨h1, rfl, rfl, h4⟩)))
        · refine Or.inr (Or.inr (Or.inr (Or.inr ⟨h1, by simp [hd], by simp [hc], ?_⟩)))
          intro item hmem hblank
          exact h4 ⟨item, hmem, hblank⟩

/-- C4. Validation order and completeness: the outcome of `processReceiptHandler` on a
decoded receipt is that of the first failing check in the order no items, invalid
date, invalid time, blank item description, each with status 400 and its own message;
the four messages are pairwise different; and the receipt is accepted, that is scored
and stored under the new identifier, exactly when it passes the four checks. -/
theorem C4_validation_order_and_completeness (receipts : SyncMap) (r : Receipt)
    (newId : String) :
    (r.Items = [] →
      processReceiptHandler receipts (some r) newId =
        (receipts, Response.error 400 msgNoItems)) ∧
    (r.Items ≠ [] → parseDate r.PurchaseDate = none →
      processReceiptHandler receipts (some r) newId =
        (receipts, Response.error 400 msgInvalidDate)) ∧
    (r.Items ≠ [] → (parseDate r.PurchaseDate).isSome → parseClock r.PurchaseTime = none →
      processReceiptHandler receipts (some r) newId =
        (receipts, Response.error 400 msgInvalidTime)) ∧
    (r.Items ≠ [] → (parseDate r.PurchaseDate).isSome → (parseClock r.PurchaseTime).isSome →
      (∃ item ∈ r.Items, TrimSpace item.ShortDescription = []) →
      processReceiptHandler receipts (some r) newId =
        (receipts, Response.error 400 msgEmptyDescription)) ∧
    (passesValidation r ↔
      processReceiptHandler receipts (some r) newId =
        (receipts.Store newId (calculatePoints r), Response.id newId)) ∧
    (passesValidation r ↔
      ∀ status message,
        (processReceiptHandler receipts (some r) newId).2 ≠ Response.error status message) ∧
    (msgNoItems ≠ msgInvalidDate ∧ msgNoItems ≠ msgInvalidTime ∧
      msgNoItems ≠ msgEmptyDescription ∧ msgInvalidDate ≠ msgInvalidTime ∧
      msgInvalidDate ≠ msgEmptyDescription ∧ msgInvalidTime ≠ msgEmptyDescription) := by
  refine ⟨processReceiptHandler_noItems receipts r newId,
    processReceiptHandler_badDate receipts r newId,
    processReceiptHandler_badTime receipts r newId,
    processReceiptHandler_blank receipts r newId, ?_, ?_, by decide⟩
  · refine ⟨processReceiptHandler_valid receipts r newId, ?_⟩
    intro hout
    rcases validation_cases r with h | ⟨h1, h2⟩ | ⟨h1, h2, h3⟩ | ⟨h1, h2, h3, h4⟩ | h
    · rw [processReceiptHandler_noItems receipts r newId h] at hout
      simp at hout
    · rw [processReceiptHandler_badDate receipts r newId h1 h2] at hout
      simp at hout
    · rw [processReceiptHandler_badTime receipts r newId h1 h2 h3] at hout
      simp at hout
    · rw [processReceiptHandler_blank receipts r newId h1 h2 h3 h4] at hout
      simp at hout
    · exact h
  · constructor
    · intro h status message
      rw [processReceiptHandler_valid receipts r newId h]
      simp
    · intro hout
      rcases validation_cases r with h | ⟨h1, h2⟩ | ⟨h1, h2, h3⟩ | ⟨h1, h2, h3, h4⟩ | h
      · exact absurd (by rw [processReceiptHandler_noItems receipts r newId h]) (hout 400 msgNoItems)
      · exact absurd (by rw [processReceiptHandler_badDate receipts r newId h1 h2])
          (hout 400 msgInvalidDate)
      · exact absurd (by rw [processReceiptHandler_badTime receipts r newId h1 h2 h3])
          (hout 400 msgInvalidTime)
      · exact absurd (by rw [processReceiptHandler_blank receipts r newId h1 h2 h3 h4])
          (hout 400 msgEmptyDescription)
      · exact h

/-- C5. A decoded receipt whose item list is empty is rejected with status 400 and the
message "Receipt must contain at least one item", whatever its retailer, purchase
date, purchase time and total are (an invalid date or time included), and the store
is left as it was. -/
theorem C5_empty_items_rejected (receipts : SyncMap) (retailer purchaseDate purchaseTime
    total newId : String) :
    processReceiptHandler receipts
      (some { Retailer := retailer, PurchaseDate := purchaseDate,
              PurchaseTime := purchaseTime, Items := [], Total := total }) newId =
      (receipts, Response.error 400 "Receipt must contain at least one item") := by
  simp [processReceiptHandler]

/-- C6. Atomicity of rejection: whenever `processReceiptHandler` answers with an error
(the body could not be decoded, or one of the four checks failed), the store after the
call is the store before the call. -/
theorem C6_rejection_leaves_store (receipts : SyncMap) (body : Option Receipt)
    (newId : String) (status : Nat) (message : String)
    (h : (processReceiptHandler receipts body newId).2 = Response.error status message) :
    (processReceiptHandler receipts body newId).1 = receipts := by
  cases body with
  | none => simp [processReceiptHandler]
  | some r =>
    rcases validation_cases r with h0 | ⟨h1, h2⟩ | ⟨h1, h2, h3⟩ | ⟨h1, h2, h3, h4⟩ | hv
    · rw [processReceiptHandler_noItems receipts r newId h0]
    · rw [processReceiptHandler_badDate receipts r newId h1 h2]
    · rw [processReceiptHandler_badTime receipts r newId h1 h2 h3]
    · rw [processReceiptHandler_blank receipts r newId h1 h2 h3 h4]
    · rw [processReceiptHandler_valid receipts r newId hv] at h
      simp at h

/-- C6 at a store with one entry and a receipt whose purchase date is invalid. -/
theorem C6_rejection_leaves_store_witness :
    (processReceiptHandler [("a1", 28)]
        (some { exampleReceipt with PurchaseDate := "2022-02-30" }) "b2").2 =
      Response.error 400 "Invalid purchase date format" ∧
    (processReceiptHandler [("a1", 28)]
        (some { exampleReceipt with PurchaseDate := "2022-02-30" }) "b2").1 = [("a1", 28)] :=
  ⟨by decide, C6_rejection_leaves_store [("a1", 28)]
    (some { exampleReceipt with PurchaseDate := "2022-02-30" }) "b2" 400
    "Invalid purchase date format" (by decide)⟩

/-! ## Theorems: the total-parsing gate -/

theorem uint32_le_iff (a b : UInt32) : a ≤ b ↔ a.toNat ≤ b.toNat := by
  rw [UInt32.le_def, BitVec.le_def]; rfl

theorem isAlphanumeric_eq (c : Char) : isAlphanumeric c = c.isAlphanum := by
  have e1 : (97 : UInt32).toNat = 97 := rfl
  have e2 : (122 : UInt32).toNat = 122 := rfl
  have e3 : (65 : UInt32).toNat = 65 := rfl
  have e4 : (90 : UInt32).toNat = 90 := rfl
  have e5 : (48 : UInt32).toNat = 48 := rfl
  have e6 : (57 : UInt32).toNat = 57 := rfl
  simp only [isAlphanumeric, Char.isAlphanum, Char.isAlpha, Char.isUpper, Char.isLower,
    Char.isDigit, ge_iff_le, uint32_le_iff, e1, e2, e3, e4, e5, e6]
  simp only [Char.toNat]
  by_cases h1 : 97 ≤ c.val.toNat <;> by_cases h2 : c.val.toNat ≤ 122 <;>
    by_cases h3 : 65 ≤ c.val.toNat <;> by_cases h4 : c.val.toNat ≤ 90 <;>
    by_cases h5 : 48 ≤ c.val.toNat <;> by_cases h6 : c.val.toNat ≤ 57 <;>
    simp [h1, h2, h3, h4, h5, h6]

/-- C3, as amended. Total-parsing gate: when `strconv.ParseFloat` returns an error for
the total, or returns a value that is `<= 0`, `calculatePoints` returns exactly the
number of characters of the retailer name that are ASCII letters or digits, whatever
the items, date and time are. -/
theorem C3_total_gate_amended (r : Receipt)
    (h : (∃ e, ParseFloat r.Total = Except.error e) ∨
      (∃ t, ParseFloat r.Total = Except.ok t ∧ t.leZero = true)) :
    calculatePoints r = alphanumericCount r.Retailer ∧
    alphanumericCount r.Retailer = (r.Retailer.toList.filter Char.isAlphanum).length := by
  constructor
  · rcases h with ⟨e, he⟩ | ⟨t, ht, hle⟩
    · simp [calculatePoints, he]
    · simp [calculatePoints, ht, hle]
  · unfold alphanumericCount
    congr 1
    apply List.filter_congr
    intro c _
    exact isAlphanumeric_eq c

/-- C3, as amended, at the total "abc": only the 14 letters of the retailer name count;
the totals "0" and "0.00" parse to a value that is `<= 0`. -/
theorem C3_total_gate_amended_witness :
    (∃ e, ParseFloat gateReceipt.Total = Except.error e) ∧
    calculatePoints gateReceipt = 14 ∧
    (∃ t, ParseFloat "0" = Except.ok t ∧ t.leZero = true) ∧
    (∃ t, ParseFloat "0.00" = Except.ok t ∧ t.leZero = true) :=
  ⟨⟨NumError.ErrSyntax, rfl⟩,
    (C3_total_gate_amended gateReceipt (Or.inl ⟨NumError.ErrSyntax, rfl⟩)).1.trans (by decide),
    ⟨F64.fin false 0 0, rfl, rfl⟩, ⟨F64.fin false 0 0, rfl, rfl⟩⟩

/-- C3 as stated fails: the total "NaN" does not parse as a number (`ParseFloat` returns
not-a-number, without an error) and its value is not `> 0`, yet it is not `<= 0`
either, so the gate lets it through: the receipt passes validation and scores 37, the
14 retailer points plus 5 for the pair of items, 2 for the two descriptions of length
9, 6 for the odd day and 10 for the afternoon. -/
theorem C3_total_gate_counterexample :
    passesValidation nanTotalReceipt ∧
    ParseFloat nanTotalReceipt.Total = Except.ok F64.nan ∧
    F64.nan.gtZero = false ∧ F64.nan.leZero = false ∧ F64.nan.isFinite = false ∧
    alphanumericCount nanTotalReceipt.Retailer = 14 ∧
    calculatePoints nanTotalReceipt = 37 ∧
    calculatePoints nanTotalReceipt ≠ alphanumericCount nanTotalReceipt.Retailer :=
  ⟨by decide, rfl, rfl, rfl, rfl, by decide, by decide!, by decide!⟩

/-! ## Theorems: `math.Mod` against `1` and `0.25` -/

theorem mod_one_isZero (x : F64) : (F64.mod x F64.one).isZero = x.isInteger := by
  cases x with
  | nan => rfl
  | inf neg => rfl
  | fin neg m e =>
    by_cases h : 0 ≤ e
    · have hmin : min e 0 = 0 := min_eq_right h
      simp [F64.mod, F64.one, F64.isZero, F64.isInteger, h, hmin, Nat.mod_one]
    · have hlt : e < 0 := not_le.mp h
      have hmin : min e 0 = e := min_eq_left hlt.le
      simp [F64.mod, F64.one, F64.isZero, F64.isInteger, h, hmin]

theorem mod_quarter_isZero (x : F64) :
    (F64.mod x F64.quarter).isZero = x.isMultipleOfQuarter := by
  cases x with
  | nan => rfl
  | inf neg => rfl
  | fin neg m e =>
    by_cases h : -2 ≤ e
    · have hmin : min e (-2) = -2 := min_eq_right h
      simp [F64.mod, F64.quarter, F64.isZero, F64.isMultipleOfQuarter, h, hmin, Nat.mod_one]
    · have hlt : e < -2 := not_le.mp h
      have hmin : min e (-2) = e := min_eq_left hlt.le
      have he : -2 - e = -e - 2 := by ring
      simp [F64.mod, F64.quarter, F64.isZero, F64.isMultipleOfQuarter, h, hmin, he]

theorem isInteger_imp_isMultipleOfQuarter (x : F64) (h : x.isInteger = true) :
    x.isMultipleOfQuarter = true := by
  cases x with
  | nan => simp [F64.isInteger] at h
  | inf neg => simp [F64.isInteger] at h
  | fin neg m e =>
    by_cases h2 : -2 ≤ e
    · simp [F64.isMultipleOfQuarter, h2]
    · have hlt : e < -2 := not_le.mp h2
      have h0 : ¬ (0 ≤ e) := by omega
      simp only [F64.isInteger, h0, if_false, beq_iff_eq] at h
      simp only [F64.isMultipleOfQuarter, h2, if_false, beq_iff_eq]
      have hsplit : (-e).toNat = (-e - 2).toNat + 2 := by omega
      rw [hsplit, pow_add] at h
      have hdvd : 2 ^ (-e - 2).toNat * 2 ^ 2 ∣ m := Nat.dvd_of_mod_eq_zero h
      exact Nat.mod_eq_zero_of_dvd (dvd_trans (Dvd.intro _ rfl) hdvd)

theorem calculatePoints_of_gate (r : Receipt) (t : F64)
    (ht : ParseFloat r.Total = Except.ok t) (hgate : t.leZero = false) :
    calculatePoints r =
      scoreItemsDateTime r (alphanumericCount r.Retailer + totalRulesPoints t) := by
  unfold calculatePoints totalRulesPoints
  simp only [ht, hgate]
  by_cases h1 : (F64.mod t F64.one).isZero = true <;>
    by_cases h2 : (F64.mod t F64.quarter).isZero = true <;>
    simp [h1, h2, add_assoc]

/-- C8. The quarter-multiple rule fires whenever the round-dollar rule does: for every
receipt whose total passes the gate, if the `math.Mod(total, 1) == 0` test holds then
so does the `math.Mod(total, 0.25) == 0` test, and the score is the one the remaining
rules give from the retailer count plus 0, 25 or 75 (never 50). -/
theorem C8_quarter_fires_with_round_dollar (r : Receipt) (t : F64)
    (ht : ParseFloat r.Total = Except.ok t) (hgate : t.leZero = false) :
    ((F64.mod t F64.one).isZero = true → (F64.mod t F64.quarter).isZero = true) ∧
    calculatePoints r =
      scoreItemsDateTime r (alphanumericCount r.Retailer + totalRulesPoints t) ∧
    (totalRulesPoints t = 0 ∨ totalRulesPoints t = 25 ∨ totalRulesPoints t = 75) ∧
    (totalRulesPoints t = 75 ↔ (F64.mod t F64.one).isZero = true) := by
  have himp : (F64.mod t F64.one).isZero = true → (F64.mod t F64.quarter).isZero = true := by
    intro h
    rw [mod_one_isZero] at h
    rw [mod_quarter_isZero]
    exact isInteger_imp_isMultipleOfQuarter t h
  refine ⟨himp, calculatePoints_of_gate r t ht hgate, ?_, ?_⟩
  · unfold totalRulesPoints
    by_cases h1 : (F64.mod t F64.one).isZero = true
    · simp [h1, himp h1]
    · by_cases h2 : (F64.mod t F64.quarter).isZero = true <;> simp [h1, h2]
  · unfold totalRulesPoints
    by_cases h1 : (F64.mod t F64.one).isZero = true
    · simp [h1, himp h1]
    · by_cases h2 : (F64.mod t F64.quarter).isZero = true <;> simp [h1, h2]

theorem parseFloat_100 :
    ParseFloat "100.00" = Except.ok (F64.fin false 7036874417766400 (-46)) := rfl

theorem parseFloat_35_35 :
    ParseFloat "35.35" = Except.ok (F64.fin false 4975070213360845 (-47)) := rfl

/-- C8 at the total "100.00", which earns both rules (75 points in all), next to the
total "35.35", which earns neither. -/
theorem C8_quarter_fires_with_round_dollar_witness :
    (ParseFloat (totalOnlyReceipt "100.00").Total =
        Except.ok (F64.fin false 7036874417766400 (-46)) ∧
      (F64.fin false 7036874417766400 (-46)).leZero = false) ∧
    (totalRulesPoints (F64.fin false 7036874417766400 (-46)) = 75 ↔
      (F64.mod (F64.fin false 7036874417766400 (-46)) F64.one).isZero = true) ∧
    calculatePoints (totalOnlyReceipt "100.00") = 75 ∧
    calculatePoints (totalOnlyReceipt "35.35") = 0 :=
  ⟨⟨parseFloat_100, rfl⟩,
    (C8_quarter_fires_with_round_dollar (totalOnlyReceipt "100.00")
      (F64.fin false 7036874417766400 (-46)) parseFloat_100 rfl).2.2.2,
    by decide, by decide⟩

/-! ## Theorems: the "Target" example -/

theorem wrap64_wrap64_add (a b : Int) : wrap64 (wrap64 a + b) = wrap64 (a + b) := by
  unfold wrap64
  norm_num
  omega

theorem wrap64_of_range (a : Int) (h1 : -2 ^ 63 ≤ a) (h2 : a < 2 ^ 63) : wrap64 a = a := by
  unfold wrap64
  norm_num at h1 h2 ⊢
  omega

theorem itemStep_skip (points : Int) (item : Item)
    (h : byteLen (TrimSpace item.ShortDescription) % 3 ≠ 0) :
    itemStep points item = points := by
  have h0 : byteLen (TrimSpace item.ShortDescription) ≠ 0 := by
    intro h0
    rw [h0] at h
    exact h rfl
  simp [itemStep, h0, h]

theorem itemStep_eq (points : Int) (item : Item) :
    itemStep points item =
      if descriptionQualifies item.ShortDescription ∧ priceCounts item.Price then
        wrap64 (points + pricePoints item.Price)
      else points := by
  unfold itemStep pricePoints priceCounts descriptionQualifies
  by_cases h0 : byteLen (TrimSpace item.ShortDescription) = 0
  · simp [h0]
  · by_cases h3 : byteLen (TrimSpace item.ShortDescription) % 3 = 0
    · cases hp : ParseFloat item.Price with
      | error e => simp [h0, h3]
      | ok p =>
        by_cases hle : p.leZero = true
        · simp [h0, h3, hle]
        · simp [h0, h3, hle]
    · simp [h0, h3]

theorem pricePoints_of_not_counts (price : String) (h : priceCounts price = false) :
    pricePoints price = 0 := by
  unfold priceCounts at h
  unfold pricePoints
  cases hp : ParseFloat price with
  | error e => rfl
  | ok p =>
    rw [hp] at h
    simp at h
    simp [h]

theorem parseDate_target : parseDate "2022-01-01" = some ⟨2022, 1, 1⟩ := by decide

theorem parseClock_target : parseClock "13:01" = some ⟨13, 1⟩ := by decide

theorem emils_qualifies : descriptionQualifies "Emils Cheese Pizza" = true := by decide

theorem calculatePoints_target (items : List Item) :
    calculatePoints (targetReceipt items) =
      wrap64 (items.foldl itemStep (6 + ((items.length / 2 : Nat) : Int) * 5) + 6) := by
  have hgate : (F64.fin false 4975070213360845 (-47)).leZero = false := rfl
  have hrules : totalRulesPoints (F64.fin false 4975070213360845 (-47)) = 0 := by decide
  have hcount : alphanumericCount "Target" = 6 := by decide
  rw [calculatePoints_of_gate (targetReceipt items) _ parseFloat_35_35 hgate, hrules]
  simp [scoreItemsDateTime, oddDayStep, afternoonStep, targetReceipt, parseDate_target,
    parseClock_target, hcount]

/-- C9, as amended. On the "Target" receipt (total "35.35", date "2022-01-01", time
"13:01") with exactly two items, one described "Emils Cheese Pizza" and the other with
a trimmed description length that is not a multiple of 3, `calculatePoints` returns 17
plus what the price of the "Emils Cheese Pizza" item earns under the
description-length rule: that description has length 18, a multiple of 3, so the item
contributes `int(ceil(price * 0.2))` when its price parses to a value that is not
`<= 0`, and 0 otherwise (the score then being exactly 17). -/
theorem C9_target_example_amended (price : String) (other : Item) (items : List Item)
    (hother : byteLen (TrimSpace other.ShortDescription) % 3 ≠ 0)
    (hitems : items = [⟨"Emils Cheese Pizza", price⟩, other] ∨
      items = [other, ⟨"Emils Cheese Pizza", price⟩]) :
    byteLen (TrimSpace "Emils Cheese Pizza") = 18 ∧
    calculatePoints (targetReceipt items) = wrap64 (17 + pricePoints price) ∧
    (priceCounts price = false → calculatePoints (targetReceipt items) = 17) := by
  have hskip : ∀ points, itemStep points other = points :=
    fun points => itemStep_skip points other hother
  have hemils : ∀ points, itemStep points ⟨"Emils Cheese Pizza", price⟩ =
      if priceCounts price then wrap64 (points + pricePoints price) else points := by
    intro points
    rw [itemStep_eq]
    simp [emils_qualifies]
  have hfold : items.foldl itemStep (6 + ((items.length / 2 : Nat) : Int) * 5) =
      if priceCounts price then wrap64 (11 + pricePoints price) else 11 := by
    rcases hitems with h | h
    · subst h
      simp [List.foldl, hskip, hemils]
    · subst h
      simp [List.foldl, hskip, hemils]
  have hmain : calculatePoints (targetReceipt items) = wrap64 (17 + pricePoints price) := by
    rw [calculatePoints_target, hfold]
    by_cases hc : priceCounts price = true
    · simp only [hc, if_true]
      rw [wrap64_wrap64_add]
      congr 1
      ring
    · have hc2 : priceCounts price = false := by simpa using hc
      simp [hc2, pricePoints_of_not_counts price hc2]
  refine ⟨by decide, hmain, ?_⟩
  intro hc
  rw [hmain, pricePoints_of_not_counts price hc]
  decide

/-- C9 as stated fails: with the prices "12.25" and "1.26" the "Target" receipt of the
two items "Emils Cheese Pizza" and "Knorr Creamy Chicken" scores 20, not 17, because
the length of "Emils Cheese Pizza" is 18, a multiple of 3, and the item earns 3. -/
theorem C9_target_example_counterexample :
    byteLen (TrimSpace "Knorr Creamy Chicken") % 3 ≠ 0 ∧
    byteLen (TrimSpace "Emils Cheese Pizza") % 3 = 0 ∧
    calculatePoints
      (targetReceipt [⟨"Emils Cheese Pizza", "12.25"⟩, ⟨"Knorr Creamy Chicken", "1.26"⟩]) = 20 ∧
    calculatePoints
      (targetReceipt [⟨"Emils Cheese Pizza", "12.25"⟩, ⟨"Knorr Creamy Chicken", "1.26"⟩]) ≠ 17 := by
  decide!

/-- C9, as amended, at the prices "12.25" and "1.26": the score is 17 + 3. -/
theorem C9_target_example_amended_witness :
    byteLen (TrimSpace "Knorr Creamy Chicken") % 3 ≠ 0 ∧
    calculatePoints
      (targetReceipt [⟨"Emils Cheese Pizza", "12.25"⟩, ⟨"Knorr Creamy Chicken", "1.26"⟩]) =
      wrap64 (17 + pricePoints "12.25") ∧
    pricePoints "12.25" = 3 :=
  ⟨by decide,
    (C9_target_example_amended "12.25" ⟨"Knorr Creamy Chicken", "1.26"⟩
      [⟨"Emils Cheese Pizza", "12.25"⟩, ⟨"Knorr Creamy Chicken", "1.26"⟩] (by decide)
      (Or.inl rfl)).2.1,
    by decide!⟩

/-! ## Theorems: the scoring formula -/

theorem alphanumericCount_eq (s : String) :
    alphanumericCount s = (s.toList.filter Char.isAlphanum).length := by
  unfold alphanumericCount
  congr 1
  apply List.filter_congr
  intro c _
  exact isAlphanumeric_eq c

theorem fifth_eq : F64.fifth = F64.fin false 7205759403792794 (-55) := by decide

theorem roundRat_sign (neg : Bool) (num den : Nat) :
    roundRat neg num den = F64.inf neg ∨ ∃ m e, roundRat neg num den = F64.fin neg m e := by
  unfold roundRat
  by_cases h0 : num = 0
  · exact Or.inr ⟨0, 0, by simp [h0]⟩
  · simp only [h0, if_false]
    split_ifs <;> first | exact Or.inl rfl | exact Or.inr ⟨_, _, rfl⟩

theorem roundDyadic_sign (neg : Bool) (m : Nat) (e : Int) :
    roundDyadic neg m e = F64.inf neg ∨ ∃ m1 e1, roundDyadic neg m e = F64.fin neg m1 e1 := by
  unfold roundDyadic
  split <;> exact roundRat_sign _ _ _

theorem toIntExact_ceil_nonneg (x : F64)
    (h : x = F64.nan ∨ x = F64.inf false ∨ ∃ m e, x = F64.fin false m e) :
    0 ≤ (F64.ceil x).toIntExact := by
  rcases h with h | h | ⟨m, e, h⟩
  · subst h; simp [F64.ceil, F64.toIntExact]
  · subst h; simp [F64.ceil, F64.toIntExact]
  · subst h
    unfold F64.ceil
    by_cases he : 0 ≤ e
    · simp only [he, if_true, F64.toIntExact, Bool.false_eq_true, if_false]
      exact Int.ofNat_nonneg _
    · simp only [he, if_false, Bool.false_eq_true, F64.toIntExact, le_refl, if_true]
      exact Int.ofNat_nonneg _

theorem toInt_ceil_eq (m : Nat) (e : Int)
    (h : (F64.ceil (F64.fin false m e)).toIntExact < 2 ^ 63) :
    (F64.ceil (F64.fin false m e)).toInt = (F64.ceil (F64.fin false m e)).toIntExact := by
  have h0 := toIntExact_ceil_nonneg (F64.fin false m e) (Or.inr (Or.inr ⟨m, e, rfl⟩))
  revert h h0
  unfold F64.ceil
  by_cases he : 0 ≤ e
  · simp only [he, if_true, F64.toIntExact, F64.toInt, Bool.false_eq_true, if_false]
    intro h h0
    rw [if_pos ⟨by linarith, h⟩]
  · simp only [he, if_false, Bool.false_eq_true, F64.toIntExact, F64.toInt, le_refl, if_true]
    intro h h0
    rw [if_pos ⟨by linarith, h⟩]

theorem mul_fifth_of_gtZero (p : F64) (h : p.gtZero = true) :
    F64.mul p F64.fifth = F64.inf false ∨ ∃ m e, F64.mul p F64.fifth = F64.fin false m e := by
  rw [fifth_eq]
  cases p with
  | nan => simp [F64.gtZero] at h
  | inf neg =>
    have hn : neg = false := by simpa [F64.gtZero] using h
    subst hn
    exact Or.inl (by simp [F64.mul])
  | fin neg m e =>
    have hn : neg = false := by
      cases neg
      · rfl
      · simp [F64.gtZero] at h
    subst hn
    simpa [F64.mul] using roundDyadic_sign false (m * 7205759403792794) (e + -55)

theorem itemFormulaPoints_nonneg (item : Item) : 0 ≤ itemFormulaPoints item := by
  unfold itemFormulaPoints
  simp only
  split
  · cases hp : ParseFloat item.Price with
    | error e => simp
    | ok p =>
      simp only
      by_cases hg : p.gtZero = true
      · simp only [hg, if_true]
        apply toIntExact_ceil_nonneg
        rcases mul_fifth_of_gtZero p hg with h | h
        · exact Or.inr (Or.inl h)
        · exact Or.inr (Or.inr h)
      · simp [hg]
  · exact le_refl 0

theorem itemStep_formula (b : Int) (item : Item) (hb : 0 ≤ b)
    (hfin : descriptionQualifies item.ShortDescription = true →
      ∀ p, ParseFloat item.Price = Except.ok p → p.leZero = false →
        (F64.mul p F64.fifth).isFinite = true)
    (hbound : b + itemFormulaPoints item < 2 ^ 63) :
    itemStep b item = b + itemFormulaPoints item := by
  rw [itemStep_eq]
  by_cases hq : descriptionQualifies item.ShortDescription = true
  · have hq2 : byteLen (TrimSpace item.ShortDescription) ≠ 0 ∧
        byteLen (TrimSpace item.ShortDescription) % 3 = 0 := by
      simpa [descriptionQualifies] using hq
    cases hp : ParseFloat item.Price with
    | error e => simp [priceCounts, itemFormulaPoints, hp, hq2]
    | ok p =>
      by_cases hle : p.leZero = true
      · have hg : p.gtZero = false := by
          cases p with
          | nan => rfl
          | inf neg => simpa [F64.gtZero, F64.leZero] using hle
          | fin neg m e =>
            simp only [F64.leZero, Bool.or_eq_true, beq_iff_eq] at hle
            rcases hle with h | h <;> simp [F64.gtZero, h]
        simp [priceCounts, itemFormulaPoints, hp, hq2, hle, hg]
      · have hle2 : p.leZero = false := by simpa using hle
        have hfinite := hfin hq p hp hle2
        have hg : p.gtZero = true := by
          cases p with
          | nan => simp [F64.mul, F64.isFinite] at hfinite
          | inf neg =>
            rw [fifth_eq] at hfinite
            simp [F64.mul, F64.isFinite] at hfinite
          | fin neg m e =>
            simp only [F64.leZero, Bool.or_eq_false_iff, beq_eq_false_iff_ne] at hle2
            simp [F64.gtZero, hle2.1, hle2.2]
        have hform : itemFormulaPoints item = (F64.ceil (F64.mul p F64.fifth)).toIntExact := by
          simp [itemFormulaPoints, hp, hq2, hg]
        obtain ⟨m1, e1, hm⟩ : ∃ m e, F64.mul p F64.fifth = F64.fin false m e := by
          rcases mul_fifth_of_gtZero p hg with h | h
          · rw [h] at hfinite
            simp [F64.isFinite] at hfinite
          · exact h
        have hnn := itemFormulaPoints_nonneg item
        have hlt : (F64.ceil (F64.fin false m1 e1)).toIntExact < 2 ^ 63 := by
          rw [← hm, ← hform]
          linarith
        have hpp : pricePoints item.Price = itemFormulaPoints item := by
          rw [hform]
          simp only [pricePoints, hp, hle2, Bool.false_eq_true, if_false]
          rw [hm]
          exact toInt_ceil_eq m1 e1 hlt
        simp only [hq, priceCounts, hp, hle2, Bool.not_false, and_self, if_true]
        rw [hpp]
        exact wrap64_of_range _ (by linarith) hbound
  · have hq2 : ¬ (byteLen (TrimSpace item.ShortDescription) ≠ 0 ∧
        byteLen (TrimSpace item.ShortDescription) % 3 = 0) := by
      simpa [descriptionQualifies] using hq
    have hform : itemFormulaPoints item = 0 := by
      unfold itemFormulaPoints
      simp only
      rw [if_neg hq2]
    simp [hq, hform]

theorem foldl_itemStep_formula (items : List Item) :
    ∀ b : Int, 0 ≤ b → productsFinite items →
      b + (items.map itemFormulaPoints).sum < 2 ^ 63 →
      items.foldl itemStep b = b + (items.map itemFormulaPoints).sum := by
  induction items with
  | nil => intro b _ _ _; simp
  | cons item rest ih =>
    intro b hb hfin hbound
    simp only [List.map_cons, List.sum_cons] at hbound
    have hrest : 0 ≤ (rest.map itemFormulaPoints).sum := by
      apply List.sum_nonneg
      intro x hx
      obtain ⟨i, _, hi⟩ := List.mem_map.mp hx
      rw [← hi]
      exact itemFormulaPoints_nonneg i
    have hitem := itemFormulaPoints_nonneg item
    have hstep : itemStep b item = b + itemFormulaPoints item :=
      itemStep_formula b item hb (fun hq p hp hle => hfin item (List.mem_cons_self _ _) hq p hp hle)
        (by linarith)
    simp only [List.foldl_cons, List.map_cons, List.sum_cons, hstep]
    rw [ih (b + itemFormulaPoints item) (by linarith)
      (fun i hi => hfin i (List.mem_cons_of_mem _ hi)) (by linarith)]
    ring

theorem leZero_of_gtZero (t : F64) (h : t.gtZero = true) : t.leZero = false := by
  cases t with
  | nan => simp [F64.gtZero] at h
  | inf neg => simpa [F64.gtZero, F64.leZero] using h
  | fin neg m e =>
    simp only [F64.gtZero, Bool.and_eq_true, Bool.not_eq_true', bne_iff_ne] at h
    simp [F64.leZero, h.1, h.2]

theorem totalRulesPoints_eq (t : F64) :
    totalRulesPoints t =
      (if t.isInteger then 50 else 0) + (if t.isMultipleOfQuarter then 25 else 0) := by
  unfold totalRulesPoints
  rw [mod_one_isZero, mod_quarter_isZero]

theorem scoreItemsDateTime_formula (r : Receipt) (b : Int) (date : Date) (clock : Clock)
    (hb : 0 ≤ b)
    (hd : parseDate r.PurchaseDate = some date) (hc : parseClock r.PurchaseTime = some clock)
    (hfin : productsFinite r.Items)
    (hbound : b + 5 * (r.Items.length / 2 : Nat) + (r.Items.map itemFormulaPoints).sum
      + (if date.Day % 2 = 1 then 6 else 0)
      + (if 14 ≤ clock.Hour ∧ clock.Hour < 16 then 10 else 0) < 2 ^ 63) :
    scoreItemsDateTime r b =
      b + 5 * (r.Items.length / 2 : Nat) + (r.Items.map itemFormulaPoints).sum
      + (if date.Day % 2 = 1 then 6 else 0)
      + (if 14 ≤ clock.Hour ∧ clock.Hour < 16 then 10 else 0) := by
  have hsum : 0 ≤ (r.Items.map itemFormulaPoints).sum := by
    apply List.sum_nonneg
    intro x hx
    obtain ⟨i, _, hi⟩ := List.mem_map.mp hx
    rw [← hi]
    exact itemFormulaPoints_nonneg i
  have hpairs : (0 : Int) ≤ 5 * (r.Items.length / 2 : Nat) := by positivity
  have hO : (0 : Int) ≤ (if date.Day % 2 = 1 then 6 else 0) := by split <;> norm_num
  have hT : (0 : Int) ≤ (if 14 ≤ clock.Hour ∧ clock.Hour < 16 then 10 else 0) := by
    split <;> norm_num
  have hfold := foldl_itemStep_formula r.Items (b + (r.Items.length / 2 : Nat) * 5)
    (by linarith) hfin (by linarith)
  unfold scoreItemsDateTime oddDayStep afternoonStep
  simp only [hd, hc, hfold]
  generalize hx : b + (r.Items.length / 2 : Nat) * 5 + (r.Items.map itemFormulaPoints).sum = x
  have hx0 : 0 ≤ x := by rw [← hx]; linarith
  have hxb : x + (if date.Day % 2 = 1 then 6 else 0)
      + (if 14 ≤ clock.Hour ∧ clock.Hour < 16 then 10 else 0) < 2 ^ 63 := by
    rw [← hx]; linarith
  have hxe : b + 5 * (r.Items.length / 2 : Nat) + (r.Items.map itemFormulaPoints).sum = x := by
    rw [← hx]; ring
  rw [hxe]
  have hdate : (if date.Day % 2 ≠ 0 then wrap64 (x + 6) else x) =
      x + (if date.Day % 2 = 1 then 6 else 0) := by
    by_cases h1 : date.Day % 2 = 1
    · have h1' : date.Day % 2 ≠ 0 := by omega
      rw [if_pos h1', if_pos h1]
      rw [if_pos h1] at hxb
      exact wrap64_of_range _ (by linarith) (by linarith)
    · have h1' : ¬ (date.Day % 2 ≠ 0) := by omega
      rw [if_neg h1', if_neg h1]
      ring
  rw [hdate]
  generalize hy : x + (if date.Day % 2 = 1 then 6 else 0) = y at hxb ⊢
  have hy0 : 0 ≤ y := by rw [← hy]; linarith
  by_cases h2 : 14 ≤ clock.Hour ∧ clock.Hour < 16
  · rw [if_pos h2, if_pos h2]
    rw [if_pos h2] at hxb
    exact wrap64_of_range _ (by linarith) (by linarith)
  · rw [if_neg h2, if_neg h2]
    ring

/-- C2, as amended. Full scoring formula: for every receipt whose purchase date and
time are valid and whose total parses to a `float64` value `t > 0`, provided that
every product `price * 0.2` of the item loop is finite (no qualifying price parses to
not-a-number or an infinity) and that the integer `A + R + Q + P + D + O + T` is below
`2^63`, `calculatePoints` returns exactly `A + R + Q + P + D + O + T`, where `t` and
the prices are the `float64` values `ParseFloat` returns and `ceil(p * 0.2)` is taken
of the `float64` product. -/
theorem C2_scoring_formula_amended (r : Receipt) (t : F64) (date : Date) (clock : Clock)
    (ht : ParseFloat r.Total = Except.ok t) (hpos : t.gtZero = true)
    (hd : parseDate r.PurchaseDate = some date) (hc : parseClock r.PurchaseTime = some clock)
    (hfin : productsFinite r.Items)
    (hbound : scoreFormula r t date.Day clock.Hour < 2 ^ 63) :
    calculatePoints r = scoreFormula r t date.Day clock.Hour := by
  rw [calculatePoints_of_gate r t ht (leZero_of_gtZero t hpos)]
  unfold scoreFormula at hbound ⊢
  rw [← alphanumericCount_eq] at hbound ⊢
  have hA : (0 : Int) ≤ (alphanumericCount r.Retailer : Int) := Int.ofNat_nonneg _
  have hR : (0 : Int) ≤ totalRulesPoints t := by
    rw [totalRulesPoints_eq]
    by_cases h1 : t.isInteger = true <;> by_cases h2 : t.isMultipleOfQuarter = true <;>
      simp [h1, h2]
  have hrules := totalRulesPoints_eq t
  rw [scoreItemsDateTime_formula r _ date clock (by linarith) hd hc hfin (by linarith)]
  linarith

theorem parseFloat_12_25 :
    ParseFloat "12.25" = Except.ok (F64.fin false 6896136929411072 (-49)) := rfl

theorem exampleReceipt_productsFinite : productsFinite exampleReceipt.Items := by
  intro item hmem hq p hp _
  have hcases : item = ⟨"Emils Cheese Pizza", "12.25"⟩ ∨
      item = ⟨"Knorr Creamy Chicken", "1.26"⟩ := by
    simpa [exampleReceipt, targetReceipt] using hmem
  rcases hcases with h | h
  · subst h
    have hp2 : p = F64.fin false 6896136929411072 (-49) := by
      have := hp.symm.trans parseFloat_12_25
      exact Except.ok.inj this
    subst hp2
    decide!
  · subst h
    exact absurd hq (by decide)

/-- C2, as amended, at the "Target" receipt of two items: the score is the value 20 of
the formula. -/
theorem C2_scoring_formula_amended_witness :
    (ParseFloat exampleReceipt.Total = Except.ok (F64.fin false 4975070213360845 (-47)) ∧
      (F64.fin false 4975070213360845 (-47)).gtZero = true ∧
      parseDate exampleReceipt.PurchaseDate = some ⟨2022, 1, 1⟩ ∧
      parseClock exampleReceipt.PurchaseTime = some ⟨13, 1⟩ ∧
      productsFinite exampleReceipt.Items ∧
      scoreFormula exampleReceipt (F64.fin false 4975070213360845 (-47)) 1 13 < 2 ^ 63) ∧
    calculatePoints exampleReceipt =
      scoreFormula exampleReceipt (F64.fin false 4975070213360845 (-47)) 1 13 ∧
    scoreFormula exampleReceipt (F64.fin false 4975070213360845 (-47)) 1 13 = 20 :=
  ⟨⟨parseFloat_35_35, rfl, parseDate_target, parseClock_target,
      exampleReceipt_productsFinite, by decide!⟩,
    C2_scoring_formula_amended exampleReceipt (F64.fin false 4975070213360845 (-47))
      ⟨2022, 1, 1⟩ ⟨13, 1⟩ parseFloat_35_35 rfl parseDate_target parseClock_target
      exampleReceipt_productsFinite (by decide!),
    by decide!⟩

/-- C2 as stated fails: on a receipt with a valid date and time, the total "1" and two
qualifying items priced "4e19" (each earning 8000000000000000000 points) the formula
gives 16000000000000000081 while `calculatePoints`, whose `int` sum wraps around,
returns -2446744073709551535. -/
theorem C2_scoring_formula_counterexample :
    ParseFloat overflowReceipt.Total = Except.ok (F64.fin false 4503599627370496 (-52)) ∧
    (F64.fin false 4503599627370496 (-52)).gtZero = true ∧
    parseDate overflowReceipt.PurchaseDate = some ⟨2022, 1, 2⟩ ∧
    parseClock overflowReceipt.PurchaseTime = some ⟨13, 1⟩ ∧
    pricePoints "4e19" = 8000000000000000000 ∧
    scoreFormula overflowReceipt (F64.fin false 4503599627370496 (-52)) 2 13 =
      16000000000000000081 ∧
    calculatePoints overflowReceipt = -2446744073709551535 ∧
    calculatePoints overflowReceipt ≠
      scoreFormula overflowReceipt (F64.fin false 4503599627370496 (-52)) 2 13 :=
  ⟨rfl, rfl, by decide, by decide, by decide!, by decide!, by decide!, by decide!⟩

/-- Why the scoring formula asks for finite products: the price "Inf" parses to
`+Inf > 0`, the formula has no integer for `ceil(+Inf * 0.2)` (it counts 0), and the
program adds whatever `int(+Inf)` is on the machine (here `-2^63`). -/
theorem scoreFormula_infinite_price :
    ParseFloat "Inf" = Except.ok (F64.inf false) ∧
    scoreFormula infinitePriceReceipt (F64.fin false 4503599627370496 (-52)) 2 13 = 76 ∧
    calculatePoints infinitePriceReceipt = 76 - 2 ^ 63 :=
  ⟨rfl, by decide!, by decide!⟩

/-! ## Theorems: rounding to the nearest `float64` -/

theorem bitLenAux_zero (fuel acc : Nat) : bitLenAux fuel 0 acc = acc := by
  cases fuel <;> simp [bitLenAux]

theorem bitLenAux_spec (fuel : Nat) :
    ∀ n acc, 0 < n → n ≤ fuel →
      ∃ k, bitLenAux fuel n acc = acc + k + 1 ∧ 2 ^ k ≤ n ∧ n < 2 ^ (k + 1) := by
  induction fuel with
  | zero => intro n acc h1 h2; omega
  | succ fuel ih =>
    intro n acc h1 h2
    have hn0 : n ≠ 0 := by omega
    simp only [bitLenAux, hn0, if_false]
    by_cases h : n / 2 = 0
    · refine ⟨0, ?_, ?_, ?_⟩
      · rw [h, bitLenAux_zero]
      · simpa using h1
      · have : n < 2 := by omega
        simpa using this
    · have hpos : 0 < n / 2 := Nat.pos_of_ne_zero h
      have hle : n / 2 ≤ fuel := by omega
      obtain ⟨k, hk1, hk2, hk3⟩ := ih (n / 2) (acc + 1) hpos hle
      refine ⟨k + 1, ?_, ?_, ?_⟩
      · rw [hk1]; omega
      · have := (Nat.le_div_iff_mul_le (by norm_num : 0 < 2)).mp hk2
        rw [pow_succ]
        exact this
      · have := (Nat.div_lt_iff_lt_mul (by norm_num : 0 < 2)).mp hk3
        rw [pow_succ (n := k + 1)]
        exact this

theorem bitLen_spec (n : Nat) (h : 0 < n) :
    ∃ k, bitLen n = k + 1 ∧ 2 ^ k ≤ n ∧ n < 2 ^ (k + 1) := by
  obtain ⟨k, hk1, hk2, hk3⟩ := bitLenAux_spec n n 0 h (le_refl n)
  exact ⟨k, by rw [bitLen, hk1]; omega, hk2, hk3⟩

theorem zpow_two_of_nonneg (e : Int) (h : 0 ≤ e) : (2 : ℚ) ^ e = ((2 ^ e.toNat : Nat) : ℚ) := by
  obtain ⟨n, rfl⟩ := Int.eq_ofNat_of_zero_le h
  simp [zpow_natCast]

theorem zpow_two_of_neg (e : Int) (h : e < 0) :
    (2 : ℚ) ^ e = 1 / ((2 ^ (-e).toNat : Nat) : ℚ) := by
  obtain ⟨n, hn⟩ := Int.eq_ofNat_of_zero_le (show 0 ≤ -e by omega)
  have he : e = -(n : Int) := by omega
  subst he
  simp [zpow_neg, zpow_natCast]

theorem zpow_two_pos (e : Int) : (0 : ℚ) < 2 ^ e := zpow_pos (by norm_num) e

theorem divPow2_spec (num den : Nat) (e : Int) (hd : 0 < den) :
    0 < (divPow2 num den e).2.2 ∧ (divPow2 num den e).2.1 < (divPow2 num den e).2.2 ∧
    ((num : ℚ) / den) / 2 ^ e =
      (divPow2 num den e).1 + ((divPow2 num den e).2.1 : ℚ) / (divPow2 num den e).2.2 := by
  unfold divPow2
  by_cases he : 0 ≤ e
  · simp only [he, if_true]
    have hdpos : 0 < den * 2 ^ e.toNat := Nat.mul_pos hd (by positivity)
    refine ⟨hdpos, Nat.mod_lt _ hdpos, ?_⟩
    rw [zpow_two_of_nonneg e he]
    have hdq : ((den * 2 ^ e.toNat : Nat) : ℚ) ≠ 0 := by exact_mod_cast hdpos.ne'
    have hdm := Nat.div_add_mod num (den * 2 ^ e.toNat)
    have hq : (num : ℚ) = ((den * 2 ^ e.toNat : Nat) : ℚ) * ((num / (den * 2 ^ e.toNat) : Nat) : ℚ)
        + ((num % (den * 2 ^ e.toNat) : Nat) : ℚ) := by exact_mod_cast hdm.symm
    have hden : (den : ℚ) ≠ 0 := by exact_mod_cast hd.ne'
    have hpow : ((2 ^ e.toNat : Nat) : ℚ) ≠ 0 := by positivity
    rw [div_div]
    rw [show (den : ℚ) * ((2 ^ e.toNat : Nat) : ℚ) = ((den * 2 ^ e.toNat : Nat) : ℚ) by push_cast; ring]
    rw [div_eq_iff hdq, add_mul, div_mul_cancel₀ _ hdq]
    linarith
  · have hlt : e < 0 := not_le.mp he
    simp only [he, if_false]
    refine ⟨hd, Nat.mod_lt _ hd, ?_⟩
    rw [zpow_two_of_neg e hlt]
    have hden : (den : ℚ) ≠ 0 := by exact_mod_cast hd.ne'
    have hdm := Nat.div_add_mod (num * 2 ^ (-e).toNat) den
    have hq : ((num * 2 ^ (-e).toNat : Nat) : ℚ) =
        (den : ℚ) * ((num * 2 ^ (-e).toNat / den : Nat) : ℚ)
        + ((num * 2 ^ (-e).toNat % den : Nat) : ℚ) := by exact_mod_cast hdm.symm
    have hpow : ((2 ^ (-e).toNat : Nat) : ℚ) ≠ 0 := by positivity
    rw [div_div_eq_mul_div, div_one]
    rw [show (num : ℚ) / den * ((2 ^ (-e).toNat : Nat) : ℚ) =
      ((num * 2 ^ (-e).toNat : Nat) : ℚ) / den by push_cast; ring]
    rw [div_eq_iff hden, add_mul, div_mul_cancel₀ _ hden]
    linarith

theorem ilog2_spec (num den : Nat) (hn : 0 < num) (hd : 0 < den) :
    (2 : ℚ) ^ (ilog2 num den) ≤ (num : ℚ) / den ∧
      (num : ℚ) / den < (2 : ℚ) ^ (ilog2 num den + 1) := by
  obtain ⟨kn, hkn, hn1, hn2⟩ := bitLen_spec num hn
  obtain ⟨kd, hkd, hd1, hd2⟩ := bitLen_spec den hd
  have hdenpos : (0 : ℚ) < den := by exact_mod_cast hd
  have hn1q : (2 : ℚ) ^ (kn : Int) ≤ num := by rw [zpow_natCast]; exact_mod_cast hn1
  have hn2q : (num : ℚ) < 2 ^ ((kn : Int) + 1) := by
    have : (num : ℚ) < 2 ^ (kn + 1) := by exact_mod_cast hn2
    rw [show ((kn : Int) + 1) = ((kn + 1 : Nat) : Int) by push_cast; ring, zpow_natCast]
    exact this
  have hd1q : (2 : ℚ) ^ (kd : Int) ≤ den := by rw [zpow_natCast]; exact_mod_cast hd1
  have hd2q : (den : ℚ) < 2 ^ ((kd : Int) + 1) := by
    have : (den : ℚ) < 2 ^ (kd + 1) := by exact_mod_cast hd2
    rw [show ((kd : Int) + 1) = ((kd + 1 : Nat) : Int) by push_cast; ring, zpow_natCast]
    exact this
  have hl : ((bitLen num : Int) - (bitLen den : Int)) = (kn : Int) - kd := by
    rw [hkn, hkd]; push_cast; ring
  -- bounds on the quotient
  have hupper : (num : ℚ) / den < 2 ^ ((kn : Int) - kd + 1) := by
    rw [div_lt_iff₀ hdenpos]
    calc (num : ℚ) < 2 ^ ((kn : Int) + 1) := hn2q
      _ = 2 ^ ((kn : Int) - kd + 1) * 2 ^ (kd : Int) := by
          rw [← zpow_add₀ (by norm_num : (2 : ℚ) ≠ 0)]; congr 1; ring
      _ ≤ 2 ^ ((kn : Int) - kd + 1) * den :=
          mul_le_mul_of_nonneg_left hd1q (zpow_two_pos _).le
  have hlower : (2 : ℚ) ^ ((kn : Int) - kd - 1) ≤ (num : ℚ) / den := by
    rw [le_div_iff₀ hdenpos]
    calc (2 : ℚ) ^ ((kn : Int) - kd - 1) * den
        ≤ 2 ^ ((kn : Int) - kd - 1) * 2 ^ ((kd : Int) + 1) :=
          mul_le_mul_of_nonneg_left hd2q.le (zpow_two_pos _).le
      _ = 2 ^ (kn : Int) := by
          rw [← zpow_add₀ (by norm_num : (2 : ℚ) ≠ 0)]; congr 1; ring
      _ ≤ num := hn1q
  obtain ⟨hdp, hrd, hdiv⟩ := divPow2_spec num den ((kn : Int) - kd) hd
  have hdp' : (0 : ℚ) < ((divPow2 num den ((kn : Int) - kd)).2.2 : ℚ) := by exact_mod_cast hdp
  have hfrac0 : (0 : ℚ) ≤ ((divPow2 num den ((kn : Int) - kd)).2.1 : ℚ) /
      (divPow2 num den ((kn : Int) - kd)).2.2 := by positivity
  have hfrac1 : ((divPow2 num den ((kn : Int) - kd)).2.1 : ℚ) /
      (divPow2 num den ((kn : Int) - kd)).2.2 < 1 := by
    rw [div_lt_one hdp']
    exact_mod_cast hrd
  have hp := zpow_two_pos ((kn : Int) - kd)
  unfold ilog2
  simp only [hl]
  by_cases hq : 1 ≤ (divPow2 num den ((kn : Int) - kd)).1
  · simp only [hq, if_true]
    refine ⟨?_, hupper⟩
    have hq' : (1 : ℚ) ≤ ((divPow2 num den ((kn : Int) - kd)).1 : ℚ) := by exact_mod_cast hq
    have : (1 : ℚ) ≤ (num : ℚ) / den / 2 ^ ((kn : Int) - kd) := by rw [hdiv]; linarith
    rwa [le_div_iff₀ hp, one_mul] at this
  · simp only [hq, if_false]
    have hq0 : (divPow2 num den ((kn : Int) - kd)).1 = 0 := by omega
    refine ⟨hlower, ?_⟩
    have : (num : ℚ) / den / 2 ^ ((kn : Int) - kd) < 1 := by
      rw [hdiv, hq0]; simpa using hfrac1
    rw [div_lt_iff₀ hp, one_mul] at this
    rw [show (kn : Int) - kd - 1 + 1 = (kn : Int) - kd by ring]
    exact this

theorem zpow_two_lt_iff (a b : Int) : (2 : ℚ) ^ a < 2 ^ b ↔ a < b :=
  zpow_lt_zpow_iff_right₀ (by norm_num)

theorem zpow_two_le_of_le (a b : Int) (h : a ≤ b) : (2 : ℚ) ^ a ≤ 2 ^ b :=
  zpow_le_zpow_right₀ (by norm_num) h

/-- What `roundRat` returns for a positive rational below `2^K`, `K <= 1023`: a finite
value `m * 2^e` where `m` is an integer nearest to the rational scaled by `2^(-e)`;
the exponent is at least `-1074` and at most `K - 53` (when that is not smaller), and
the rational is below `2^(e + 53)`. -/
theorem roundRat_spec (neg : Bool) (num den : Nat) (hn : 0 < num) (hd : 0 < den)
    (K : Int) (hK : K ≤ 1023) (hx : (num : ℚ) / den < 2 ^ K) :
    ∃ m : Nat, ∃ e : Int, roundRat neg num den = F64.fin neg m e ∧
      -1074 ≤ e ∧ e ≤ max (K - 53) (-1074) ∧
      (num : ℚ) / den < 2 ^ (e + 53) ∧
      |(m : ℚ) - (num : ℚ) / den / 2 ^ e| ≤ 1 / 2 ∧
      (∀ (J : Nat) (f : ℚ), (num : ℚ) / den / 2 ^ e = J + f → 0 ≤ f → f < 1 / 2 → m = J) := by
  obtain ⟨hL1, hL2⟩ := ilog2_spec num den hn hd
  have hLK : ilog2 num den < K := (zpow_two_lt_iff _ _).mp (lt_of_le_of_lt hL1 hx)
  generalize hL : ilog2 num den = L at hL1 hL2 hLK
  have he1 : -1074 ≤ max (L - 52) (-1074) := le_max_right _ _
  have he2 : max (L - 52) (-1074) ≤ max (K - 53) (-1074) :=
    max_le_max (by omega) (le_refl _)
  have he3 : L + 1 ≤ max (L - 52) (-1074) + 53 := by
    have := le_max_left (L - 52) (-1074)
    omega
  have he4 : max (L - 52) (-1074) ≤ 970 := by
    apply max_le <;> omega
  generalize hE : max (L - 52) (-1074) = e at he1 he2 he3 he4
  obtain ⟨hdp, hrd, hdiv⟩ := divPow2_spec num den e hd
  generalize hq : (divPow2 num den e).1 = q at hdiv
  generalize hr : (divPow2 num den e).2.1 = r at hdiv hrd
  generalize hdd : (divPow2 num den e).2.2 = d at hdiv hrd hdp
  have hdq : (0 : ℚ) < d := by exact_mod_cast hdp
  have hrq : (r : ℚ) < d := by exact_mod_cast hrd
  have hr0 : (0 : ℚ) ≤ r := by positivity
  have hnum0 : num ≠ 0 := by omega
  have hnoovf : ∀ m : Nat, ¬ (971 < e ∨ (e = 971 ∧ 2 ^ 53 ≤ m)) := by
    intro m h
    rcases h with h | ⟨h, _⟩ <;> omega
  have hround : roundRat neg num den =
      F64.fin neg (if d < 2 * r ∨ (2 * r = d ∧ q % 2 = 1) then q + 1 else q) e := by
    unfold roundRat
    simp only [hnum0, if_false, hL, hE, hq, hr, hdd]
    rw [if_neg (hnoovf _)]
  refine ⟨_, e, hround, he1, he2, lt_of_lt_of_le hL2 (zpow_two_le_of_le _ _ he3), ?_, ?_⟩
  · rw [hdiv]
    by_cases hup : d < 2 * r ∨ (2 * r = d ∧ q % 2 = 1)
    · rw [if_pos hup]
      have h2r : (d : ℚ) ≤ 2 * r := by
        rcases hup with h | ⟨h, _⟩
        · exact_mod_cast h.le
        · exact_mod_cast h.symm.le
      have hfr : (1 : ℚ) / 2 ≤ (r : ℚ) / d := by
        rw [le_div_iff₀ hdq]; linarith
      have hfr1 : (r : ℚ) / d < 1 := by rw [div_lt_one hdq]; exact hrq
      rw [abs_le]
      push_cast
      constructor <;> linarith
    · rw [if_neg hup]
      have h2r : (2 : ℚ) * r ≤ d := by
        have : 2 * r ≤ d := by
          by_contra hc
          exact hup (Or.inl (by omega))
        exact_mod_cast this
      have hfr : (r : ℚ) / d ≤ 1 / 2 := by
        rw [div_le_iff₀ hdq]; linarith
      have hfr0 : (0 : ℚ) ≤ (r : ℚ) / d := by positivity
      rw [abs_le]
      constructor <;> linarith
  · intro J f hJ hf0 hf1
    rw [hdiv] at hJ
    have hfr0 : (0 : ℚ) ≤ (r : ℚ) / d := by positivity
    have hfr1 : (r : ℚ) / d < 1 := by rw [div_lt_one hdq]; exact hrq
    have hqJ : q = J := by
      have h1 : (q : ℚ) < J + 1 := by linarith
      have h2 : (J : ℚ) < q + 1 := by linarith
      have h1' : q < J + 1 := by exact_mod_cast h1
      have h2' : J < q + 1 := by exact_mod_cast h2
      omega
    have hrf : (r : ℚ) / d = f := by
      rw [hqJ] at hJ
      linarith
    have h2r : 2 * r < d := by
      have : (r : ℚ) / d < 1 / 2 := by rw [hrf]; exact hf1
      rw [div_lt_iff₀ hdq] at this
      have : (2 : ℚ) * r < d := by linarith
      exact_mod_cast this
    have hup : ¬ (d < 2 * r ∨ (2 * r = d ∧ q % 2 = 1)) := by
      intro h
      rcases h with h | ⟨h, _⟩ <;> omega
    rw [if_neg hup, hqJ]

theorem dyadic_int_iff (m n : Nat) : (∃ j : ℤ, (m : ℚ) / 2 ^ n = j) ↔ 2 ^ n ∣ m := by
  have hpow : ((2 : ℚ) ^ n) ≠ 0 := by positivity
  constructor
  · rintro ⟨j, hj⟩
    rw [div_eq_iff hpow] at hj
    have hj' : (m : ℤ) = j * 2 ^ n := by exact_mod_cast hj
    have hdvd : ((2 ^ n : Nat) : ℤ) ∣ (m : ℤ) := by
      rw [hj']
      push_cast
      exact Dvd.intro_left j rfl
    exact Int.natCast_dvd_natCast.mp hdvd
  · rintro ⟨c, hc⟩
    refine ⟨c, ?_⟩
    rw [hc, div_eq_iff hpow]
    push_cast
    ring

theorem sign_quarter_iff (neg : Bool) (x : ℚ) :
    (∃ j : ℤ, (if neg then -1 else 1) * x = j / 4) ↔ ∃ j : ℤ, x * 4 = j := by
  constructor
  · rintro ⟨j, hj⟩
    cases neg
    · refine ⟨j, ?_⟩
      simp only [Bool.false_eq_true, if_false, one_mul] at hj
      rw [hj]; ring
    · refine ⟨-j, ?_⟩
      simp only [if_true] at hj
      push_cast
      linarith
  · rintro ⟨j, hj⟩
    cases neg
    · refine ⟨j, ?_⟩
      simp only [Bool.false_eq_true, if_false, one_mul]
      linarith
    · refine ⟨-j, ?_⟩
      simp only [if_true]
      push_cast
      linarith

theorem isMultipleOfQuarter_iff (x : F64) :
    x.isMultipleOfQuarter = true ↔ x.isFinite = true ∧ ∃ j : ℤ, x.toRat = j / 4 := by
  cases x with
  | nan => simp [F64.isMultipleOfQuarter, F64.isFinite]
  | inf neg => simp [F64.isMultipleOfQuarter, F64.isFinite]
  | fin neg m e =>
    simp only [F64.isFinite, true_and, F64.toRat, mul_assoc]
    rw [sign_quarter_iff]
    by_cases h : -2 ≤ e
    · simp only [F64.isMultipleOfQuarter, h, if_true, true_iff]
      refine ⟨(m * 2 ^ (e + 2).toNat : Nat), ?_⟩
      have h4 : (4 : ℚ) = 2 ^ (2 : Int) := by norm_num
      rw [mul_assoc, h4, ← zpow_add₀ (by norm_num : (2 : ℚ) ≠ 0),
        zpow_two_of_nonneg (e + 2) (by omega)]
      push_cast
      ring
    · have hlt : e < -2 := not_le.mp h
      simp only [F64.isMultipleOfQuarter, h, if_false, beq_iff_eq]
      rw [← Nat.dvd_iff_mod_eq_zero, ← dyadic_int_iff]
      have h4 : (4 : ℚ) = 2 ^ (2 : Int) := by norm_num
      have hrew : (m : ℚ) * 2 ^ e * 4 = (m : ℚ) / 2 ^ (-e - 2).toNat := by
        rw [mul_assoc, h4, ← zpow_add₀ (by norm_num : (2 : ℚ) ≠ 0),
          zpow_two_of_neg (e + 2) (by omega)]
        have : (-(e + 2)).toNat = (-e - 2).toNat := by congr 1; ring
        rw [this]
        push_cast
        ring
      rw [hrew]

theorem isInteger_iff (x : F64) :
    x.isInteger = true ↔ x.isFinite = true ∧ ∃ j : ℤ, x.toRat = j := by
  cases x with
  | nan => simp [F64.isInteger, F64.isFinite]
  | inf neg => simp [F64.isInteger, F64.isFinite]
  | fin neg m e =>
    simp only [F64.isFinite, true_and, F64.toRat, mul_assoc]
    have hsign : (∃ j : ℤ, (if neg then -1 else 1) * ((m : ℚ) * 2 ^ e) = j) ↔
        ∃ j : ℤ, (m : ℚ) * 2 ^ e = j := by
      constructor
      · rintro ⟨j, hj⟩
        cases neg
        · exact ⟨j, by simpa using hj⟩
        · refine ⟨-j, ?_⟩
          simp only [if_true] at hj
          push_cast
          linarith
      · rintro ⟨j, hj⟩
        cases neg
        · exact ⟨j, by simpa using hj⟩
        · refine ⟨-j, ?_⟩
          simp only [if_true]
          push_cast
          linarith
    rw [hsign]
    by_cases h : 0 ≤ e
    · simp only [F64.isInteger, h, if_true, true_iff]
      refine ⟨(m * 2 ^ e.toNat : Nat), ?_⟩
      rw [zpow_two_of_nonneg e h]
      push_cast
      ring
    · have hlt : e < 0 := not_le.mp h
      simp only [F64.isInteger, h, if_false, beq_iff_eq]
      rw [← Nat.dvd_iff_mod_eq_zero, ← dyadic_int_iff]
      have hrew : (m : ℚ) * 2 ^ e = (m : ℚ) / 2 ^ (-e).toNat := by
        rw [zpow_two_of_neg e hlt]
        push_cast
        ring
      rw [hrew]

/-! ## Theorems: decimal texts and the value `ParseFloat` returns -/

theorem parseFloat_of_decimalValue (s : String) (v : ℚ) (h : decimalValue s = some v) :
    ∃ ft : FloatText, ft.hex = false ∧ v = ft.toRat ∧
      ParseFloat s = (match ft.toF64 with
        | F64.inf _ => Except.error NumError.ErrRange
        | f => Except.ok f) := by
  unfold decimalValue at h
  cases hs : special s.toList with
  | some p => rw [hs] at h; simp at h
  | none =>
    rw [hs] at h
    cases hr : readFloat s.toList with
    | none => rw [hr] at h; simp at h
    | some ft =>
      rw [hr] at h
      by_cases hc : ft.read = s.toList.length ∧ ft.hex = false
      · have h2 : some ft.toRat = some v := by
          dsimp only at h
          rw [if_pos hc] at h
          exact h
        refine ⟨ft, hc.2, (Option.some.inj h2).symm, ?_⟩
        have hne : ¬ (ft.read ≠ s.toList.length) := by simp [hc.1]
        unfold ParseFloat
        dsimp only
        rw [hs, hr]
        dsimp only
        rw [if_neg hne]
      · have : (none : Option ℚ) = some v := by
          dsimp only at h
          rw [if_neg hc] at h
          exact h
        simp at this

theorem zpow_ten_of_nonneg (e : Int) (h : 0 ≤ e) :
    (10 : ℚ) ^ e = ((10 ^ e.toNat : Nat) : ℚ) := by
  obtain ⟨n, rfl⟩ := Int.eq_ofNat_of_zero_le h
  simp [zpow_natCast]

theorem zpow_ten_of_neg (e : Int) (h : e < 0) :
    (10 : ℚ) ^ e = 1 / ((10 ^ (-e).toNat : Nat) : ℚ) := by
  obtain ⟨n, hn⟩ := Int.eq_ofNat_of_zero_le (show 0 ≤ -e by omega)
  have he : e = -(n : Int) := by omega
  subst he
  simp [zpow_neg, zpow_natCast]

theorem toF64_decimal_pos (ft : FloatText) (hhex : ft.hex = false) (hpos : 0 < ft.toRat) :
    ∃ num den : Nat, 0 < num ∧ 0 < den ∧ ft.toF64 = roundRat false num den ∧
      ft.toRat = (num : ℚ) / den := by
  have h10 : (0 : ℚ) < 10 ^ ft.exp := zpow_pos (by norm_num) _
  have hneg : ft.neg = false := by
    by_contra hc
    have hn : ft.neg = true := by simpa using hc
    unfold FloatText.toRat at hpos
    rw [hn, hhex] at hpos
    simp only [if_true, Bool.false_eq_true, if_false] at hpos
    have : (0 : ℚ) ≤ (ft.mant : ℚ) * 10 ^ ft.exp := by positivity
    linarith
  have hval : ft.toRat = (ft.mant : ℚ) * 10 ^ ft.exp := by
    unfold FloatText.toRat
    rw [hneg, hhex]
    simp
  have hmant : 0 < ft.mant := by
    rcases Nat.eq_zero_or_pos ft.mant with h | h
    · rw [hval, h] at hpos
      simp at hpos
    · exact h
  by_cases he : 0 ≤ ft.exp
  · refine ⟨ft.mant * 10 ^ ft.exp.toNat, 1, by positivity, by norm_num, ?_, ?_⟩
    · simp [FloatText.toF64, hhex, he, hneg]
    · rw [hval, zpow_ten_of_nonneg _ he]
      push_cast
      ring
  · have hlt : ft.exp < 0 := not_le.mp he
    refine ⟨ft.mant, 10 ^ (-ft.exp).toNat, hmant, by positivity, ?_, ?_⟩
    · simp [FloatText.toF64, hhex, he, hneg]
    · rw [hval, zpow_ten_of_neg _ hlt]
      push_cast
      ring

/-- A positive decimal text below `2^K` (`K <= 1023`) parses to the finite value
`m * 2^e` nearest to it. -/
theorem parseFloat_decimal_spec (s : String) (v : ℚ) (h : decimalValue s = some v)
    (hpos : 0 < v) (K : Int) (hK : K ≤ 1023) (hv : v < 2 ^ K) :
    ∃ m : Nat, ∃ e : Int, ParseFloat s = Except.ok (F64.fin false m e) ∧
      -1074 ≤ e ∧ e ≤ max (K - 53) (-1074) ∧ v < 2 ^ (e + 53) ∧
      |(m : ℚ) - v / 2 ^ e| ≤ 1 / 2 ∧
      (∀ (J : Nat) (f : ℚ), v / 2 ^ e = J + f → 0 ≤ f → f < 1 / 2 → m = J) := by
  obtain ⟨ft, hhex, hv2, hparse⟩ := parseFloat_of_decimalValue s v h
  obtain ⟨num, den, hn, hd, hF, hR⟩ := toF64_decimal_pos ft hhex (hv2 ▸ hpos)
  have hvnd : v = (num : ℚ) / den := hv2.trans hR
  obtain ⟨m, e, hround, h1, h2, h3, h4, h5⟩ :=
    roundRat_spec false num den hn hd K hK (hvnd ▸ hv)
  refine ⟨m, e, ?_, h1, h2, hvnd ▸ h3, hvnd ▸ h4, ?_⟩
  · rw [hparse, hF, hround]
  · intro J f
    rw [hvnd]
    exact h5 J f

theorem quarter_exact_cents (s : String) (v : ℚ) (n : Nat) (h : decimalValue s = some v)
    (hn : v = (n : ℚ) / 100) (hpos : 0 < v) (hlt : v < 2 ^ (46 : Int)) :
    ∃ t, ParseFloat s = Except.ok t ∧ t.leZero = false ∧
      (t.isMultipleOfQuarter = true ↔ ∃ k : ℤ, v = k / 4) := by
  obtain ⟨m, e, hparse, he1, he2, _, habs, hexact⟩ :=
    parseFloat_decimal_spec s v h hpos 46 (by norm_num) hlt
  have he7 : e ≤ -7 := by
    have : max ((46 : Int) - 53) (-1074) = -7 := by norm_num
    rw [this] at he2
    exact he2
  have hp : (0 : ℚ) < 2 ^ e := zpow_two_pos e
  have hp7 : (2 : ℚ) ^ e ≤ 1 / 128 := by
    have := zpow_two_le_of_le e (-7) he7
    have h7 : (2 : ℚ) ^ (-7 : Int) = 1 / 128 := by norm_num
    rw [h7] at this
    exact this
  have hn1 : 1 ≤ n := by
    rcases Nat.eq_zero_or_pos n with h0 | h0
    · rw [hn, h0] at hpos
      simp at hpos
    · exact h0
  have hn1q : (1 : ℚ) ≤ n := by exact_mod_cast hn1
  -- distance between the rounded value and the exact one
  have hdist : |(m : ℚ) * 2 ^ e - v| ≤ 1 / 256 := by
    have hmul : (m : ℚ) * 2 ^ e - v = ((m : ℚ) - v / 2 ^ e) * 2 ^ e := by
      field_simp
    rw [hmul, abs_mul, abs_of_pos hp]
    calc |(m : ℚ) - v / 2 ^ e| * 2 ^ e ≤ 1 / 2 * (1 / 128) :=
          mul_le_mul habs hp7 hp.le (by norm_num)
      _ = 1 / 256 := by norm_num
  have hm0 : m ≠ 0 := by
    intro h0
    rw [h0] at hdist
    simp only [Nat.cast_zero, zero_mul, zero_sub, abs_neg, abs_of_pos hpos] at hdist
    rw [hn] at hdist
    have : (n : ℚ) ≤ 100 / 256 := by linarith
    linarith
  refine ⟨F64.fin false m e, hparse, by simp [F64.leZero, hm0], ?_⟩
  rw [isMultipleOfQuarter_iff]
  simp only [F64.isFinite, true_and, F64.toRat, Bool.false_eq_true, if_false, one_mul]
  constructor
  · rintro ⟨j, hj⟩
    refine ⟨j, ?_⟩
    rw [hj, hn, abs_le] at hdist
    have h1 : ((25 * j - n : ℤ) : ℚ) < 1 := by push_cast; linarith
    have h2 : (-1 : ℚ) < ((25 * j - n : ℤ) : ℚ) := by push_cast; linarith
    have h1' : 25 * j - (n : ℤ) < 1 := by exact_mod_cast h1
    have h2' : -1 < 25 * j - (n : ℤ) := by exact_mod_cast h2
    have h3 : (n : ℤ) = 25 * j := by omega
    have h3q : (n : ℚ) = 25 * j := by exact_mod_cast h3
    rw [hn, h3q]
    ring
  · rintro ⟨k, hk⟩
    have hkpos : 0 < k := by
      have : (0 : ℚ) < k := by rw [hk] at hpos; linarith
      exact_mod_cast this
    obtain ⟨kn, hkn⟩ := Int.eq_ofNat_of_zero_le hkpos.le
    have hscale : v / 2 ^ e = ((kn * 2 ^ (-e - 2).toNat : Nat) : ℚ) + 0 := by
      have h4 : (4 : ℚ) = 2 ^ (2 : Int) := by norm_num
      have hpow : ((2 ^ (-e - 2).toNat : Nat) : ℚ) = 2 ^ (-e - 2) := by
        rw [zpow_two_of_nonneg (-e - 2) (by omega)]
      rw [hk, hkn, add_zero]
      push_cast at hpow ⊢
      rw [hpow, h4, div_div, ← zpow_add₀ (by norm_num : (2 : ℚ) ≠ 0), div_eq_mul_inv,
        ← zpow_neg]
      congr 2
      ring
    have hm := hexact _ 0 hscale (le_refl 0) (by norm_num)
    refine ⟨k, ?_⟩
    have hmq : (m : ℚ) = v / 2 ^ e := by
      rw [hscale, hm, add_zero]
    rw [hmq, div_mul_cancel₀ _ hp.ne', hk]

/-! ## Theorems: the description-length rule on prices in cents -/

theorem toInt_ceil_of_bounds (m : Nat) (e : Int) (he : e < 0) (T : Nat)
    (h1 : (T : ℚ) - 1 < (m : ℚ) * 2 ^ e) (h2 : (m : ℚ) * 2 ^ e ≤ T) (h63 : T < 2 ^ 63) :
    (F64.ceil (F64.fin false m e)).toInt = T := by
  have hd : 0 < 2 ^ (-e).toNat := by positivity
  have hdq : (0 : ℚ) < ((2 ^ (-e).toNat : Nat) : ℚ) := by exact_mod_cast hd
  rw [zpow_two_of_neg e he] at h1 h2
  have h1' : ((T : ℚ) - 1) * ((2 ^ (-e).toNat : Nat) : ℚ) < m := by
    have := (lt_div_iff₀ hdq).mp (by simpa [mul_one_div] using h1)
    exact this
  have h2' : (m : ℚ) ≤ T * ((2 ^ (-e).toNat : Nat) : ℚ) := by
    have := (div_le_iff₀ hdq).mp (by simpa [mul_one_div] using h2)
    exact this
  have hneg : ¬ (0 ≤ e) := by omega
  simp only [F64.ceil, hneg, if_false, Bool.false_eq_true, F64.toInt, le_refl, if_true,
    Int.toNat_zero, pow_zero, mul_one]
  generalize 2 ^ (-e).toNat = d at hd hdq h1' h2' ⊢
  have h1n : T * d < m + d := by
    have : ((T * d : Nat) : ℚ) < ((m + d : Nat) : ℚ) := by
      push_cast
      linarith
    exact_mod_cast this
  have h2n : m ≤ T * d := by exact_mod_cast h2'
  have hdiv : (m + d - 1) / d = T := by
    apply Nat.div_eq_of_lt_le
    · omega
    · rw [Nat.succ_mul]
      omega
  rw [hdiv]
  have hT : (T : Int) < 2 ^ 63 := by exact_mod_cast h63
  have hT0 : (0 : Int) ≤ T := Int.ofNat_nonneg T
  rw [if_pos ⟨by linarith, hT⟩]

/-- The description-length rule is exact on prices in cents below `2^40`: such a price
parses to a value that counts, and earns `ceil(price / 5)` points. -/
theorem pricePoints_exact_cents (s : String) (v : ℚ) (n : Nat)
    (h : decimalValue s = some v) (hn : v = (n : ℚ) / 100) (hpos : 0 < v)
    (hlt : v < 2 ^ (40 : Int)) :
    priceCounts s = true ∧ pricePoints s = ⌈v / 5⌉ := by
  obtain ⟨m1, e1, hparse, _, he1b, _, habs1, hexact1⟩ :=
    parseFloat_decimal_spec s v h hpos 40 (by norm_num) hlt
  have he13 : e1 ≤ -13 := by
    have : max ((40 : Int) - 53) (-1074) = -13 := by norm_num
    rw [this] at he1b
    exact he1b
  have hP1 : (0 : ℚ) < 2 ^ e1 := zpow_two_pos e1
  have hP1le : (2 : ℚ) ^ e1 ≤ 1 / 8192 := by
    have := zpow_two_le_of_le e1 (-13) he13
    have h13 : (2 : ℚ) ^ (-13 : Int) = 1 / 8192 := by norm_num
    rw [h13] at this
    exact this
  have hlt' : v < 1099511627776 := by
    have h40 : (2 : ℚ) ^ (40 : Int) = 1099511627776 := by norm_num
    rw [h40] at hlt
    exact hlt
  have hn1 : 1 ≤ n := by
    rcases Nat.eq_zero_or_pos n with h0 | h0
    · rw [hn, h0] at hpos
      simp at hpos
    · exact h0
  have hn1q : (1 : ℚ) ≤ n := by exact_mod_cast hn1
  -- the parsed price `a` and its distance to the exact price
  generalize ha : (m1 : ℚ) * 2 ^ e1 = a
  have hdist1 : |a - v| ≤ 1 / 16384 := by
    have hmul : a - v = ((m1 : ℚ) - v / 2 ^ e1) * 2 ^ e1 := by
      rw [← ha]; field_simp
    rw [hmul, abs_mul, abs_of_pos hP1]
    calc |(m1 : ℚ) - v / 2 ^ e1| * 2 ^ e1 ≤ 1 / 2 * (1 / 8192) :=
          mul_le_mul habs1 hP1le hP1.le (by norm_num)
      _ = 1 / 16384 := by norm_num
  have hdist1' := abs_le.mp hdist1
  have hvlow : (1 : ℚ) / 100 ≤ v := by rw [hn]; linarith
  have hapos : 0 < a := by linarith [hdist1'.1]
  have hm1 : m1 ≠ 0 := by
    intro h0
    rw [h0] at ha
    simp at ha
    linarith
  have hm1pos : 0 < m1 := Nat.pos_of_ne_zero hm1
  have hcounts : priceCounts s = true := by
    simp [priceCounts, hparse, F64.leZero, hm1]
  refine ⟨hcounts, ?_⟩
  -- the product
  have hneg55 : ¬ (0 ≤ e1 + -55) := by omega
  have hpp : pricePoints s =
      (F64.ceil (roundRat false (m1 * 7205759403792794) (2 ^ (-(e1 + -55)).toNat))).toInt := by
    have hle : (F64.fin false m1 e1).leZero = false := by simp [F64.leZero, hm1]
    unfold pricePoints
    rw [hparse]
    simp only [hle, Bool.false_eq_true, if_false]
    rw [fifth_eq]
    simp only [F64.mul, roundDyadic, hneg55, if_false, bne_self_eq_false]
  have hDpos : 0 < 2 ^ (-(e1 + -55)).toNat := by positivity
  have hDq : ((2 ^ (-(e1 + -55)).toNat : Nat) : ℚ) = 2 ^ (55 : Int) / 2 ^ e1 := by
    rw [← zpow_two_of_nonneg (-(e1 + -55)) (by omega), ← zpow_sub₀ (by norm_num : (2 : ℚ) ≠ 0)]
    congr 1
    ring
  have hy : ((m1 * 7205759403792794 : Nat) : ℚ) / ((2 ^ (-(e1 + -55)).toNat : Nat) : ℚ) =
      a * (7205759403792794 / 36028797018963968) := by
    rw [hDq, ← ha]
    have h55 : (2 : ℚ) ^ (55 : Int) = 36028797018963968 := by norm_num
    rw [h55]
    push_cast
    field_simp
    ring
  have hylt : ((m1 * 7205759403792794 : Nat) : ℚ) / ((2 ^ (-(e1 + -55)).toNat : Nat) : ℚ)
      < 2 ^ (39 : Int) := by
    rw [hy]
    have h39 : (2 : ℚ) ^ (39 : Int) = 549755813888 := by norm_num
    rw [h39]
    linarith [hdist1'.2]
  obtain ⟨m2, e2, hround2, _, he2b, hy53, habs2, hexact2⟩ :=
    roundRat_spec false (m1 * 7205759403792794) (2 ^ (-(e1 + -55)).toNat)
      (by positivity) hDpos 39 (by norm_num) hylt
  rw [hy] at hy53 habs2 hexact2
  have he14 : e2 ≤ -14 := by
    have : max ((39 : Int) - 53) (-1074) = -14 := by norm_num
    rw [this] at he2b
    exact he2b
  have hP2 : (0 : ℚ) < 2 ^ e2 := zpow_two_pos e2
  have hP2le : (2 : ℚ) ^ e2 ≤ 1 / 16384 := by
    have := zpow_two_le_of_le e2 (-14) he14
    have h14 : (2 : ℚ) ^ (-14 : Int) = 1 / 16384 := by norm_num
    rw [h14] at this
    exact this
  generalize hb : (m2 : ℚ) * 2 ^ e2 = b
  have hdist2 : |b - a * (7205759403792794 / 36028797018963968)| ≤ 1 / 32768 := by
    have hmul : b - a * (7205759403792794 / 36028797018963968) =
        ((m2 : ℚ) - a * (7205759403792794 / 36028797018963968) / 2 ^ e2) * 2 ^ e2 := by
      rw [← hb]; field_simp; ring
    rw [hmul, abs_mul, abs_of_pos hP2]
    calc |(m2 : ℚ) - a * (7205759403792794 / 36028797018963968) / 2 ^ e2| * 2 ^ e2
        ≤ 1 / 2 * (1 / 16384) := mul_le_mul habs2 hP2le hP2.le (by norm_num)
      _ = 1 / 32768 := by norm_num
  have hdist2' := abs_le.mp hdist2
  -- the target
  obtain ⟨hT1, hT2⟩ := (Int.ceil_eq_iff (z := ⌈v / 5⌉) (a := v / 5)).mp rfl
  generalize hT : ⌈v / 5⌉ = T at hT1 hT2
  have hTpos : 0 < T := by
    have : (0 : ℚ) < T := by linarith
    exact_mod_cast this
  obtain ⟨Tn, hTn⟩ := Int.eq_ofNat_of_zero_le hTpos.le
  subst hTn
  have hT1' : (Tn : ℚ) - 1 < v / 5 := by simpa using hT1
  have hT2' : v / 5 ≤ (Tn : ℚ) := by simpa using hT2
  have hTn40 : (Tn : ℚ) < 1099511627776 := by linarith
  have hTn1 : (1 : ℚ) ≤ Tn := by exact_mod_cast hTpos
  have hT63 : Tn < 2 ^ 63 := by
    have : (Tn : ℚ) < 2 ^ 63 := lt_trans hTn40 (by norm_num)
    exact_mod_cast this
  have hbu : b ≤ a * (7205759403792794 / 36028797018963968) + 1 / 32768 := by
    linarith [hdist2'.2]
  have hbl : a * (7205759403792794 / 36028797018963968) - 1 / 32768 ≤ b := by
    linarith [hdist2'.1]
  have hau : a ≤ v + 1 / 16384 := by linarith [hdist1'.2]
  have hal : v - 1 / 16384 ≤ a := by linarith [hdist1'.1]
  have hbounds : (Tn : ℚ) - 1 < b ∧ b ≤ Tn := by
    rcases eq_or_lt_of_le hT2' with heq | hltT
    · -- the price is five times an integer: both roundings are exact
      have hv5 : v = 5 * Tn := by linarith only [heq]
      have hscale1 : v / 2 ^ e1 = ((5 * Tn * 2 ^ (-e1).toNat : Nat) : ℚ) + 0 := by
        have hpow : ((2 ^ (-e1).toNat : Nat) : ℚ) = 2 ^ (-e1) := by
          rw [zpow_two_of_nonneg (-e1) (by omega)]
        rw [hv5, add_zero]
        push_cast at hpow ⊢
        rw [hpow, zpow_neg, div_eq_mul_inv]
      have hm1eq := hexact1 _ 0 hscale1 (le_refl 0) (by norm_num)
      have haeq : a = 5 * Tn := by
        rw [← ha, hm1eq, ← hv5]
        have : ((5 * Tn * 2 ^ (-e1).toNat : Nat) : ℚ) = v / 2 ^ e1 := by
          rw [hscale1, add_zero]
        rw [this, div_mul_cancel₀ _ hP1.ne']
      have hTlt : (Tn : ℚ) < 2 ^ e2 * 9007199254740992 := by
        have h53 : (2 : ℚ) ^ (e2 + 53) = 2 ^ e2 * 9007199254740992 := by
          rw [zpow_add₀ (by norm_num : (2 : ℚ) ≠ 0)]
          norm_num
        rw [h53, haeq] at hy53
        have hTn0 : (0 : ℚ) ≤ Tn := by positivity
        linarith only [hy53, hTn0]
      have hscale2 : a * (7205759403792794 / 36028797018963968) / 2 ^ e2 =
          ((Tn * 2 ^ (-e2).toNat : Nat) : ℚ) + (Tn : ℚ) / 18014398509481984 / 2 ^ e2 := by
        have hpow : ((2 ^ (-e2).toNat : Nat) : ℚ) = 2 ^ (-e2) := by
          rw [zpow_two_of_nonneg (-e2) (by omega)]
        rw [haeq]
        push_cast at hpow ⊢
        rw [hpow, zpow_neg]
        field_simp
        ring
      have hf0 : (0 : ℚ) ≤ (Tn : ℚ) / 18014398509481984 / 2 ^ e2 := by positivity
      have hf1 : (Tn : ℚ) / 18014398509481984 / 2 ^ e2 < 1 / 2 := by
        rw [div_lt_iff₀ hP2, div_lt_iff₀ (by norm_num)]
        linarith only [hTlt]
      have hm2eq := hexact2 _ _ hscale2 hf0 hf1
      have hbeq : b = Tn := by
        rw [← hb, hm2eq]
        have hpow : ((2 ^ (-e2).toNat : Nat) : ℚ) = 2 ^ (-e2) := by
          rw [zpow_two_of_nonneg (-e2) (by omega)]
        push_cast at hpow ⊢
        rw [hpow, zpow_neg, mul_assoc, inv_mul_cancel₀ hP2.ne', mul_one]
      rw [hbeq]
      constructor
      · linarith only
      · exact le_refl _
    · -- otherwise the price is at least 1/500 away from an integer multiple of 5
      have hnT : (n : ℤ) + 1 ≤ 500 * Tn := by
        have h0 : (n : ℚ) < 500 * Tn := by rw [hn] at hltT; linarith only [hltT]
        have : (n : ℤ) < 500 * Tn := by exact_mod_cast h0
        omega
      have hnTq : (n : ℚ) + 1 ≤ 500 * Tn := by exact_mod_cast hnT
      have hnT2 : 500 * ((Tn : ℤ) - 1) + 1 ≤ n := by
        have h0 : 500 * ((Tn : ℚ) - 1) < n := by rw [hn] at hT1'; linarith only [hT1']
        have : 500 * ((Tn : ℤ) - 1) < n := by exact_mod_cast h0
        omega
      have hnT2q : 500 * ((Tn : ℚ) - 1) + 1 ≤ n := by exact_mod_cast hnT2
      have hvl : 5 * (Tn : ℚ) - 5 + 1 / 100 ≤ v := by rw [hn]; linarith only [hnT2q]
      have hvu : v ≤ 5 * (Tn : ℚ) - 1 / 100 := by rw [hn]; linarith only [hnTq]
      have h1 : (5 * (Tn : ℚ) - 5 + 1 / 100 - 1 / 16384) *
          (7205759403792794 / 36028797018963968) ≤
          a * (7205759403792794 / 36028797018963968) :=
        mul_le_mul_of_nonneg_right (by linarith only [hvl, hal]) (by norm_num)
      have h2 : a * (7205759403792794 / 36028797018963968) ≤
          (5 * (Tn : ℚ) - 1 / 100 + 1 / 16384) *
          (7205759403792794 / 36028797018963968) :=
        mul_le_mul_of_nonneg_right (by linarith only [hvu, hau]) (by norm_num)
      constructor
      · linarith only [h1, hbl, hTn1]
      · linarith only [h2, hbu, hTn40]
  rw [hpp, hround2]
  have hneg2 : e2 < 0 := by omega
  exact toInt_ceil_of_bounds m2 e2 hneg2 Tn (hb ▸ hbounds.1) (hb ▸ hbounds.2) hT63

/-! ## Theorems: exactness of the quarter-multiple rule -/

/-- C7, as amended. For every receipt whose total passes the gate, `calculatePoints`
includes the +25 of the quarter-multiple rule exactly when the `float64` value that
`ParseFloat` returns for the total is finite and an integer multiple of 0.25; for a
total written as a decimal numeral of value `t` with at most two fractional digits and
`0 < t < 2^46` this is the case exactly when `t` itself is an integer multiple of 0.25,
so that on such totals the `math.Mod(total, 0.25) == 0` test has no false positive
and no false negative. -/
theorem C7_quarter_rule_amended (r : Receipt) (t : F64)
    (ht : ParseFloat r.Total = Except.ok t) (hgate : t.leZero = false) :
    calculatePoints r =
      scoreItemsDateTime r (alphanumericCount r.Retailer
        + ((if (F64.mod t F64.one).isZero then 50 else 0)
          + (if (F64.mod t F64.quarter).isZero then 25 else 0))) ∧
    ((F64.mod t F64.quarter).isZero = true ↔
      (t.isFinite = true ∧ ∃ j : ℤ, t.toRat = j / 4)) ∧
    (∀ (v : ℚ) (n : Nat), decimalValue r.Total = some v → v = (n : ℚ) / 100 → 0 < v →
      v < 2 ^ (46 : Int) →
      ((F64.mod t F64.quarter).isZero = true ↔ ∃ k : ℤ, v = k / 4)) := by
  refine ⟨calculatePoints_of_gate r t ht hgate, ?_, ?_⟩
  · rw [mod_quarter_isZero]
    exact isMultipleOfQuarter_iff t
  · intro v n hv hn hpos hlt
    obtain ⟨t2, ht2, _, hiff⟩ := quarter_exact_cents r.Total v n hv hn hpos hlt
    have heq : t2 = t := Except.ok.inj (ht2.symm.trans ht)
    rw [mod_quarter_isZero, ← heq]
    exact hiff

theorem parseFloat_9_00 :
    ParseFloat "9.00" = Except.ok (F64.fin false 5066549580791808 (-49)) := rfl

theorem decimalValue_9_00 : decimalValue "9.00" = some (((900 : Nat) : ℚ) / 100) := by
  have h1 : special "9.00".toList = none := rfl
  have h2 : readFloat "9.00".toList = some ⟨false, false, 900, -2, 4⟩ := rfl
  have h3 : "9.00".toList.length = 4 := rfl
  unfold decimalValue
  rw [h1, h2]
  simp only [h3, FloatText.toRat]
  norm_num

/-- C7, as amended, at the total "9.00": the rule fires, and 9 is 36 times 0.25. -/
theorem C7_quarter_rule_amended_witness :
    (ParseFloat (totalOnlyReceipt "9.00").Total =
        Except.ok (F64.fin false 5066549580791808 (-49)) ∧
      (F64.fin false 5066549580791808 (-49)).leZero = false) ∧
    ((F64.mod (F64.fin false 5066549580791808 (-49)) F64.quarter).isZero = true ↔
      ∃ k : ℤ, (((900 : Nat) : ℚ) / 100) = k / 4) ∧
    (F64.mod (F64.fin false 5066549580791808 (-49)) F64.quarter).isZero = true ∧
    calculatePoints (totalOnlyReceipt "9.00") = 75 :=
  ⟨⟨parseFloat_9_00, rfl⟩,
    (C7_quarter_rule_amended (totalOnlyReceipt "9.00") (F64.fin false 5066549580791808 (-49))
      parseFloat_9_00 rfl).2.2 _ 900 decimalValue_9_00 rfl (by norm_num) (by norm_num),
    by decide, by decide⟩

/-- C7 as stated fails in both directions. The total "0.2500000000000000000001" is
not an integer multiple of 0.25, yet it parses to the `float64` 0.25 and earns the
+25 (a false positive); the total "1e400" is an integer multiple of 0.25, yet
`ParseFloat` reports a range error and the receipt earns nothing (a false
negative). -/
theorem C7_quarter_rule_counterexample :
    (decimalValue "0.2500000000000000000001" = some (2500000000000000000001 / 10 ^ 22) ∧
      (0 : ℚ) < 2500000000000000000001 / 10 ^ 22 ∧
      (¬ ∃ k : ℤ, (2500000000000000000001 / 10 ^ 22 : ℚ) = k / 4) ∧
      ParseFloat "0.2500000000000000000001" =
        Except.ok (F64.fin false 4503599627370496 (-54)) ∧
      (F64.mod (F64.fin false 4503599627370496 (-54)) F64.quarter).isZero = true ∧
      calculatePoints (totalOnlyReceipt "0.2500000000000000000001") = 25) ∧
    (decimalValue "1e400" = some (10 ^ 400) ∧
      (∃ k : ℤ, (10 ^ 400 : ℚ) = k / 4) ∧
      (ParseFloat "1e400").toOption = none ∧
      calculatePoints (totalOnlyReceipt "1e400") = 0) := by
  refine ⟨⟨?_, by norm_num, ?_, rfl, by decide, by decide⟩, ⟨?_, ?_, by decide!, by decide!⟩⟩
  · have h1 : special "0.2500000000000000000001".toList = none := rfl
    have h2 : readFloat "0.2500000000000000000001".toList =
        some ⟨false, false, 2500000000000000000001, -22, 24⟩ := rfl
    have h3 : "0.2500000000000000000001".toList.length = 24 := rfl
    unfold decimalValue
    rw [h1, h2]
    simp only [h3, FloatText.toRat]
    norm_num
  · rintro ⟨k, hk⟩
    have hk4 : (k : ℚ) = 4 * (2500000000000000000001 / 10 ^ 22) := by rw [hk]; ring
    have h1 : (1 : ℚ) < k := by rw [hk4]; norm_num
    have h2 : (k : ℚ) < 2 := by rw [hk4]; norm_num
    have h1' : (1 : ℤ) < k := by exact_mod_cast h1
    have h2' : k < 2 := by exact_mod_cast h2
    omega
  · have h1 : special "1e400".toList = none := rfl
    have h2 : readFloat "1e400".toList = some ⟨false, false, 1, 400, 5⟩ := rfl
    have h3 : "1e400".toList.length = 5 := rfl
    unfold decimalValue
    rw [h1, h2]
    simp only [h3, FloatText.toRat]
    norm_num
  · refine ⟨4 * 10 ^ 400, ?_⟩
    have h4 : ((4 * 10 ^ 400 : ℤ) : ℚ) = 4 * 10 ^ 400 := by
      simp only [Int.cast_mul, Int.cast_pow, Int.cast_ofNat]
    rw [h4]
    exact (mul_div_cancel_left₀ _ (by norm_num)).symm

/-! ## Theorems: what one item contributes -/

theorem itemStep_shift (x c : Int) (item : Item) :
    itemStep (wrap64 (x + c)) item = wrap64 (itemStep x item + c) := by
  rw [itemStep_eq, itemStep_eq]
  by_cases h : descriptionQualifies item.ShortDescription = true ∧ priceCounts item.Price = true
  · rw [if_pos h, if_pos h, wrap64_wrap64_add, wrap64_wrap64_add]
    congr 1
    ring
  · rw [if_neg h, if_neg h]

theorem foldl_itemStep_shift (items : List Item) :
    ∀ x c : Int, items.foldl itemStep (wrap64 (x + c)) = wrap64 (items.foldl itemStep x + c) := by
  induction items with
  | nil => intro x c; rfl
  | cons item rest ih =>
    intro x c
    simp only [List.foldl_cons]
    rw [itemStep_shift, ih]

theorem oddDayStep_shift (purchaseDate : String) (x c : Int) :
    oddDayStep purchaseDate (wrap64 (x + c)) = wrap64 (oddDayStep purchaseDate x + c) := by
  unfold oddDayStep
  cases parseDate purchaseDate with
  | none => rfl
  | some date =>
    by_cases h : date.Day % 2 ≠ 0
    · simp only [h, ne_eq, not_false_eq_true, if_true]
      rw [wrap64_wrap64_add, wrap64_wrap64_add]
      congr 1; ring
    · simp only [h, if_false]

theorem afternoonStep_shift (purchaseTime : String) (x c : Int) :
    afternoonStep purchaseTime (wrap64 (x + c)) =
      wrap64 (afternoonStep purchaseTime x + c) := by
  unfold afternoonStep
  cases parseClock purchaseTime with
  | none => rfl
  | some clock =>
    by_cases h : 14 ≤ clock.Hour ∧ clock.Hour < 16
    · simp only [h, and_self, if_true]
      rw [wrap64_wrap64_add, wrap64_wrap64_add]
      congr 1; ring
    · simp only [h, if_false]

theorem scoreItemsDateTime_item (r : Receipt) (pre post : List Item) (item : Item)
    (bad : String) (b : Int) (hitems : r.Items = pre ++ item :: post)
    (hq : descriptionQualifies item.ShortDescription = true)
    (hprice : priceCounts item.Price = true) (hbad : priceCounts bad = false) :
    scoreItemsDateTime r b =
      wrap64 (scoreItemsDateTime (withItems r (pre ++ { item with Price := bad } :: post)) b
        + pricePoints item.Price) := by
  have hgood : ∀ x, itemStep x item = wrap64 (x + pricePoints item.Price) := by
    intro x
    rw [itemStep_eq, if_pos ⟨hq, hprice⟩]
  have hbadstep : ∀ x, itemStep x { item with Price := bad } = x := by
    intro x
    rw [itemStep_eq, if_neg]
    simp [hbad]
  have hlen : (pre ++ { item with Price := bad } :: post).length =
      (pre ++ item :: post).length := by simp
  simp only [scoreItemsDateTime, withItems, hitems, hlen, List.foldl_append, List.foldl_cons,
    hgood, hbadstep]
  rw [foldl_itemStep_shift, oddDayStep_shift, afternoonStep_shift]

/-- C10, as amended. Description-length rule: for every receipt whose total passes the
gate and every item of it whose trimmed description length is a non-zero multiple of 3
and whose price parses to a value that is not `<= 0`, the score is the score of the
same receipt with that item's price replaced by an unparseable text, plus
`int(math.Ceil(price * 0.2))` computed on `float64` values (`pricePoints`), the sum
being taken in `int64`; it is that sum exactly when it lies in the `int64` range. For
a price written as a decimal numeral of value `p` with at most two fractional digits
and `0 < p < 2^40`, those points are exactly `ceil(p / 5)`. -/
theorem C10_description_rule_amended (r : Receipt) (pre post : List Item) (item : Item)
    (bad : String) (t : F64) (e : NumError)
    (hitems : r.Items = pre ++ item :: post)
    (ht : ParseFloat r.Total = Except.ok t) (hgate : t.leZero = false)
    (hq : descriptionQualifies item.ShortDescription = true)
    (hprice : priceCounts item.Price = true)
    (hbad : ParseFloat bad = Except.error e) :
    calculatePoints r =
      wrap64 (calculatePoints (withItems r (pre ++ { item with Price := bad } :: post))
        + pricePoints item.Price) ∧
    (-2 ^ 63 ≤ calculatePoints (withItems r (pre ++ { item with Price := bad } :: post))
        + pricePoints item.Price →
      calculatePoints (withItems r (pre ++ { item with Price := bad } :: post))
        + pricePoints item.Price < 2 ^ 63 →
      calculatePoints r =
        calculatePoints (withItems r (pre ++ { item with Price := bad } :: post))
          + pricePoints item.Price) ∧
    (∀ (p : ℚ) (n : Nat), decimalValue item.Price = some p → p = (n : ℚ) / 100 → 0 < p →
      p < 2 ^ (40 : Int) → pricePoints item.Price = ⌈p / 5⌉) := by
  have hbad2 : priceCounts bad = false := by simp [priceCounts, hbad]
  have hmain : calculatePoints r =
      wrap64 (calculatePoints (withItems r (pre ++ { item with Price := bad } :: post))
        + pricePoints item.Price) := by
    rw [calculatePoints_of_gate r t ht hgate,
      calculatePoints_of_gate (withItems r (pre ++ { item with Price := bad } :: post)) t
        (by simpa [withItems] using ht) hgate]
    have hret : (withItems r (pre ++ { item with Price := bad } :: post)).Retailer =
        r.Retailer := rfl
    rw [hret]
    exact scoreItemsDateTime_item r pre post item bad _ hitems hq hprice hbad2
  refine ⟨hmain, ?_, ?_⟩
  · intro h1 h2
    rw [hmain]
    exact wrap64_of_range _ h1 h2
  · intro p n hp hn hpos hlt
    exact (pricePoints_exact_cents item.Price p n hp hn hpos hlt).2

theorem decimalValue_10_00 : decimalValue "10.00" = some (((1000 : Nat) : ℚ) / 100) := by
  have h1 : special "10.00".toList = none := rfl
  have h2 : readFloat "10.00".toList = some ⟨false, false, 1000, -2, 5⟩ := rfl
  have h3 : "10.00".toList.length = 5 := rfl
  unfold decimalValue
  rw [h1, h2]
  simp only [h3, FloatText.toRat]
  norm_num

theorem parseFloat_1_01 :
    ParseFloat "1.01" = Except.ok (F64.fin false 4548635623644201 (-52)) := rfl

theorem parseFloat_x : ParseFloat "x" = Except.error NumError.ErrSyntax := rfl

theorem abcdefghi_qualifies : descriptionQualifies "abcdefghi" = true := by decide

theorem priceCounts_10_00 : priceCounts "10.00" = true := by decide!

/-- C10, as amended, at the price "10.00" with a description of length 9: the item
contributes exactly 2 points, which is `ceil(10.00 / 5)`. -/
theorem C10_description_rule_amended_witness :
    ((oneItemReceipt "10.00").Items = [] ++ (⟨"abcdefghi", "10.00"⟩ : Item) :: [] ∧
      ParseFloat (oneItemReceipt "10.00").Total =
        Except.ok (F64.fin false 4548635623644201 (-52)) ∧
      (F64.fin false 4548635623644201 (-52)).leZero = false ∧
      descriptionQualifies "abcdefghi" = true ∧ priceCounts "10.00" = true ∧
      ParseFloat "x" = Except.error NumError.ErrSyntax) ∧
    calculatePoints (oneItemReceipt "10.00") =
      calculatePoints (withItems (oneItemReceipt "10.00")
        ([] ++ { (⟨"abcdefghi", "10.00"⟩ : Item) with Price := "x" } :: [])) +
        pricePoints "10.00" ∧
    pricePoints "10.00" = ⌈(((1000 : Nat) : ℚ) / 100) / 5⌉ ∧
    pricePoints "10.00" = 2 ∧
    byteLen (TrimSpace "abcdefghi") = 9 :=
  ⟨⟨rfl, parseFloat_1_01, rfl, abcdefghi_qualifies, priceCounts_10_00, parseFloat_x⟩,
    (C10_description_rule_amended (oneItemReceipt "10.00") [] [] ⟨"abcdefghi", "10.00"⟩ "x"
      (F64.fin false 4548635623644201 (-52)) NumError.ErrSyntax rfl parseFloat_1_01 rfl
      abcdefghi_qualifies priceCounts_10_00 parseFloat_x).2.1 (by decide!) (by decide!),
    (C10_description_rule_amended (oneItemReceipt "10.00") [] [] ⟨"abcdefghi", "10.00"⟩ "x"
      (F64.fin false 4548635623644201 (-52)) NumError.ErrSyntax rfl parseFloat_1_01 rfl
      abcdefghi_qualifies priceCounts_10_00 parseFloat_x).2.2 _ 1000 decimalValue_10_00 rfl
      (by norm_num) (by norm_num),
    by decide!, by decide⟩

/-- C10 as stated fails: the price "5.000000000000000000001" parses to the `float64`
5, so that a qualifying item at that price (on a receipt of total "1.01") earns 1
point, while `ceil(p / 5)` in exact decimal arithmetic is 2. -/
theorem C10_description_rule_counterexample :
    decimalValue "5.000000000000000000001" = some (5000000000000000000001 / 10 ^ 21) ∧
    (0 : ℚ) < 5000000000000000000001 / 10 ^ 21 ∧
    ⌈(5000000000000000000001 / 10 ^ 21 : ℚ) / 5⌉ = 2 ∧
    ⌈(5000000000000000000001 / 10 ^ 21 : ℚ) * (1 / 5)⌉ = 2 ∧
    descriptionQualifies "abcdefghi" = true ∧
    (∃ t, ParseFloat (oneItemReceipt "5.000000000000000000001").Total = Except.ok t ∧
      t.leZero = false) ∧
    ParseFloat "x" = Except.error NumError.ErrSyntax ∧
    calculatePoints (oneItemReceipt "5.000000000000000000001") = 1 ∧
    calculatePoints (oneItemReceipt "x") = 0 := by
  refine ⟨?_, by norm_num, ?_, ?_, abcdefghi_qualifies, ⟨_, parseFloat_1_01, rfl⟩,
    parseFloat_x, by decide!, by decide!⟩
  · have h1 : special "5.000000000000000000001".toList = none := rfl
    have h2 : readFloat "5.000000000000000000001".toList =
        some ⟨false, false, 5000000000000000000001, -21, 23⟩ := rfl
    have h3 : "5.000000000000000000001".toList.length = 23 := rfl
    unfold decimalValue
    rw [h1, h2]
    simp only [h3, FloatText.toRat]
    norm_num
  · rw [Int.ceil_eq_iff]
    norm_num
  · rw [Int.ceil_eq_iff]
    norm_num

/-! ## Theorems: the sign of the score -/

theorem wrap64_ge (a : Int) : -2 ^ 63 ≤ wrap64 a := by
  unfold wrap64
  norm_num
  omega

theorem oddDayStep_cases (purchaseDate : String) (x : Int) :
    oddDayStep purchaseDate x = x ∨ oddDayStep purchaseDate x = wrap64 (x + 6) := by
  unfold oddDayStep
  cases parseDate purchaseDate with
  | none => exact Or.inl rfl
  | some date =>
    by_cases h : date.Day % 2 ≠ 0
    · exact Or.inr (by simp only [h, ne_eq, not_false_eq_true, if_true])
    · exact Or.inl (by simp only [h, if_false])

theorem afternoonStep_cases (purchaseTime : String) (x : Int) :
    afternoonStep purchaseTime x = x ∨ afternoonStep purchaseTime x = wrap64 (x + 10) := by
  unfold afternoonStep
  cases parseClock purchaseTime with
  | none => exact Or.inl rfl
  | some clock =>
    by_cases h : 14 ≤ clock.Hour ∧ clock.Hour < 16
    · exact Or.inr (by simp only [h, and_self, if_true])
    · exact Or.inl (by simp only [h, if_false])

theorem sum_itemFormulaPoints_nonneg (items : List Item) :
    0 ≤ (items.map itemFormulaPoints).sum := by
  apply List.sum_nonneg
  intro x hx
  obtain ⟨i, _, hi⟩ := List.mem_map.mp hx
  rw [← hi]
  exact itemFormulaPoints_nonneg i

theorem totalRulesPoints_bounds (t : F64) : 0 ≤ totalRulesPoints t ∧ totalRulesPoints t ≤ 75 := by
  unfold totalRulesPoints
  by_cases h1 : (F64.mod t F64.one).isZero = true <;>
    by_cases h2 : (F64.mod t F64.quarter).isZero = true <;> simp [h1, h2]

/-- C11, as amended. The score is a non-negative integer whenever nothing overflows:
for every receipt such that every product `price * 0.2` converted in the item loop is
finite and the integer `A + 75 + P + D + 16` (an upper bound of the sum of all rule
contributions) is below `2^63`, `calculatePoints` returns a value `>= 0`. -/
theorem C11_score_nonneg_amended (r : Receipt) (hfin : productsFinite r.Items)
    (hbound : scoreUpperBound r < 2 ^ 63) : 0 ≤ calculatePoints r := by
  have hA : (0 : Int) ≤ (alphanumericCount r.Retailer : Int) := Int.ofNat_nonneg _
  cases ht : ParseFloat r.Total with
  | error e => simp [calculatePoints, ht]
  | ok t =>
    by_cases hle : t.leZero = true
    · simp [calculatePoints, ht, hle]
    · have hgate : t.leZero = false := by simpa using hle
      rw [calculatePoints_of_gate r t ht hgate]
      obtain ⟨hr0, hr75⟩ := totalRulesPoints_bounds t
      have hsum := sum_itemFormulaPoints_nonneg r.Items
      have hpairs : (0 : Int) ≤ 5 * (r.Items.length / 2 : Nat) := by positivity
      unfold scoreUpperBound at hbound
      have hfold := foldl_itemStep_formula r.Items
        (alphanumericCount r.Retailer + totalRulesPoints t + (r.Items.length / 2 : Nat) * 5)
        (by linarith) hfin (by linarith)
      unfold scoreItemsDateTime
      simp only [hfold]
      generalize hx : (alphanumericCount r.Retailer : Int) + totalRulesPoints t
        + (r.Items.length / 2 : Nat) * 5 + (r.Items.map itemFormulaPoints).sum = x
      have hx0 : 0 ≤ x := by rw [← hx]; linarith
      have hx1 : x + 16 < 2 ^ 63 := by rw [← hx]; linarith
      have hy : 0 ≤ oddDayStep r.PurchaseDate x ∧ oddDayStep r.PurchaseDate x ≤ x + 6 := by
        rcases oddDayStep_cases r.PurchaseDate x with h | h
        · rw [h]; constructor <;> linarith
        · rw [h, wrap64_of_range _ (by linarith) (by linarith)]
          constructor <;> linarith
      generalize oddDayStep r.PurchaseDate x = y at hy
      rcases afternoonStep_cases r.PurchaseTime y with h | h
      · rw [h]; exact hy.1
      · rw [h, wrap64_of_range _ (by linarith [hy.1]) (by linarith [hy.2])]
        linarith [hy.1]

/-- C11, as amended, at the "Target" receipt of two items, whose score is 20. -/
theorem C11_score_nonneg_amended_witness :
    productsFinite exampleReceipt.Items ∧ scoreUpperBound exampleReceipt < 2 ^ 63 ∧
    0 ≤ calculatePoints exampleReceipt :=
  ⟨exampleReceipt_productsFinite, by decide!,
    C11_score_nonneg_amended exampleReceipt exampleReceipt_productsFinite (by decide!)⟩

/-- C11 as stated fails: the receipt with two qualifying items priced "4e19", each
earning 8000000000000000000 points, passes validation and has the negative score
-2446744073709551535, because the `int` sum wraps around. -/
theorem C11_score_nonneg_counterexample :
    passesValidation overflowReceipt ∧
    calculatePoints overflowReceipt = -2446744073709551535 ∧
    calculatePoints overflowReceipt < 0 :=
  ⟨by decide, by decide!, by decide!⟩

/-! ## Theorems: the afternoon rule -/

theorem calculatePoints_ge (r : Receipt) : -2 ^ 63 ≤ calculatePoints r := by
  have hA : (0 : Int) ≤ (alphanumericCount r.Retailer : Int) := Int.ofNat_nonneg _
  cases ht : ParseFloat r.Total with
  | error e =>
    simp only [calculatePoints, ht]
    linarith
  | ok t =>
    by_cases hle : t.leZero = true
    · simp only [calculatePoints, ht, hle, if_true]
      linarith
    · have hgate : t.leZero = false := by simpa using hle
      rw [calculatePoints_of_gate r t ht hgate]
      obtain ⟨hr0, _⟩ := totalRulesPoints_bounds t
      have hfold : ∀ (items : List Item) (x : Int), -2 ^ 63 ≤ x →
          -2 ^ 63 ≤ items.foldl itemStep x := by
        intro items
        induction items with
        | nil => intro x hx; exact hx
        | cons item rest ih =>
          intro x hx
          simp only [List.foldl_cons]
          apply ih
          rw [itemStep_eq]
          split
          · exact wrap64_ge _
          · exact hx
      unfold scoreItemsDateTime
      dsimp only
      have hpairs : (0 : Int) ≤ (r.Items.length / 2 : Nat) * 5 := by positivity
      have h1 := hfold r.Items
        (alphanumericCount r.Retailer + totalRulesPoints t + (r.Items.length / 2 : Nat) * 5)
        (by linarith)
      generalize r.Items.foldl itemStep _ = x at h1
      have h2 : -2 ^ 63 ≤ oddDayStep r.PurchaseDate x := by
        rcases oddDayStep_cases r.PurchaseDate x with h | h
        · rw [h]; exact h1
        · rw [h]; exact wrap64_ge _
      generalize oddDayStep r.PurchaseDate x = y at h2
      rcases afternoonStep_cases r.PurchaseTime y with h | h
      · rw [h]; exact h2
      · rw [h]; exact wrap64_ge _

theorem afternoonStep_empty (x : Int) : afternoonStep "" x = x := by
  have h : parseClock "" = none := by decide
  simp [afternoonStep, h]

theorem calculatePoints_withTime (r : Receipt) (purchaseTime : String) (t : F64)
    (ht : ParseFloat r.Total = Except.ok t) (hgate : t.leZero = false) :
    calculatePoints (withTime r purchaseTime) =
      afternoonStep purchaseTime (calculatePoints (withTime r "")) := by
  rw [calculatePoints_of_gate (withTime r purchaseTime) t ht hgate,
    calculatePoints_of_gate (withTime r "") t ht hgate]
  simp only [scoreItemsDateTime, withTime, afternoonStep_empty]

theorem afternoonStep_of_clock (purchaseTime : String) (clock : Clock) (x : Int)
    (h : parseClock purchaseTime = some clock) :
    afternoonStep purchaseTime x =
      if 14 ≤ clock.Hour ∧ clock.Hour < 16 then wrap64 (x + 10) else x := by
  simp only [afternoonStep, h]

/-- C14, as amended. Afternoon rule boundaries: for a receipt whose total passes the
gate and two valid purchase times with hours `h1` and `h2`, the score with either
time is the score `b` the receipt has without the afternoon rule, plus 10 in `int64`
arithmetic when the hour is 14 or 15; so the two scores are equal when the hours are
(the minute never matters), and when `b + 10 < 2^63` they differ by exactly
`10 * ([14 <= h1 < 16] - [14 <= h2 < 16])`. -/
theorem C14_afternoon_rule_amended (r : Receipt) (time1 time2 : String) (c1 c2 : Clock)
    (t : F64) (ht : ParseFloat r.Total = Except.ok t) (hgate : t.leZero = false)
    (h1 : parseClock time1 = some c1) (h2 : parseClock time2 = some c2) :
    calculatePoints (withTime r time1) =
      (if 14 ≤ c1.Hour ∧ c1.Hour < 16 then wrap64 (calculatePoints (withTime r "") + 10)
        else calculatePoints (withTime r "")) ∧
    calculatePoints (withTime r time2) =
      (if 14 ≤ c2.Hour ∧ c2.Hour < 16 then wrap64 (calculatePoints (withTime r "") + 10)
        else calculatePoints (withTime r "")) ∧
    (c1.Hour = c2.Hour →
      calculatePoints (withTime r time1) = calculatePoints (withTime r time2)) ∧
    (calculatePoints (withTime r "") + 10 < 2 ^ 63 →
      calculatePoints (withTime r time1) - calculatePoints (withTime r time2) =
        10 * ((if 14 ≤ c1.Hour ∧ c1.Hour < 16 then 1 else 0)
          - (if 14 ≤ c2.Hour ∧ c2.Hour < 16 then 1 else 0))) := by
  have e1 : calculatePoints (withTime r time1) =
      (if 14 ≤ c1.Hour ∧ c1.Hour < 16 then wrap64 (calculatePoints (withTime r "") + 10)
        else calculatePoints (withTime r "")) := by
    rw [calculatePoints_withTime r time1 t ht hgate, afternoonStep_of_clock time1 c1 _ h1]
  have e2 : calculatePoints (withTime r time2) =
      (if 14 ≤ c2.Hour ∧ c2.Hour < 16 then wrap64 (calculatePoints (withTime r "") + 10)
        else calculatePoints (withTime r "")) := by
    rw [calculatePoints_withTime r time2 t ht hgate, afternoonStep_of_clock time2 c2 _ h2]
  refine ⟨e1, e2, ?_, ?_⟩
  · intro hh
    rw [e1, e2, hh]
  · intro hb
    have hge := calculatePoints_ge (withTime r "")
    have hw : wrap64 (calculatePoints (withTime r "") + 10) =
        calculatePoints (withTime r "") + 10 :=
      wrap64_of_range _ (by linarith) hb
    rw [e1, e2, hw]
    by_cases ha : 14 ≤ c1.Hour ∧ c1.Hour < 16 <;> by_cases hb2 : 14 ≤ c2.Hour ∧ c2.Hour < 16 <;>
      simp [ha, hb2]

theorem parseFloat_35_35_example :
    ParseFloat (withTime exampleReceipt "14:00").Total =
      Except.ok (F64.fin false 4975070213360845 (-47)) := parseFloat_35_35

/-- C14, as amended, at the "Target" receipt of two items: the times "14:00" and
"15:59" earn the 10 points, "13:59" and "16:00" do not. -/
theorem C14_afternoon_rule_amended_witness :
    (parseClock "14:00" = some ⟨14, 0⟩ ∧ parseClock "13:59" = some ⟨13, 59⟩ ∧
      calculatePoints (withTime exampleReceipt "") + 10 < 2 ^ 63) ∧
    calculatePoints (withTime exampleReceipt "14:00")
        - calculatePoints (withTime exampleReceipt "13:59") =
      10 * ((if 14 ≤ (14 : Nat) ∧ (14 : Nat) < 16 then 1 else 0)
        - (if 14 ≤ (13 : Nat) ∧ (13 : Nat) < 16 then 1 else 0)) ∧
    calculatePoints (withTime exampleReceipt "14:00") = 30 ∧
    calculatePoints (withTime exampleReceipt "15:59") = 30 ∧
    calculatePoints (withTime exampleReceipt "13:59") = 20 ∧
    calculatePoints (withTime exampleReceipt "16:00") = 20 :=
  ⟨⟨by decide, by decide, by decide!⟩,
    (C14_afternoon_rule_amended exampleReceipt "14:00" "13:59" ⟨14, 0⟩ ⟨13, 59⟩
      (F64.fin false 4975070213360845 (-47)) parseFloat_35_35 rfl (by decide)
      (by decide)).2.2.2 (by decide!),
    by decide!, by decide!, by decide!, by decide!⟩

/-- C14 as stated fails: two valid receipts that differ only in purchase time, "14:00"
against "13:00", whose items earn `2^63 - 1024` and 1010 points, have the scores
`-2^63 + 2` and `2^63 - 8`; they do not differ by 10, because adding the 10 points of
the afternoon rule overflows the `int`. -/
theorem C14_afternoon_rule_counterexample :
    passesValidation (nearMaxReceipt "14:00") ∧ passesValidation (nearMaxReceipt "13:00") ∧
    (∃ t, ParseFloat (nearMaxReceipt "14:00").Total = Except.ok t ∧ t.leZero = false) ∧
    parseClock "14:00" = some ⟨14, 0⟩ ∧ parseClock "13:00" = some ⟨13, 0⟩ ∧
    calculatePoints (nearMaxReceipt "14:00") = -9223372036854775806 ∧
    calculatePoints (nearMaxReceipt "13:00") = 9223372036854775800 ∧
    calculatePoints (nearMaxReceipt "14:00") - calculatePoints (nearMaxReceipt "13:00") ≠ 10 :=
  ⟨by decide, by decide, ⟨_, rfl, rfl⟩, by decide, by decide, by decide!, by decide!,
    by decide!⟩

/-! ## Theorems: the order of the items -/

theorem itemStep_comm (x : Int) (a b : Item) :
    itemStep (itemStep x a) b = itemStep (itemStep x b) a := by
  simp only [itemStep_eq]
  by_cases ha : descriptionQualifies a.ShortDescription = true ∧ priceCounts a.Price = true <;>
    by_cases hb : descriptionQualifies b.ShortDescription = true ∧ priceCounts b.Price = true
  · simp only [if_pos ha, if_pos hb]
    rw [wrap64_wrap64_add, wrap64_wrap64_add]
    congr 1
    ring
  · simp only [if_pos ha, if_neg hb]
  · simp only [if_neg ha, if_pos hb]
  · simp only [if_neg ha, if_neg hb]

theorem foldl_itemStep_perm (items1 items2 : List Item) (h : items1.Perm items2) :
    ∀ x : Int, items1.foldl itemStep x = items2.foldl itemStep x := by
  induction h with
  | nil => intro x; rfl
  | cons a _ ih => intro x; simp only [List.foldl_cons]; exact ih _
  | swap a b l => intro x; simp only [List.foldl_cons]; rw [itemStep_comm]
  | trans _ _ ih1 ih2 => intro x; rw [ih1, ih2]

/-- C20. The score does not depend on the order of the items: for every receipt and
every permutation of its item sequence, `calculatePoints` returns the same score for
the receipt with the permuted items as for the original one. -/
theorem C20_item_order_irrelevant (r : Receipt) (items : List Item)
    (h : r.Items.Perm items) :
    calculatePoints (withItems r items) = calculatePoints r := by
  have hlen : items.length = r.Items.length := h.length_eq.symm
  have hfold := foldl_itemStep_perm r.Items items h
  unfold calculatePoints
  simp only [withItems, scoreItemsDateTime, hlen, hfold]

/-- C20 at the "Target" receipt with its two items exchanged. -/
theorem C20_item_order_irrelevant_witness :
    exampleReceipt.Items.Perm
      [⟨"Knorr Creamy Chicken", "1.26"⟩, ⟨"Emils Cheese Pizza", "12.25"⟩] ∧
    calculatePoints (withItems exampleReceipt
      [⟨"Knorr Creamy Chicken", "1.26"⟩, ⟨"Emils Cheese Pizza", "12.25"⟩]) =
      calculatePoints exampleReceipt :=
  ⟨List.Perm.swap _ _ _,
    C20_item_order_irrelevant exampleReceipt
      [⟨"Knorr Creamy Chicken", "1.26"⟩, ⟨"Emils Cheese Pizza", "12.25"⟩]
      (List.Perm.swap _ _ _)⟩

/-! ## Theorems: the score store -/

theorem find_filter_ne (l : List (String × Int)) (k k2 : String) (h : k2 ≠ k) :
    (l.filter (fun kv => decide (kv.1 ≠ k))).find? (fun kv => decide (kv.1 = k2)) =
      l.find? (fun kv => decide (kv.1 = k2)) := by
  induction l with
  | nil => rfl
  | cons a rest ih =>
    by_cases ha : a.1 = k2
    · have hak : a.1 ≠ k := fun h3 => h (ha.symm.trans h3)
      simp [List.filter_cons, List.find?_cons, ha, hak, h]
    · by_cases hak : a.1 = k
      · simp only [List.filter_cons, hak, ne_eq, not_true_eq_false, decide_False,
          Bool.false_eq_true, if_false, List.find?_cons]
        rw [ih]
        have : ¬ (k = k2) := fun h3 => h h3.symm
        simp [this]
      · simp only [List.filter_cons, hak, ne_eq, not_false_eq_true, decide_True, if_true,
          List.find?_cons, ha, decide_False]
        exact ih

theorem load_store (receipts : SyncMap) (k : String) (v : Int) (k2 : String) :
    (receipts.Store k v).Load k2 = if k2 = k then some v else receipts.Load k2 := by
  by_cases h : k2 = k
  · subst h
    simp [SyncMap.Store, SyncMap.Load, List.find?]
  · have hne : ¬ (k = k2) := fun h2 => h h2.symm
    simp only [SyncMap.Store, SyncMap.Load, if_neg h, List.find?_cons, hne, decide_False]
    rw [find_filter_ne receipts k k2 h]

theorem store_of_fresh (receipts : SyncMap) (k : String) (v : Int)
    (h : receipts.Load k = none) : receipts.Store k v = (k, v) :: receipts := by
  unfold SyncMap.Store
  congr 1
  rw [List.filter_eq_self]
  intro a ha
  simp only [SyncMap.Load, Option.map_eq_none', List.find?_eq_none] at h
  simpa using h a ha

theorem processReceiptHandler_cases (receipts : SyncMap) (body : Option Receipt)
    (newId : String) :
    (∃ status message,
      processReceiptHandler receipts body newId = (receipts, Response.error status message)) ∨
    (∃ r, body = some r ∧ passesValidation r ∧
      processReceiptHandler receipts body newId =
        (receipts.Store newId (calculatePoints r), Response.id newId)) := by
  cases body with
  | none => exact Or.inl ⟨400, "Invalid receipt format", rfl⟩
  | some r =>
    rcases validation_cases r with h0 | ⟨h1, h2⟩ | ⟨h1, h2, h3⟩ | ⟨h1, h2, h3, h4⟩ | hv
    · exact Or.inl ⟨_, _, processReceiptHandler_noItems receipts r newId h0⟩
    · exact Or.inl ⟨_, _, processReceiptHandler_badDate receipts r newId h1 h2⟩
    · exact Or.inl ⟨_, _, processReceiptHandler_badTime receipts r newId h1 h2 h3⟩
    · exact Or.inl ⟨_, _, processReceiptHandler_blank receipts r newId h1 h2 h3 h4⟩
    · exact Or.inr ⟨r, rfl, hv, processReceiptHandler_valid receipts r newId hv⟩

theorem getPointsHandler_store (receipts : SyncMap) (id : String) :
    (getPointsHandler receipts id).1 = receipts := by
  unfold getPointsHandler
  cases receipts.Load id <;> rfl

theorem getPointsHandler_response (receipts : SyncMap) (id : String) :
    (getPointsHandler receipts id).2 =
      match receipts.Load id with
      | none => Response.error 404 "Receipt not found"
      | some points => Response.points points := by
  unfold getPointsHandler
  cases receipts.Load id <;> rfl

/-- The keys of the store after a run are the keys it had plus the identifiers issued
during the run. -/
theorem load_runRequests (reqs : List Request) :
    ∀ (receipts : SyncMap) (id : String),
      ((runRequests receipts reqs).Load id).isSome = true ↔
        ((receipts.Load id).isSome = true ∨ id ∈ issuedIds receipts reqs) := by
  induction reqs with
  | nil => intro receipts id; simp [runRequests, issuedIds]
  | cons request rest ih =>
    intro receipts id
    simp only [runRequests, issuedIds]
    rw [ih]
    cases request with
    | getPoints id2 =>
      have hs : (handle receipts (Request.getPoints id2)).1 = receipts :=
        getPointsHandler_store receipts id2
      have hr : ∀ i, (handle receipts (Request.getPoints id2)).2 ≠ Response.id i := by
        intro i
        show (getPointsHandler receipts id2).2 ≠ Response.id i
        rw [getPointsHandler_response]
        cases receipts.Load id2 <;> simp
      rw [hs]
      cases hresp : (handle receipts (Request.getPoints id2)).2 with
      | id i => exact absurd hresp (hr i)
      | error status message => simp
      | points p => simp
    | process body newId =>
      rcases processReceiptHandler_cases receipts body newId with ⟨status, message, h⟩ |
        ⟨r, _, _, h⟩
      · have hh : handle receipts (Request.process body newId) =
            (receipts, Response.error status message) := h
        rw [hh]
        simp
      · have hh : handle receipts (Request.process body newId) =
            (receipts.Store newId (calculatePoints r), Response.id newId) := h
        rw [hh]
        simp only [load_store, List.singleton_append, List.mem_cons]
        by_cases hid : id = newId
        · simp [hid]
        · simp [hid]

/-- C15. Lookup of a never-issued identifier is not-found: in the store reached from
the empty store by any sequence of submissions and lookups, `getPointsHandler` of an
identifier answers with points exactly when the identifier was returned by an earlier
successful submission, answers 404 "Receipt not found" for every other identifier,
and never changes the store. -/
theorem C15_lookup_of_issued_identifiers (reqs : List Request) (id : String) :
    (getPointsHandler (runRequests [] reqs) id).1 = runRequests [] reqs ∧
    ((∃ points, (getPointsHandler (runRequests [] reqs) id).2 = Response.points points) ↔
      id ∈ issuedIds [] reqs) ∧
    (id ∉ issuedIds [] reqs →
      (getPointsHandler (runRequests [] reqs) id).2 =
        Response.error 404 "Receipt not found") := by
  have hinv := load_runRequests reqs [] id
  have hempty : (SyncMap.Load [] id).isSome = false := rfl
  rw [hempty] at hinv
  simp only [Bool.false_eq_true, false_or] at hinv
  refine ⟨getPointsHandler_store _ _, ?_, ?_⟩
  · rw [getPointsHandler_response, ← hinv]
    cases (runRequests [] reqs).Load id <;> simp
  · intro hnot
    rw [getPointsHandler_response]
    rw [← hinv] at hnot
    cases hl : (runRequests [] reqs).Load id with
    | none => rfl
    | some p => rw [hl] at hnot; simp at hnot

/-- C16. Stored scores are immutable and never overwritten: when a valid receipt is
submitted with an identifier that is not yet a key of the store, the store afterwards
is the old store with the one entry (identifier, score) added: every identifier that
was in the store maps to the same score as before, the new identifier maps to the new
score, and there is exactly one entry more. A lookup and a rejected submission leave
the store as it was. -/
theorem C16_stored_scores_immutable (receipts : SyncMap) (r : Receipt) (newId : String)
    (hvalid : passesValidation r) (hfresh : receipts.Load newId = none) :
    (processReceiptHandler receipts (some r) newId).1 =
      (newId, calculatePoints r) :: receipts ∧
    (∀ id points, receipts.Load id = some points →
      (processReceiptHandler receipts (some r) newId).1.Load id = some points) ∧
    (processReceiptHandler receipts (some r) newId).1.Load newId =
      some (calculatePoints r) ∧
    (∀ id, id ≠ newId →
      (processReceiptHandler receipts (some r) newId).1.Load id = receipts.Load id) ∧
    (processReceiptHandler receipts (some r) newId).1.length = receipts.length + 1 ∧
    (∀ id, (getPointsHandler receipts id).1 = receipts) ∧
    (∀ body id status message,
      (processReceiptHandler receipts body id).2 = Response.error status message →
      (processReceiptHandler receipts body id).1 = receipts) := by
  have hstore : (processReceiptHandler receipts (some r) newId).1 =
      receipts.Store newId (calculatePoints r) := by
    rw [processReceiptHandler_valid receipts r newId hvalid]
  refine ⟨?_, ?_, ?_, ?_, ?_, getPointsHandler_store receipts, ?_⟩
  · rw [hstore, store_of_fresh receipts newId _ hfresh]
  · intro id points hid
    rw [hstore, load_store]
    by_cases h : id = newId
    · rw [h, hfresh] at hid
      simp at hid
    · rw [if_neg h, hid]
  · rw [hstore, load_store, if_pos rfl]
  · intro id hid
    rw [hstore, load_store, if_neg hid]
  · rw [hstore, store_of_fresh receipts newId _ hfresh]
    rfl
  · intro body id status message h
    rcases processReceiptHandler_cases receipts body id with ⟨s2, m2, h2⟩ | ⟨r2, _, _, h2⟩
    · rw [h2]
    · rw [h2] at h
      simp at h

/-- C16 at a store with one entry and the "Target" receipt. -/
theorem C16_stored_scores_immutable_witness :
    (passesValidation exampleReceipt ∧ SyncMap.Load [("a1", 28)] "b2" = none) ∧
    (processReceiptHandler [("a1", 28)] (some exampleReceipt) "b2").1 =
      [("b2", calculatePoints exampleReceipt), ("a1", 28)] :=
  ⟨⟨exampleReceipt_valid, by decide⟩,
    (C16_stored_scores_immutable [("a1", 28)] exampleReceipt "b2" exampleReceipt_valid
      (by decide)).1⟩

/-! ## Theorems: validation and the monetary fields -/

theorem rejection_processReceiptHandler (receipts : SyncMap) (r : Receipt) (newId : String) :
    rejection (processReceiptHandler receipts (some r) newId).2 =
      if r.Items.length = 0 then some (400, msgNoItems)
      else if (parseDate r.PurchaseDate).isNone then some (400, msgInvalidDate)
      else if (parseClock r.PurchaseTime).isNone then some (400, msgInvalidTime)
      else if ((r.Items.map (fun item => item.ShortDescription)).any
          (fun description => decide (TrimSpace description = []))) then
        some (400, msgEmptyDescription)
      else none := by
  have hany : (r.Items.map (fun item => item.ShortDescription)).any
      (fun description => decide (TrimSpace description = [])) =
      r.Items.any (fun item => decide (TrimSpace item.ShortDescription = [])) := by
    induction r.Items with
    | nil => rfl
    | cons a rest ih => simp only [List.map_cons, List.any_cons, ih]
  rw [hany]
  unfold processReceiptHandler
  simp only [msgNoItems, msgInvalidDate, msgInvalidTime, msgEmptyDescription]
  split_ifs <;> rfl

theorem passesValidation_iff_rejection (receipts : SyncMap) (r : Receipt) (newId : String) :
    passesValidation r ↔ rejection (processReceiptHandler receipts (some r) newId).2 = none := by
  constructor
  · intro h
    rw [processReceiptHandler_valid receipts r newId h]
    rfl
  · intro h
    rcases validation_cases r with h0 | ⟨h1, h2⟩ | ⟨h1, h2, h3⟩ | ⟨h1, h2, h3, h4⟩ | hv
    · rw [processReceiptHandler_noItems receipts r newId h0] at h
      simp [rejection] at h
    · rw [processReceiptHandler_badDate receipts r newId h1 h2] at h
      simp [rejection] at h
    · rw [processReceiptHandler_badTime receipts r newId h1 h2 h3] at h
      simp [rejection] at h
    · rw [processReceiptHandler_blank receipts r newId h1 h2 h3 h4] at h
      simp [rejection] at h
    · exact hv

/-- C17. Validation ignores the monetary fields: two decoded receipts that agree on
purchase date, purchase time and the sequence of item short descriptions get the same
decision from `processReceiptHandler`, acceptance or rejection with the same status
and message, whatever their retailer names, totals and item prices, the stores and
the identifiers are; in particular one passes validation exactly when the other
does. -/
theorem C17_validation_ignores_money (receipts1 receipts2 : SyncMap) (r1 r2 : Receipt)
    (id1 id2 : String) (hdate : r1.PurchaseDate = r2.PurchaseDate)
    (htime : r1.PurchaseTime = r2.PurchaseTime)
    (hitems : r1.Items.map (fun item => item.ShortDescription) =
      r2.Items.map (fun item => item.ShortDescription)) :
    rejection (processReceiptHandler receipts1 (some r1) id1).2 =
      rejection (processReceiptHandler receipts2 (some r2) id2).2 ∧
    (passesValidation r1 ↔ passesValidation r2) ∧
    (passesValidation r1 →
      processReceiptHandler receipts2 (some r2) id2 =
        (receipts2.Store id2 (calculatePoints r2), Response.id id2)) := by
  have hlen : r1.Items.length = r2.Items.length := by
    have := congrArg List.length hitems
    simpa using this
  have hrej : rejection (processReceiptHandler receipts1 (some r1) id1).2 =
      rejection (processReceiptHandler receipts2 (some r2) id2).2 := by
    rw [rejection_processReceiptHandler, rejection_processReceiptHandler, hdate, htime, hitems,
      hlen]
  have hiff : passesValidation r1 ↔ passesValidation r2 := by
    rw [passesValidation_iff_rejection receipts1 r1 id1,
      passesValidation_iff_rejection receipts2 r2 id2, hrej]
  exact ⟨hrej, hiff, fun h => processReceiptHandler_valid receipts2 r2 id2 (hiff.mp h)⟩

/-- C17 at the "Target" receipt and a receipt with the same date, time and
descriptions whose total and prices are unparseable texts: both are accepted. -/
theorem C17_validation_ignores_money_witness :
    (exampleReceipt.PurchaseDate = unparseableMoneyReceipt.PurchaseDate ∧
      exampleReceipt.PurchaseTime = unparseableMoneyReceipt.PurchaseTime ∧
      exampleReceipt.Items.map (fun item => item.ShortDescription) =
        unparseableMoneyReceipt.Items.map (fun item => item.ShortDescription)) ∧
    (ParseFloat unparseableMoneyReceipt.Total).toOption = none ∧
    processReceiptHandler [] (some unparseableMoneyReceipt) "c3" =
      (SyncMap.Store [] "c3" (calculatePoints unparseableMoneyReceipt), Response.id "c3") ∧
    calculatePoints unparseableMoneyReceipt = 11 :=
  ⟨⟨rfl, rfl, rfl⟩, by decide,
    (C17_validation_ignores_money [] [] exampleReceipt unparseableMoneyReceipt "a1" "c3"
      rfl rfl rfl).2.2 exampleReceipt_valid,
    by decide⟩

/-! ## Theorems: the length of a description -/

theorem utf8Size_ascii (c : Char) (h : c.toNat < 128) : c.utf8Size = 1 := by
  have hle : c.val ≤ 127 := by
    rw [uint32_le_iff]
    have : (127 : UInt32).toNat = 127 := rfl
    rw [this]
    have : c.val.toNat = c.toNat := rfl
    omega
  simp [Char.utf8Size, hle]

theorem byteLen_ascii (cs : List Char) (h : ∀ c ∈ cs, c.toNat < 128) :
    byteLen cs = cs.length := by
  induction cs with
  | nil => rfl
  | cons c rest ih =>
    have hc := utf8Size_ascii c (h c (List.mem_cons_self _ _))
    have hrest := ih (fun d hd => h d (List.mem_cons_of_mem _ hd))
    unfold byteLen at hrest ⊢
    simp only [List.map_cons, List.sum_cons, List.length_cons, hc, hrest]
    omega

theorem scoreItemsDateTime_item_skip (r : Receipt) (pre post : List Item) (item : Item)
    (bad : String) (b : Int) (hitems : r.Items = pre ++ item :: post)
    (hno : ¬ (descriptionQualifies item.ShortDescription = true ∧
      priceCounts item.Price = true))
    (hbad : priceCounts bad = false) :
    scoreItemsDateTime r b =
      scoreItemsDateTime (withItems r (pre ++ { item with Price := bad } :: post)) b := by
  have hskip : ∀ x, itemStep x item = x := by
    intro x
    rw [itemStep_eq, if_neg hno]
  have hbadstep : ∀ x, itemStep x { item with Price := bad } = x := by
    intro x
    rw [itemStep_eq, if_neg]
    simp [hbad]
  have hlen : (pre ++ { item with Price := bad } :: post).length =
      (pre ++ item :: post).length := by simp
  simp only [scoreItemsDateTime, withItems, hitems, hlen, List.foldl_append, List.foldl_cons,
    hskip, hbadstep]

theorem calculatePoints_item_by_bytes (r : Receipt) (pre post : List Item) (item : Item)
    (bad : String) (t : F64) (e : NumError)
    (hitems : r.Items = pre ++ item :: post)
    (ht : ParseFloat r.Total = Except.ok t) (hgate : t.leZero = false)
    (hbad : ParseFloat bad = Except.error e) :
    calculatePoints r =
      if byteLen (TrimSpace item.ShortDescription) ≠ 0 ∧
          byteLen (TrimSpace item.ShortDescription) % 3 = 0 ∧ priceCounts item.Price = true then
        wrap64 (calculatePoints (withItems r (pre ++ { item with Price := bad } :: post))
          + pricePoints item.Price)
      else calculatePoints (withItems r (pre ++ { item with Price := bad } :: post)) := by
  have hbad2 : priceCounts bad = false := by simp [priceCounts, hbad]
  have hret : (withItems r (pre ++ { item with Price := bad } :: post)).Retailer =
      r.Retailer := rfl
  rw [calculatePoints_of_gate r t ht hgate,
    calculatePoints_of_gate (withItems r (pre ++ { item with Price := bad } :: post)) t
      (by simpa [withItems] using ht) hgate, hret]
  by_cases hq : descriptionQualifies item.ShortDescription = true
  · by_cases hp : priceCounts item.Price = true
    · have hq2 := hq
      unfold descriptionQualifies at hq2
      rw [decide_eq_true_eq] at hq2
      rw [if_pos ⟨hq2.1, hq2.2, hp⟩]
      exact scoreItemsDateTime_item r pre post item bad _ hitems hq hp hbad2
    · rw [if_neg (fun h => hp h.2.2)]
      exact scoreItemsDateTime_item_skip r pre post item bad _ hitems (fun h => hp h.2) hbad2
  · have hq2 := hq
    unfold descriptionQualifies at hq2
    rw [decide_eq_true_eq] at hq2
    rw [if_neg (fun h => hq2 ⟨h.1, h.2.1⟩)]
    exact scoreItemsDateTime_item_skip r pre post item bad _ hitems (fun h => hq h.1) hbad2

/-- C19. The description-length rule measures the trimmed description in UTF-8 bytes,
not in characters. For every receipt whose total passes the gate and every item of it,
`calculatePoints` applies the rule to the item (adding `int(math.Ceil(price * 0.2))` in
`int64` to the score the receipt has with the item's price made unparseable) exactly
when the number of UTF-8 bytes of the trimmed description is not zero and a multiple of
3 and the price counts. When the trimmed description has ASCII characters only, that
number is its number of characters, so the test is one on the character count. But the
description "éab" has 3 characters and 4 bytes and its item earns nothing at the price
"10.00", while "éa" has 2 characters and 3 bytes and its item earns 2 at that price. -/
theorem C19_description_length_in_bytes (r : Receipt) (pre post : List Item) (item : Item)
    (bad : String) (t : F64) (e : NumError)
    (hitems : r.Items = pre ++ item :: post)
    (ht : ParseFloat r.Total = Except.ok t) (hgate : t.leZero = false)
    (hbad : ParseFloat bad = Except.error e) :
    (calculatePoints r =
      if byteLen (TrimSpace item.ShortDescription) ≠ 0 ∧
          byteLen (TrimSpace item.ShortDescription) % 3 = 0 ∧ priceCounts item.Price = true then
        wrap64 (calculatePoints (withItems r (pre ++ { item with Price := bad } :: post))
          + pricePoints item.Price)
      else calculatePoints (withItems r (pre ++ { item with Price := bad } :: post))) ∧
    ((∀ c ∈ TrimSpace item.ShortDescription, c.toNat < 128) →
      byteLen (TrimSpace item.ShortDescription) = (TrimSpace item.ShortDescription).length ∧
      calculatePoints r =
        if (TrimSpace item.ShortDescription).length ≠ 0 ∧
            (TrimSpace item.ShortDescription).length % 3 = 0 ∧
            priceCounts item.Price = true then
          wrap64 (calculatePoints (withItems r (pre ++ { item with Price := bad } :: post))
            + pricePoints item.Price)
        else calculatePoints (withItems r (pre ++ { item with Price := bad } :: post))) ∧
    ((TrimSpace "éab").length = 3 ∧ byteLen (TrimSpace "éab") = 4 ∧
      calculatePoints (describedItemReceipt "éab" "10.00") =
        calculatePoints (describedItemReceipt "éab" "x")) ∧
    ((TrimSpace "éa").length = 2 ∧ byteLen (TrimSpace "éa") = 3 ∧
      calculatePoints (describedItemReceipt "éa" "10.00") =
        calculatePoints (describedItemReceipt "éa" "x") + 2) := by
  have hmain := calculatePoints_item_by_bytes r pre post item bad t e hitems ht hgate hbad
  refine ⟨hmain, ?_, ⟨by decide, by decide, by decide!⟩, ⟨by decide, by decide, by decide!⟩⟩
  intro hascii
  have hlen := byteLen_ascii _ hascii
  refine ⟨hlen, ?_⟩
  rw [← hlen]
  exact hmain

/-- C19 at two ASCII descriptions with white space around them: the item described
"abc " (3 characters once trimmed) earns the 2 points of the price "10.00", the item
described " ab" (2 characters once trimmed) earns nothing. -/
theorem C19_description_length_in_bytes_witness :
    ((describedItemReceipt "abc " "10.00").Items = [] ++ (⟨"abc ", "10.00"⟩ : Item) :: [] ∧
      ParseFloat (describedItemReceipt "abc " "10.00").Total =
        Except.ok (F64.fin false 4548635623644201 (-52)) ∧
      (F64.fin false 4548635623644201 (-52)).leZero = false ∧
      ParseFloat "x" = Except.error NumError.ErrSyntax ∧
      (∀ c ∈ TrimSpace "abc ", c.toNat < 128) ∧ (∀ c ∈ TrimSpace " ab", c.toNat < 128)) ∧
    calculatePoints (describedItemReceipt "abc " "10.00") =
      wrap64 (calculatePoints (describedItemReceipt "abc " "x") + pricePoints "10.00") ∧
    calculatePoints (describedItemReceipt " ab" "10.00") =
      calculatePoints (describedItemReceipt " ab" "x") ∧
    pricePoints "10.00" = 2 ∧ calculatePoints (describedItemReceipt "abc " "10.00") = 2 ∧
    calculatePoints (describedItemReceipt " ab" "10.00") = 0 :=
  ⟨⟨rfl, parseFloat_1_01, rfl, parseFloat_x, by decide, by decide⟩,
    (((C19_description_length_in_bytes (describedItemReceipt "abc " "10.00") [] []
      ⟨"abc ", "10.00"⟩ "x" (F64.fin false 4548635623644201 (-52)) NumError.ErrSyntax rfl
      parseFloat_1_01 rfl parseFloat_x).2.1 (by decide)).2).trans
        (if_pos ⟨by decide, by decide, priceCounts_10_00⟩),
    (((C19_description_length_in_bytes (describedItemReceipt " ab" "10.00") [] []
      ⟨" ab", "10.00"⟩ "x" (F64.fin false 4548635623644201 (-52)) NumError.ErrSyntax rfl
      parseFloat_1_01 rfl parseFloat_x).2.1 (by decide)).2).trans
        (if_neg (fun h => absurd h.2.1 (by decide))),
    by decide!, by decide!, by decide!⟩

/-! ## Theorems: the purchase time -/

theorem getnum_fixed (l : List Char) :
    getnum l true =
      match l with
      | c0 :: c1 :: rest =>
        if isDigit c0 ∧ isDigit c1 then some (digitVal c0 * 10 + digitVal c1, rest) else none
      | _ => none := by
  rcases l with _ | ⟨c0, _ | ⟨c1, rest⟩⟩
  · rfl
  · by_cases h0 : isDigit c0 = true <;> simp [getnum, h0]
  · by_cases h0 : isDigit c0 = true <;> by_cases h1 : isDigit c1 = true <;>
      simp [getnum, h0, h1]

theorem colon_not_digit : isDigit ':' = false := by decide

theorem parseClock_eq (s : String) :
    parseClock s =
      match getnum s.toList false with
      | none => none
      | some (hour, rest) =>
        if 24 ≤ hour then none else
        match rest with
        | [] => none
        | c :: rest2 =>
          if c = ':' then
            match getnum rest2 true with
            | none => none
            | some (min, rest3) =>
              if 60 ≤ min then none
              else if rest3 ≠ [] then none
              else some ⟨hour, min⟩
          else none := by
  unfold parseClock
  cases getnum s.toList false with
  | none => rfl
  | some p =>
    obtain ⟨hour, rest⟩ := p
    dsimp only
    by_cases h24 : 24 ≤ hour
    · rw [if_pos h24, if_pos h24]
    · rw [if_neg h24, if_neg h24]
      cases rest with
      | nil => rfl
      | cons c rest2 =>
        by_cases hc : c = ':'
        · subst hc
          cases hg : getnum rest2 true with
          | none => simp [hg]
          | some q => simp [hg]
        · dsimp only
          rw [if_neg hc]
          split
          · rename_i heq
            exact absurd (List.cons.inj heq).1 hc
          · rfl

theorem digitVal_lt_ten (c : Char) (h : isDigit c = true) : digitVal c < 10 := by
  simp only [isDigit, decide_eq_true_eq] at h
  unfold digitVal
  omega

theorem digit_hour_lt (c : Char) (h : isDigit c = true) : ¬ (24 ≤ digitVal c) := by
  have := digitVal_lt_ten c h
  omega

theorem parseClock_isSome (s : String) : (parseClock s).isSome = isClockText s := by
  rw [parseClock_eq]
  unfold isClockText
  generalize s.toList = l
  rcases l with _ | ⟨a, _ | ⟨b, _ | ⟨c, _ | ⟨d, _ | ⟨e, _ | ⟨f, rest⟩⟩⟩⟩⟩⟩
  · rfl
  · by_cases ha : isDigit a = true <;> simp [getnum, ha]
  · by_cases ha : isDigit a = true <;> by_cases hb2 : b = ':' <;>
      by_cases hb : isDigit b = true <;>
      simp_all [getnum, colon_not_digit, digit_hour_lt]
  · by_cases ha : isDigit a = true <;> by_cases hb2 : b = ':' <;>
      by_cases hb : isDigit b = true <;> by_cases hc2 : c = ':' <;>
      by_cases hc : isDigit c = true <;>
      simp_all [getnum, colon_not_digit, digit_hour_lt]
  · by_cases ha : isDigit a = true <;> by_cases hb2 : b = ':' <;>
      by_cases hb : isDigit b = true <;> by_cases hc2 : c = ':' <;>
      by_cases hc : isDigit c = true <;> by_cases hd : isDigit d = true <;>
      simp_all [getnum, colon_not_digit, digit_hour_lt]
    all_goals (split_ifs <;> simp_all)
  · by_cases ha : isDigit a = true <;> by_cases hb2 : b = ':' <;>
      by_cases hb : isDigit b = true <;> by_cases hc2 : c = ':' <;>
      by_cases hc : isDigit c = true <;> by_cases hd : isDigit d = true <;>
      by_cases he : isDigit e = true <;>
      simp_all [getnum, colon_not_digit, digit_hour_lt]
    all_goals (split_ifs <;> simp_all)
  · by_cases ha : isDigit a = true <;> by_cases hb2 : b = ':' <;>
      by_cases hb : isDigit b = true <;> by_cases hc2 : c = ':' <;>
      by_cases hc : isDigit c = true <;> by_cases hd : isDigit d = true <;>
      by_cases he : isDigit e = true <;>
      simp_all [getnum, colon_not_digit, digit_hour_lt]

/-! ## Theorems: the purchase date -/

theorem daysIn_eq (month year : Nat) (h1 : 1 ≤ month) (h12 : month ≤ 12) :
    daysIn month year = daysOfMonth year month := by
  have hleap : isLeap year = isLeapYear year := by
    unfold isLeap isLeapYear
    by_cases a : year % 4 = 0 <;> by_cases b : year % 100 = 0 <;>
      by_cases c : year % 400 = 0 <;> simp [a, b, c] <;> omega
  unfold daysIn daysOfMonth
  rw [hleap]
  interval_cases month <;> simp

theorem parseDate_eq (s : String) :
    parseDate s =
      match s.toList with
      | y0 :: y1 :: y2 :: y3 :: rest =>
        if ¬ (isDigit y0 ∧ isDigit y1 ∧ isDigit y2 ∧ isDigit y3) then none else
        match rest with
        | [] => none
        | c1 :: rest1 =>
          if c1 = '-' then
            match getnum rest1 true with
            | none => none
            | some (month, rest2) =>
              if month = 0 ∨ 12 < month then none else
              match rest2 with
              | [] => none
              | c2 :: rest3 =>
                if c2 = '-' then
                  match getnum rest3 true with
                  | none => none
                  | some (day, rest4) =>
                    if rest4 ≠ [] then none
                    else if day < 1 ∨ daysIn month
                        (((digitVal y0 * 10 + digitVal y1) * 10 + digitVal y2) * 10
                          + digitVal y3) < day then none
                    else some ⟨((digitVal y0 * 10 + digitVal y1) * 10 + digitVal y2) * 10
                      + digitVal y3, month, day⟩
                else none
          else none
      | _ => none := by
  unfold parseDate
  generalize s.toList = l
  rcases l with _ | ⟨y0, _ | ⟨y1, _ | ⟨y2, _ | ⟨y3, rest⟩⟩⟩⟩
  · rfl
  · rfl
  · rfl
  · rfl
  · dsimp only
    by_cases hy : isDigit y0 = true ∧ isDigit y1 = true ∧ isDigit y2 = true ∧ isDigit y3 = true
    · rw [if_neg (not_not.mpr hy), if_neg (not_not.mpr hy)]
      cases rest with
      | nil => rfl
      | cons c1 rest1 =>
        by_cases hc1 : c1 = '-'
        · subst hc1
          simp only [eq_self_iff_true, if_true]
          cases hg : getnum rest1 true with
          | none => rfl
          | some q =>
            obtain ⟨month, rest2⟩ := q
            dsimp only
            by_cases hm : month = 0 ∨ 12 < month
            · rw [if_pos hm, if_pos hm]
            · rw [if_neg hm, if_neg hm]
              cases rest2 with
              | nil => rfl
              | cons c2 rest3 =>
                by_cases hc2 : c2 = '-'
                · subst hc2
                  simp only [eq_self_iff_true, if_true]
                · dsimp only
                  rw [if_neg hc2]
                  split
                  · rename_i heq
                    exact absurd (List.cons.inj heq).1 hc2
                  · rfl
        · dsimp only
          rw [if_neg hc1]
          split
          · rename_i heq
            exact absurd (List.cons.inj heq).1 hc1
          · rfl
    · rw [if_pos hy, if_pos hy]

theorem parseDate_of_shape (y0 y1 y2 y3 m0 m1 d0 d1 : Char)
    (hy : isDigit y0 = true ∧ isDigit y1 = true ∧ isDigit y2 = true ∧ isDigit y3 = true)
    (hm : isDigit m0 = true ∧ isDigit m1 = true) (hd : isDigit d0 = true ∧ isDigit d1 = true)
    (hm1 : 1 ≤ digitVal m0 * 10 + digitVal m1) (hm12 : digitVal m0 * 10 + digitVal m1 ≤ 12)
    (hd1 : 1 ≤ digitVal d0 * 10 + digitVal d1)
    (hdn : digitVal d0 * 10 + digitVal d1 ≤
      daysOfMonth (((digitVal y0 * 10 + digitVal y1) * 10 + digitVal y2) * 10 + digitVal y3)
        (digitVal m0 * 10 + digitVal m1))
    (s : String) (hs : s.toList = [y0, y1, y2, y3, '-', m0, m1, '-', d0, d1]) :
    parseDate s = some ⟨((digitVal y0 * 10 + digitVal y1) * 10 + digitVal y2) * 10 + digitVal y3,
      digitVal m0 * 10 + digitVal m1, digitVal d0 * 10 + digitVal d1⟩ := by
  rw [parseDate_eq, hs]
  dsimp only
  rw [if_neg (not_not.mpr hy), if_pos rfl, getnum_fixed]
  dsimp only
  rw [if_pos hm]
  dsimp only
  rw [if_neg (by omega), if_pos rfl, getnum_fixed]
  dsimp only
  rw [if_pos hd]
  dsimp only
  rw [if_neg (by simp), daysIn_eq _ _ hm1 hm12, if_neg (by omega)]

theorem isStrictDate_shape (s : String) (h : isStrictDate s = true) :
    ∃ y0 y1 y2 y3 m0 m1 d0 d1 : Char,
      s.toList = [y0, y1, y2, y3, '-', m0, m1, '-', d0, d1] ∧
      (isDigit y0 = true ∧ isDigit y1 = true ∧ isDigit y2 = true ∧ isDigit y3 = true) ∧
      (isDigit m0 = true ∧ isDigit m1 = true) ∧ (isDigit d0 = true ∧ isDigit d1 = true) ∧
      1 ≤ digitVal m0 * 10 + digitVal m1 ∧ digitVal m0 * 10 + digitVal m1 ≤ 12 ∧
      1 ≤ digitVal d0 * 10 + digitVal d1 ∧
      digitVal d0 * 10 + digitVal d1 ≤
        daysOfMonth (((digitVal y0 * 10 + digitVal y1) * 10 + digitVal y2) * 10 + digitVal y3)
          (digitVal m0 * 10 + digitVal m1) := by
  unfold isStrictDate at h
  generalize s.toList = l at h ⊢
  rcases l with _ | ⟨y0, _ | ⟨y1, _ | ⟨y2, _ | ⟨y3, _ | ⟨s1, _ | ⟨m0, _ | ⟨m1, _ | ⟨s2,
    _ | ⟨d0, _ | ⟨d1, _ | ⟨x, rest⟩⟩⟩⟩⟩⟩⟩⟩⟩⟩⟩
  case cons.cons.cons.cons.cons.cons.cons.cons.cons.cons.nil =>
    simp only [Bool.and_eq_true, beq_iff_eq, decide_eq_true_eq] at h
    obtain ⟨⟨⟨⟨⟨⟨⟨⟨⟨⟨⟨h0, h1⟩, h2⟩, h3⟩, hs1⟩, hm0⟩, hm1⟩, hs2⟩, hd0⟩, hd1⟩, hmr⟩, hdr⟩ := h
    subst hs1
    subst hs2
    exact ⟨y0, y1, y2, y3, m0, m1, d0, d1, rfl, ⟨h0, h1, h2, h3⟩, ⟨hm0, hm1⟩, ⟨hd0, hd1⟩,
      hmr.1, hmr.2, hdr.1, hdr.2⟩
  all_goals simp at h

theorem isStrictDate_of_shape (y0 y1 y2 y3 m0 m1 d0 d1 : Char)
    (hy : isDigit y0 = true ∧ isDigit y1 = true ∧ isDigit y2 = true ∧ isDigit y3 = true)
    (hm : isDigit m0 = true ∧ isDigit m1 = true) (hd : isDigit d0 = true ∧ isDigit d1 = true)
    (hm1 : 1 ≤ digitVal m0 * 10 + digitVal m1) (hm12 : digitVal m0 * 10 + digitVal m1 ≤ 12)
    (hd1 : 1 ≤ digitVal d0 * 10 + digitVal d1)
    (hdn : digitVal d0 * 10 + digitVal d1 ≤
      daysOfMonth (((digitVal y0 * 10 + digitVal y1) * 10 + digitVal y2) * 10 + digitVal y3)
        (digitVal m0 * 10 + digitVal m1))
    (s : String) (hs : s.toList = [y0, y1, y2, y3, '-', m0, m1, '-', d0, d1]) :
    isStrictDate s = true := by
  unfold isStrictDate
  rw [hs]
  simp only [Bool.and_eq_true, beq_iff_eq, decide_eq_true_eq]
  exact ⟨⟨⟨⟨⟨⟨⟨⟨⟨⟨⟨hy.1, hy.2.1⟩, hy.2.2.1⟩, hy.2.2.2⟩, trivial⟩, hm.1⟩, hm.2⟩, trivial⟩,
    hd.1⟩, hd.2⟩, ⟨hm1, hm12⟩⟩, ⟨hd1, hdn⟩⟩

theorem isStrictDate_of_parseDate (s : String) (h : (parseDate s).isSome = true) :
    isStrictDate s = true := by
  rw [parseDate_eq] at h
  generalize hl : s.toList = l at h
  rcases l with _ | ⟨y0, _ | ⟨y1, _ | ⟨y2, _ | ⟨y3, r4⟩⟩⟩⟩
  · simp at h
  · simp at h
  · simp at h
  · simp at h
  dsimp only at h
  by_cases hy : isDigit y0 = true ∧ isDigit y1 = true ∧ isDigit y2 = true ∧ isDigit y3 = true
  swap
  · rw [if_pos hy] at h
    simp at h
  rw [if_neg (not_not.mpr hy)] at h
  rcases r4 with _ | ⟨c1, r5⟩
  · simp at h
  dsimp only at h
  by_cases hc1 : c1 = '-'
  swap
  · rw [if_neg hc1] at h
    simp at h
  rw [if_pos hc1, getnum_fixed] at h
  rcases r5 with _ | ⟨m0, _ | ⟨m1, r7⟩⟩
  · simp at h
  · simp at h
  dsimp only at h
  by_cases hm : isDigit m0 = true ∧ isDigit m1 = true
  swap
  · rw [if_neg hm] at h
    simp at h
  rw [if_pos hm] at h
  dsimp only at h
  by_cases hmr : digitVal m0 * 10 + digitVal m1 = 0 ∨ 12 < digitVal m0 * 10 + digitVal m1
  · rw [if_pos hmr] at h
    simp at h
  rw [if_neg hmr] at h
  rcases r7 with _ | ⟨c2, r8⟩
  · simp at h
  dsimp only at h
  by_cases hc2 : c2 = '-'
  swap
  · rw [if_neg hc2] at h
    simp at h
  rw [if_pos hc2, getnum_fixed] at h
  rcases r8 with _ | ⟨d0, _ | ⟨d1, r10⟩⟩
  · simp at h
  · simp at h
  dsimp only at h
  by_cases hd : isDigit d0 = true ∧ isDigit d1 = true
  swap
  · rw [if_neg hd] at h
    simp at h
  rw [if_pos hd] at h
  dsimp only at h
  rcases r10 with _ | ⟨x, r11⟩
  swap
  · rw [if_pos (by simp)] at h
    simp at h
  rw [if_neg (by simp)] at h
  have hm1 : 1 ≤ digitVal m0 * 10 + digitVal m1 := by omega
  have hm12 : digitVal m0 * 10 + digitVal m1 ≤ 12 := by omega
  rw [daysIn_eq _ _ hm1 hm12] at h
  by_cases hday : digitVal d0 * 10 + digitVal d1 < 1 ∨
      daysOfMonth (((digitVal y0 * 10 + digitVal y1) * 10 + digitVal y2) * 10 + digitVal y3)
        (digitVal m0 * 10 + digitVal m1) < digitVal d0 * 10 + digitVal d1
  · rw [if_pos hday] at h
    simp at h
  subst hc1
  subst hc2
  exact isStrictDate_of_shape y0 y1 y2 y3 m0 m1 d0 d1 hy hm hd hm1 hm12 (by omega) (by omega)
    s hl

theorem parseDate_isSome (s : String) : (parseDate s).isSome = isStrictDate s := by
  rw [Bool.eq_iff_iff]
  constructor
  · exact isStrictDate_of_parseDate s
  · intro h
    obtain ⟨y0, y1, y2, y3, m0, m1, d0, d1, hs, hy, hm, hd, hm1, hm12, hd1, hdn⟩ :=
      isStrictDate_shape s h
    rw [parseDate_of_shape y0 y1 y2 y3 m0 m1 d0 d1 hy hm hd hm1 hm12 hd1 hdn s hs]
    rfl

theorem isClockText_of_strict (s : String) (h : isStrictClockText s = true) :
    isClockText s = true := by
  unfold isStrictClockText at h
  unfold isClockText
  generalize s.toList = l at h ⊢
  rcases l with _ | ⟨a, _ | ⟨b, _ | ⟨c, _ | ⟨d, _ | ⟨e, _ | ⟨f, rest⟩⟩⟩⟩⟩⟩
  case cons.cons.cons.cons.cons.nil => exact h
  all_goals simp at h

theorem response_invalidTime_iff (receipts : SyncMap) (r : Receipt) (newId : String)
    (h1 : r.Items ≠ []) (h2 : (parseDate r.PurchaseDate).isSome = true) :
    (processReceiptHandler receipts (some r) newId).2 = Response.error 400 msgInvalidTime ↔
      (parseClock r.PurchaseTime).isSome = false := by
  rcases validation_cases r with h | ⟨_, h⟩ | ⟨_, _, h3⟩ | ⟨_, _, h3, h4⟩ | h
  · exact absurd h h1
  · rw [h] at h2
    simp at h2
  · rw [processReceiptHandler_badTime receipts r newId h1 h2 h3, h3]
    simp
  · rw [processReceiptHandler_blank receipts r newId h1 h2 h3 h4]
    simp [h3, msgEmptyDescription, msgInvalidTime]
  · rw [processReceiptHandler_valid receipts r newId h]
    simp [h.2.2.1]

theorem response_invalidDate_iff (receipts : SyncMap) (r : Receipt) (newId : String)
    (h1 : r.Items ≠ []) :
    (processReceiptHandler receipts (some r) newId).2 = Response.error 400 msgInvalidDate ↔
      (parseDate r.PurchaseDate).isSome = false := by
  rcases validation_cases r with h | ⟨_, h⟩ | ⟨_, h2, h3⟩ | ⟨_, h2, h3, h4⟩ | h
  · exact absurd h h1
  · rw [processReceiptHandler_badDate receipts r newId h1 h, h]
    simp
  · rw [processReceiptHandler_badTime receipts r newId h1 h2 h3]
    simp [h2, msgInvalidDate, msgInvalidTime]
  · rw [processReceiptHandler_blank receipts r newId h1 h2 h3 h4]
    simp [h2, msgEmptyDescription, msgInvalidDate]
  · rw [processReceiptHandler_valid receipts r newId h]
    simp [h.2.1]

/-- C12 (amended): for every receipt with an item and a purchase date that parses,
`processReceiptHandler` answers with the invalid-time rejection exactly when the purchase
time is not a clock text in the sense of `isClockText` (an hour of one or two digits below
24, a colon, a minute of two digits below 60), and a rejection leaves the store as it was.
Every exact `HH:MM` text is such a clock text and so passes the check. -/
theorem C12_time_validation_amended (receipts : SyncMap) (r : Receipt) (newId : String)
    (h1 : r.Items ≠ []) (h2 : (parseDate r.PurchaseDate).isSome = true) :
    ((processReceiptHandler receipts (some r) newId).2 = Response.error 400 msgInvalidTime ↔
      isClockText r.PurchaseTime = false) ∧
    (isClockText r.PurchaseTime = false →
      processReceiptHandler receipts (some r) newId =
        (receipts, Response.error 400 msgInvalidTime)) ∧
    (isStrictClockText r.PurchaseTime = true →
      (processReceiptHandler receipts (some r) newId).2 ≠ Response.error 400 msgInvalidTime) := by
  have hiff := response_invalidTime_iff receipts r newId h1 h2
  rw [parseClock_isSome] at hiff
  refine ⟨hiff, ?_, ?_⟩
  · intro h
    rw [← parseClock_isSome] at h
    apply processReceiptHandler_badTime receipts r newId h1 h2
    cases hp : parseClock r.PurchaseTime with
    | none => rfl
    | some c =>
      rw [hp] at h
      simp at h
  · intro hs hout
    have hc := isClockText_of_strict _ hs
    rw [hiff.mp hout] at hc
    exact Bool.noConfusion hc

/-- C12 (amended) at the example receipt with the times "24:00", "13:60", "14:00:00"
(rejected), "13:01" and "9:05" (not rejected). -/
theorem C12_time_validation_amended_witness :
    ((withTime exampleReceipt "24:00").Items ≠ [] ∧
      (parseDate (withTime exampleReceipt "24:00").PurchaseDate).isSome = true) ∧
    processReceiptHandler [] (some (withTime exampleReceipt "24:00")) "a1" =
      ([], Response.error 400 msgInvalidTime) ∧
    processReceiptHandler [] (some (withTime exampleReceipt "13:60")) "a1" =
      ([], Response.error 400 msgInvalidTime) ∧
    processReceiptHandler [] (some (withTime exampleReceipt "14:00:00")) "a1" =
      ([], Response.error 400 msgInvalidTime) ∧
    (processReceiptHandler [] (some (withTime exampleReceipt "13:01")) "a1").2 ≠
      Response.error 400 msgInvalidTime ∧
    ((processReceiptHandler [] (some (withTime exampleReceipt "9:05")) "a1").2 =
        Response.error 400 msgInvalidTime ↔
      isClockText (withTime exampleReceipt "9:05").PurchaseTime = false) :=
  ⟨⟨by decide, by decide⟩,
    (C12_time_validation_amended [] (withTime exampleReceipt "24:00") "a1"
      (by decide) (by decide)).2.1 (by decide),
    (C12_time_validation_amended [] (withTime exampleReceipt "13:60") "a1"
      (by decide) (by decide)).2.1 (by decide),
    (C12_time_validation_amended [] (withTime exampleReceipt "14:00:00") "a1"
      (by decide) (by decide)).2.1 (by decide),
    (C12_time_validation_amended [] (withTime exampleReceipt "13:01") "a1"
      (by decide) (by decide)).2.2 (by decide),
    (C12_time_validation_amended [] (withTime exampleReceipt "9:05") "a1"
      (by decide) (by decide)).1⟩

/-- C12 (counterexample): the purchase time "9:05" is not of the exact form `HH:MM`, yet
the example receipt with that time and a valid date is accepted and stored instead of
being rejected with the invalid-time reason. -/
theorem C12_time_validation_counterexample :
    isStrictClockText "9:05" = false ∧
    (withTime exampleReceipt "9:05").Items ≠ [] ∧
    (parseDate (withTime exampleReceipt "9:05").PurchaseDate).isSome = true ∧
    (parseClock "9:05") = some ⟨9, 5⟩ ∧
    (processReceiptHandler [] (some (withTime exampleReceipt "9:05")) "a1").2 =
      Response.id "a1" ∧
    (processReceiptHandler [] (some (withTime exampleReceipt "9:05")) "a1").2 ≠
      Response.error 400 msgInvalidTime := by
  have hv : passesValidation (withTime exampleReceipt "9:05") := by
    unfold passesValidation
    decide
  refine ⟨by decide, by decide, by decide, by decide, ?_, ?_⟩
  · rw [processReceiptHandler_valid [] _ "a1" hv]
  · rw [processReceiptHandler_valid [] _ "a1" hv]
    simp

/-- C13: for every receipt with an item, `processReceiptHandler` answers with the
invalid-date rejection exactly when the purchase date is not of the exact form
`YYYY-MM-DD` with a four-digit year, a two-digit month 01-12 and a two-digit day that
exists in that month of that year (`isStrictDate`); a rejection leaves the store as it
was. -/
theorem C13_date_validation (receipts : SyncMap) (r : Receipt) (newId : String)
    (h1 : r.Items ≠ []) :
    ((processReceiptHandler receipts (some r) newId).2 = Response.error 400 msgInvalidDate ↔
      isStrictDate r.PurchaseDate = false) ∧
    (isStrictDate r.PurchaseDate = false →
      processReceiptHandler receipts (some r) newId =
        (receipts, Response.error 400 msgInvalidDate)) ∧
    (isStrictDate r.PurchaseDate = true →
      (processReceiptHandler receipts (some r) newId).2 ≠ Response.error 400 msgInvalidDate) := by
  have hiff := response_invalidDate_iff receipts r newId h1
  rw [parseDate_isSome] at hiff
  refine ⟨hiff, ?_, ?_⟩
  · intro h
    rw [← parseDate_isSome] at h
    apply processReceiptHandler_badDate receipts r newId h1
    cases hp : parseDate r.PurchaseDate with
    | none => rfl
    | some c =>
      rw [hp] at h
      simp at h
  · intro hs hout
    rw [hiff.mp hout] at hs
    exact Bool.noConfusion hs

/-- C13 at the example receipt with the dates "2024-02-29" (passes), "2023-02-29",
"2022-02-30", "2022-13-01" and "2022-1-1" (rejected). -/
theorem C13_date_validation_witness :
    (withDate exampleReceipt "2024-02-29").Items ≠ [] ∧
    (processReceiptHandler [] (some (withDate exampleReceipt "2024-02-29")) "a1").2 ≠
      Response.error 400 msgInvalidDate ∧
    processReceiptHandler [] (some (withDate exampleReceipt "2023-02-29")) "a1" =
      ([], Response.error 400 msgInvalidDate) ∧
    processReceiptHandler [] (some (withDate exampleReceipt "2022-02-30")) "a1" =
      ([], Response.error 400 msgInvalidDate) ∧
    processReceiptHandler [] (some (withDate exampleReceipt "2022-13-01")) "a1" =
      ([], Response.error 400 msgInvalidDate) ∧
    processReceiptHandler [] (some (withDate exampleReceipt "2022-1-1")) "a1" =
      ([], Response.error 400 msgInvalidDate) :=
  ⟨by decide,
    (C13_date_validation [] (withDate exampleReceipt "2024-02-29") "a1" (by decide)).2.2
      (by decide),
    (C13_date_validation [] (withDate exampleReceipt "2023-02-29") "a1" (by decide)).2.1
      (by decide),
    (C13_date_validation [] (withDate exampleReceipt "2022-02-30") "a1" (by decide)).2.1
      (by decide),
    (C13_date_validation [] (withDate exampleReceipt "2022-13-01") "a1" (by decide)).2.1
      (by decide),
    (C13_date_validation [] (withDate exampleReceipt "2022-1-1") "a1" (by decide)).2.1
      (by decide)⟩

end ReceiptChallenge
